import Mathlib

/-!
# Line and jog executors of the bbctrl AVR firmware

A shallow embedding of `src/avr/src/line.c` and `src/avr/src/jog.c`, of the
emergency stop of `src/avr/src/estop.c` and of the variable reader `_get` of
`src/avr/src/vars.c`.

* `float` values are exact rationals (`ℚ`): there is no rounding, no infinity
  and no NaN.  `fabs` is the absolute value, `sqrt` is supplied by the
  environment and `FLT_MAX` is the rational number of that value.
* `int` counters are integers (`Int`) and `uint16_t` identifiers are naturals
  that are only copied and compared.
* The tick time of `_line_exec` depends on the rounding of `float` and on the
  width of the `int` counter `l.seg`.  For it there is a second embedding of
  the function, `_line_exec_arith`, in which each result of the block "Compute
  times" is rounded to `float` and `++l.seg` wraps at `INT_MAX`; `arith_avr` is
  the arithmetic of the AVR, with binary32 rounding to nearest (`binary32`) and
  a 16-bit `int`.  With exact results and the counter below `INT_MAX` it is
  `_line_exec`.
* A `char *` command is a `List Char`; advancing the pointer drops characters.
* The static structures `l` and `jr`, the static `estop_reason`, the command
  queue, the executor and the machine state are fields of one explicit `world`
  value that every operation takes and returns.  Calls into the actuators are also appended, in call
  order, to `world.trace`.
* Everything the sources use whose definition is in another file of the
  firmware (configuration constants, the text decoders, the axis settings and
  the stateful part of the `SCurve` class) is a field of the environment
  `env`, so that the theorems hold for every choice of them.  The collaborators
  whose effect the statements need (command queue, executor, spindle, machine
  state and the closed forms `SCurve::distance`, `SCurve::velocity` and
  `SCurve::acceleration`) are modelled at their interface.
-/

namespace Bbctrl

/-! ## Data model -/

/-- Status codes (`stat_t`) used by the embedded files. -/
inductive stat_t
  | STAT_OK
  | STAT_NOP
  | STAT_BAD_FLOAT
  | STAT_BAD_INT
  | STAT_INVALID_ARGUMENTS
  | STAT_INVALID_COMMAND
  | STAT_NEGATIVE_SCURVE_TIME
  | STAT_ALL_ZERO_SCURVE_TIMES
  | STAT_UNRECOGNIZED_NAME
  | STAT_READ_ONLY
  | STAT_ESTOP_USER
  | STAT_ESTOP_SWITCH
  | STAT_POWER_SHUTDOWN
  deriving DecidableEq, Repr

/-- Machine states (`state_t`). -/
inductive state_t
  | STATE_READY
  | STATE_ESTOPPED
  | STATE_RUNNING
  | STATE_JOGGING
  | STATE_STOPPING
  | STATE_HOLDING
  deriving DecidableEq, Repr

/-- The callback registered with the executor through `exec_set_cb`:
`none` is the null pointer. -/
inductive exec_cb
  | none
  | _line_exec
  | jog_exec
  deriving DecidableEq, Repr

/-- The value of `FLT_MAX` from `<float.h>`: `(2^24 - 1) * 2^104`. -/
def FLT_MAX : ℚ := 340282346638528859811704183484516925440

/-- Record `line_t` of `line.c`. -/
structure line_t (AXES : Nat) where
  start : Fin AXES → ℚ
  target : Fin AXES → ℚ
  times : Fin 7 → ℚ
  target_vel : ℚ
  max_vel : ℚ
  max_accel : ℚ
  max_jerk : ℚ
  unit : Fin AXES → ℚ
  length : ℚ

/-- The zero record produced by `line_t line = {}`. -/
def line_t.zero (AXES : Nat) : line_t AXES where
  start := fun _ => 0
  target := fun _ => 0
  times := fun _ => 0
  target_vel := 0
  max_vel := 0
  max_accel := 0
  max_jerk := 0
  unit := fun _ => 0
  length := 0

/-- Record `speed_t` of `line.c`: a synchronized speed change. -/
structure speed_t where
  offset : ℚ
  speed : ℚ

/-- The static structure `l` of `line.c`.  The C field `section` is named
`section_` here. -/
structure l_t (AXES : Nat) where
  line : line_t AXES
  section_ : Int
  seg : Int
  iD : ℚ
  iV : ℚ
  iA : ℚ
  jerk : ℚ
  lV : ℚ
  speed : speed_t

/-- The structure `jr_t` of `jog.c`. -/
structure jr_t (AXES : Nat) (SCurve : Type) where
  holding : Bool
  writing : Bool
  scurves : Fin AXES → SCurve
  next : Fin AXES → ℚ
  targetV : Fin AXES → ℚ
  id : Nat
  nextID : Nat
  lastID : Nat

/-- An entry of the command queue: the opcode with its payload. -/
inductive command_t (AXES : Nat)
  | COMMAND_line (line : line_t AXES)
  | COMMAND_sync_speed (s : speed_t)
  | COMMAND_other (code : Char)

/-- The arguments of one call of `exec_segment`. -/
structure segment_t (AXES : Nat) where
  time : ℚ
  target : Fin AXES → ℚ
  vel : ℚ
  accel : ℚ
  maxVel : ℚ
  maxAccel : ℚ
  maxJerk : ℚ

/-- The switches that the embedded files read. -/
inductive switch_id_t
  | SW_ESTOP
  deriving DecidableEq, Repr

/-- The output pins that the embedded files drive. -/
inductive pin_t
  | FAULT_PIN
  deriving DecidableEq, Repr

/-- Calls into the executor, the spindle, the machine state, the outputs and
the hardware, as recorded in `world.trace`. -/
inductive event (AXES : Nat)
  | exec_set_cb (cb : exec_cb)
  | exec_set_jerk (jerk : ℚ)
  | exec_set_velocity (v : ℚ)
  | exec_segment (s : segment_t AXES)
  | exec_move_to_target (target : Fin AXES → ℚ)
  | spindle_set_speed (speed : ℚ)
  | command_reset_position
  | state_holding
  | state_idle
  | state_jogging
  | outputs_set_active (pin : pin_t) (active : Bool)
  | hw_request_hard_reset
  | st_shutdown
  | spindle_estop
  | outputs_stop
  | state_estop

/-- Everything the embedded functions read or write. -/
structure world (AXES : Nat) (SCurve : Type) where
  /-- the commanded position kept by `command_get_position` and
  `command_set_position` -/
  position : Fin AXES → ℚ
  /-- the command queue, head first -/
  queue : List (command_t AXES)
  /-- the callback held by the executor -/
  cb : exec_cb
  /-- the velocity held by the executor -/
  velocity : ℚ
  /-- the axis positions held by the executor -/
  exec_position : Fin AXES → ℚ
  /-- the machine state -/
  state : state_t
  /-- the static structure of `line.c` -/
  l : l_t AXES
  /-- the static structure of `jog.c` -/
  jr : jr_t AXES SCurve
  /-- the static `estop_reason` of `estop.c` -/
  estop_reason : stat_t
  /-- the actuator calls made so far, oldest first -/
  trace : List (event AXES)

/-- The parts of the firmware that `line.c`, `jog.c` and `estop.c` call or
read and that are defined elsewhere.  A decoder returns its result together with the number
of characters by which it advances the command pointer. -/
structure env (AXES : Nat) (SCurve : Type) where
  SEGMENT_TIME : ℚ
  MIN_VELOCITY : ℚ
  JOG_STOPPING_UNDERSHOOT : ℚ
  sqrt : ℚ → ℚ
  decode_float : List Char → Option ℚ × Nat
  decode_hex_u16 : List Char → Option Nat × Nat
  decode_axes : List Char → (Fin AXES → ℚ) → stat_t × (Fin AXES → ℚ) × Nat
  exec_segment_status : segment_t AXES → stat_t
  axis_is_enabled : Fin AXES → Bool
  axis_get_homed : Fin AXES → Bool
  axis_get_velocity_max : Fin AXES → ℚ
  axis_get_accel_max : Fin AXES → ℚ
  axis_get_jerk_max : Fin AXES → ℚ
  axis_get_soft_limit : Fin AXES → Bool → ℚ
  SCurve_new : ℚ → ℚ → ℚ → SCurve
  /-- the `SCurve` object whose bytes are all zero, as `memset` leaves it -/
  SCurve_zero : SCurve
  getVelocity : SCurve → ℚ
  getStoppingDist : SCurve → ℚ
  next : SCurve → ℚ → ℚ → ℚ × SCurve
  /-- the debounced state of a switch, as `switch_is_active` reports it -/
  switch_is_active : switch_id_t → Bool

variable {AXES : Nat} {SCurve : Type}

/-! ## Collaborators, modelled at their interface -/

/-- Modelled from the spec: `command.c` is not among the sources.
`command_get_position` copies the commanded position. -/
def command_get_position (w : world AXES SCurve) : Fin AXES → ℚ :=
  w.position

/-- Modelled from the spec: `command.c` is not among the sources.
`command_set_position` stores the commanded position. -/
def command_set_position (position : Fin AXES → ℚ) (w : world AXES SCurve) :
    world AXES SCurve :=
  { w with position := position }

/-- Modelled from the spec: `command.c` is not among the sources.
`command_push` appends an entry at the tail of the queue. -/
def command_push (c : command_t AXES) (w : world AXES SCurve) : world AXES SCurve :=
  { w with queue := w.queue ++ [c] }

/-- Modelled from the spec: `command.c` is not among the sources.
`command_next` removes the entry at the head of the queue. -/
def command_next (w : world AXES SCurve) : world AXES SCurve :=
  { w with queue := w.queue.tail }

/-- Modelled from the spec: `exec.c` is not among the sources.
`exec_set_cb` replaces the active callback. -/
def exec_set_cb (cb : exec_cb) (w : world AXES SCurve) : world AXES SCurve :=
  { w with cb := cb, trace := w.trace ++ [event.exec_set_cb cb] }

/-- Modelled from the spec: `exec.c` is not among the sources.
`exec_set_jerk` reports the jerk of the current section. -/
def exec_set_jerk (jerk : ℚ) (w : world AXES SCurve) : world AXES SCurve :=
  { w with trace := w.trace ++ [event.exec_set_jerk jerk] }

/-- Modelled from the spec: `exec.c` is not among the sources.
`exec_set_velocity` stores the velocity that `exec_get_velocity` returns. -/
def exec_set_velocity (v : ℚ) (w : world AXES SCurve) : world AXES SCurve :=
  { w with velocity := v, trace := w.trace ++ [event.exec_set_velocity v] }

/-- Modelled from the spec: `exec.c` is not among the sources.
`exec_segment` hands one segment to the executor; its status comes from the
environment. -/
def exec_segment (E : env AXES SCurve) (s : segment_t AXES) (w : world AXES SCurve) :
    stat_t × world AXES SCurve :=
  (E.exec_segment_status s, { w with trace := w.trace ++ [event.exec_segment s] })

/-- Modelled from the spec: `exec.c` is not among the sources.
`exec_move_to_target` moves the executor position to the target. -/
def exec_move_to_target (target : Fin AXES → ℚ) (w : world AXES SCurve) :
    world AXES SCurve :=
  { w with exec_position := target,
           trace := w.trace ++ [event.exec_move_to_target target] }

/-- Modelled from the spec: `spindle.c` is not among the sources.
`spindle_set_speed` is recorded in the trace. -/
def spindle_set_speed (speed : ℚ) (w : world AXES SCurve) : world AXES SCurve :=
  { w with trace := w.trace ++ [event.spindle_set_speed speed] }

/-- Modelled from the spec: `SCurve.h` is not among the sources.
`SCurve::distance(t, v, a, j)`, the distance covered after time `t`. -/
def SCurve_distance (t v a j : ℚ) : ℚ :=
  v * t + (1 / 2) * a * t ^ 2 + (1 / 6) * j * t ^ 3

/-- Modelled from the spec: `SCurve.h` is not among the sources.
`SCurve::velocity(t, a, j)`, the velocity gained after time `t`. -/
def SCurve_velocity (t a j : ℚ) : ℚ :=
  a * t + (1 / 2) * j * t ^ 2

/-- Modelled from the spec: `SCurve.h` is not among the sources.
`SCurve::acceleration(t, j)`, the acceleration gained after time `t`. -/
def SCurve_acceleration (t j : ℚ) : ℚ :=
  j * t

/-! ## `line.c`: accepting a line command -/

/-- The loop `while (*cmd)` of `command_line` that reads the section times.
It returns the status of an early `return`, or the times, `has_time` and the
rest of the command. -/
def command_line_times (E : env AXES SCurve) (cmd : List Char) (times : Fin 7 → ℚ)
    (has_time : Bool) : Except stat_t ((Fin 7 → ℚ) × Bool × List Char) :=
  match cmd with
  | [] => .ok (times, has_time, [])
  | c :: cmd1 =>
    if c < '0' ∨ '6' < c then .ok (times, has_time, c :: cmd1)
    else
      let section_ : Fin 7 := Fin.ofNat (c.toNat - '0'.toNat)
      match E.decode_float cmd1 with
      | (none, _) => .error .STAT_BAD_FLOAT
      | (some time, n) =>
        if time < 0 then .error .STAT_NEGATIVE_SCURVE_TIME
        else
          command_line_times E (cmd1.drop n) (Function.update times section_ time)
            (if time ≠ 0 then true else has_time)
termination_by cmd.length
decreasing_by
  simp only [List.length_drop, List.length_cons]
  omega

/-- The texts at which the times loop of `command_line` stands at the start
of an iteration: the text it starts on, and the text left by an iteration that
read a section index and a time that is not negative. -/
inductive command_line_times_reaches (E : env AXES SCurve) : List Char → List Char → Prop
  | start (cmd : List Char) : command_line_times_reaches E cmd cmd
  | next (c : Char) (rest : List Char) (time : ℚ) (n : Nat) (cmd : List Char) :
      ¬(c < '0' ∨ '6' < c) → E.decode_float rest = (some time, n) → 0 ≤ time →
      command_line_times_reaches E (rest.drop n) cmd →
      command_line_times_reaches E (c :: rest) cmd

/-- The two loops of `command_line` that compute the direction vector and
the length of the line.  A division by a zero length gives 0 in `ℚ` where the
float code gives an infinity; it does not occur when `sqrt` is zero at zero
only. -/
def command_line_direction (E : env AXES SCurve) (line : line_t AXES) : line_t AXES :=
  let unit : Fin AXES → ℚ := fun axis => line.target axis - line.start axis
  let length : ℚ :=
    (List.finRange AXES).foldl (fun length axis => length + unit axis * unit axis)
      line.length
  let length := E.sqrt length
  { line with
    unit := fun axis => if unit axis ≠ 0 then unit axis / length else unit axis
    length := length }

/-- One iteration of the loop of `command_line` that computes `max_vel`. -/
def command_line_max_vel_step (E : env AXES SCurve) (line : line_t AXES)
    (max_vel : ℚ) (axis : Fin AXES) : ℚ :=
  if line.unit axis ≠ 0 then
    let axis_max_vel := E.axis_get_velocity_max axis / |line.unit axis|
    if axis_max_vel < max_vel then axis_max_vel else max_vel
  else max_vel

/-- The loop of `command_line` that computes `max_vel`. -/
def command_line_max_vel (E : env AXES SCurve) (line : line_t AXES) : ℚ :=
  (List.finRange AXES).foldl (command_line_max_vel_step E line) FLT_MAX

/-- What `command_line` does once every check has passed: it stores the next
start position, completes the record and queues it. -/
def command_line_accept (E : env AXES SCurve) (line : line_t AXES)
    (w : world AXES SCurve) : world AXES SCurve :=
  let w := command_set_position line.target w
  let line := command_line_direction E line
  let line : line_t AXES := { line with max_vel := command_line_max_vel E line }
  command_push (command_t.COMMAND_line line) w

/-- Function `command_line`: the status it returns and the world it leaves. -/
def command_line (E : env AXES SCurve) (cmd : List Char) (w : world AXES SCurve) :
    stat_t × world AXES SCurve :=
  let line : line_t AXES := line_t.zero AXES
  let cmd := cmd.drop 1
  let line : line_t AXES := { line with start := command_get_position w }
  match E.decode_float cmd with
  | (none, _) => (.STAT_BAD_FLOAT, w)
  | (some target_vel, n) =>
    let cmd := cmd.drop n
    let line : line_t AXES := { line with target_vel := target_vel }
    if line.target_vel < 0 then (.STAT_INVALID_ARGUMENTS, w)
    else
      match E.decode_float cmd with
      | (none, _) => (.STAT_BAD_FLOAT, w)
      | (some max_accel, n) =>
        let cmd := cmd.drop n
        let line : line_t AXES := { line with max_accel := max_accel }
        if line.max_accel < 0 then (.STAT_INVALID_ARGUMENTS, w)
        else
          match E.decode_float cmd with
          | (none, _) => (.STAT_BAD_FLOAT, w)
          | (some max_jerk, n) =>
            let cmd := cmd.drop n
            let line : line_t AXES := { line with max_jerk := max_jerk }
            if line.max_jerk < 0 then (.STAT_INVALID_ARGUMENTS, w)
            else
              let line : line_t AXES := { line with target := line.start }
              match E.decode_axes cmd line.target with
              | (status, target, n) =>
                if status ≠ .STAT_OK then (status, w)
                else
                  let cmd := cmd.drop n
                  let line : line_t AXES := { line with target := target }
                  match command_line_times E cmd line.times false with
                  | .error status => (status, w)
                  | .ok (times, has_time, cmd) =>
                    let line : line_t AXES := { line with times := times }
                    if !has_time then (.STAT_ALL_ZERO_SCURVE_TIMES, w)
                    else if cmd ≠ [] then (.STAT_INVALID_ARGUMENTS, w)
                    else (.STAT_OK, command_line_accept E line w)

/-- The record that `command_line` has assembled when its checks are done. -/
def command_line_record (w : world AXES SCurve) (target_vel max_accel max_jerk : ℚ)
    (target : Fin AXES → ℚ) (times : Fin 7 → ℚ) : line_t AXES :=
  { start := w.position, target := target, times := times, target_vel := target_vel,
    max_vel := 0, max_accel := max_accel, max_jerk := max_jerk, unit := fun _ => 0,
    length := 0 }

/-! ## `line.c`: executing a line -/

/-- The array element `l.line.times[section]`.  The C index is an `int`; an
index outside `0..6` is not a defined read, and is reduced into range here. -/
def line_t.time (line : line_t AXES) (section_ : Int) : ℚ :=
  line.times (Fin.ofNat section_.toNat)

/-- Function `_segment_target`: the position at distance `d` along the line. -/
def _segment_target (w : world AXES SCurve) (d : ℚ) : Fin AXES → ℚ :=
  fun axis => w.l.line.start axis + w.l.line.unit axis * d

/-- Function `_segment_distance`. -/
def _segment_distance (w : world AXES SCurve) (t : ℚ) : ℚ :=
  w.l.iD + SCurve_distance t w.l.iV w.l.iA w.l.jerk

/-- Function `_segment_velocity`. -/
def _segment_velocity (w : world AXES SCurve) (t : ℚ) : ℚ :=
  w.l.iV + SCurve_velocity t w.l.iA w.l.jerk

/-- Function `_segment_accel`. -/
def _segment_accel (w : world AXES SCurve) (t : ℚ) : ℚ :=
  w.l.iA + SCurve_acceleration t w.l.jerk

/-- The first `switch` of `_section_next`: the jerk of a section. -/
def _section_jerk (line : line_t AXES) (section_ : Int) : ℚ :=
  if section_ = 0 ∨ section_ = 6 then line.max_jerk
  else if section_ = 2 ∨ section_ = 4 then -line.max_jerk
  else 0

/-- The second `switch` of `_section_next`: the initial acceleration of a
section. -/
def _section_accel (line : line_t AXES) (section_ : Int) : ℚ :=
  if section_ = 1 ∨ section_ = 2 then line.max_jerk * line.times 0
  else if section_ = 5 ∨ section_ = 6 then -line.max_jerk * line.times 4
  else 0

/-- Function `_section_next`: the loop `while (++l.section < 7)`. -/
def _section_next (w : world AXES SCurve) : Bool × world AXES SCurve :=
  let w : world AXES SCurve := { w with l := { w.l with section_ := w.l.section_ + 1 } }
  if w.l.section_ < 7 then
    if w.l.line.time w.l.section_ = 0 then _section_next w
    else
      let w : world AXES SCurve :=
        { w with l := { w.l with jerk := _section_jerk w.l.line w.l.section_ } }
      let w := exec_set_jerk w.l.jerk w
      let w : world AXES SCurve :=
        { w with l := { w.l with iA := _section_accel w.l.line w.l.section_ } }
      (true, w)
  else (false, w)
termination_by (6 - w.l.section_).toNat
decreasing_by
  simp only [] at *
  omega

/-- The first statement of the loop of `_set_sync_speeds`: load the next
synchronized speed when none is pending and the queue head is one. -/
def _set_sync_speeds_load (w : world AXES SCurve) : world AXES SCurve :=
  if w.l.speed.offset < 0 then
    match w.queue with
    | command_t.COMMAND_sync_speed s :: _ =>
      command_next { w with l := { w.l with speed := s } }
    | _ => w
  else w

/-- The loop `while (true)` of `_set_sync_speeds`; `speed` is the local
variable of that name. -/
def _set_sync_speeds_loop (d : ℚ) (w : world AXES SCurve) (speed : ℚ) :
    ℚ × world AXES SCurve :=
  let w1 := _set_sync_speeds_load w
  if w1.l.speed.offset < 0 ∨ d < w1.l.speed.offset then (speed, w1)
  else
    _set_sync_speeds_loop d
      { w1 with l := { w1.l with speed := { w1.l.speed with offset := -1 } } }
      w1.l.speed.speed
termination_by 2 * w.queue.length + (if w.l.speed.offset < 0 then 0 else 1)
decreasing_by
  rename_i h
  simp only [not_or, not_lt] at h
  have h0 : 0 ≤ (_set_sync_speeds_load w).l.speed.offset := h.1
  have hneg : (-1 : ℚ) < 0 := by norm_num
  simp only [_set_sync_speeds_load, command_next] at h0 ⊢
  by_cases hoff : w.l.speed.offset < 0
  · rw [if_pos hoff] at h0 ⊢
    split at h0
    · rename_i s tl hq
      simp only [hq, List.tail_cons, List.length_cons, if_pos hneg, if_pos hoff]
      omega
    · exact absurd hoff (not_lt.mpr h0)
  · rw [if_neg hoff]
    simp only [if_pos hneg, if_neg hoff]
    omega

/-- Function `_set_sync_speeds`. -/
def _set_sync_speeds (d : ℚ) (w : world AXES SCurve) : world AXES SCurve :=
  match _set_sync_speeds_loop d w FLT_MAX with
  | (speed, w) => if speed ≠ FLT_MAX then spindle_set_speed speed w else w

/-- Function `_line_exec`: one tick of the line executor. -/
def _line_exec (E : env AXES SCurve) (w : world AXES SCurve) :
    stat_t × world AXES SCurve :=
  let section_time := w.l.line.time w.l.section_
  let seg_time := E.SEGMENT_TIME
  let w : world AXES SCurve := { w with l := { w.l with seg := w.l.seg + 1 } }
  let t : ℚ := (w.l.seg : ℚ) * E.SEGMENT_TIME
  let seg_time : ℚ :=
    if section_time < t then section_time - ((w.l.seg - 1 : Int) : ℚ) * E.SEGMENT_TIME
    else seg_time
  let t : ℚ := if section_time < t then section_time else t
  let d := _segment_distance w t
  let v := _segment_velocity w t
  let a := _segment_accel w t
  let d := if w.l.line.length < d then w.l.line.length else d
  let w := _set_sync_speeds d w
  if t = section_time then
    match _section_next w with
    | (true, w) =>
      let w : world AXES SCurve := { w with l := { w.l with seg := 0, iD := d, iV := v } }
      exec_segment E
        ⟨seg_time, _segment_target w d, v, a, w.l.line.max_vel, w.l.line.max_accel,
          w.l.line.max_jerk⟩ w
    | (false, w) =>
      let w := exec_set_cb exec_cb.none w
      exec_segment E
        ⟨seg_time, w.l.line.target, w.l.line.target_vel, a, w.l.line.max_vel,
          w.l.line.max_accel, w.l.line.max_jerk⟩ w
  else
    exec_segment E
      ⟨seg_time, _segment_target w d, v, a, w.l.line.max_vel, w.l.line.max_accel,
        w.l.line.max_jerk⟩ w

/-- Function `command_line_exec`: start executing a queued line record. -/
def command_line_exec (data : line_t AXES) (w : world AXES SCurve) : world AXES SCurve :=
  let w : world AXES SCurve := { w with l := { w.l with line := data } }
  let w : world AXES SCurve :=
    { w with l := { w.l with speed := { w.l.speed with offset := -1 } } }
  let w := _set_sync_speeds 0 w
  let w : world AXES SCurve :=
    { w with l := { w.l with seg := 0, iD := 0, iV := if w.velocity ≠ 0 then w.l.lV else 0 } }
  let w : world AXES SCurve := { w with l := { w.l with lV := w.l.line.target_vel } }
  let w : world AXES SCurve := { w with l := { w.l with section_ := -1 } }
  match _section_next w with
  | (false, w) => w
  | (true, w) => exec_set_cb exec_cb._line_exec w

/-! ### Quantities of one tick, for the statements below -/

/-- The statement `l.speed.offset = -1; // Mark done` of `_set_sync_speeds`. -/
def _set_sync_speeds_done (w : world AXES SCurve) : world AXES SCurve :=
  { w with l := { w.l with speed := { w.l.speed with offset := -1 } } }

/-- The elapsed time `t` at which the next call of `_line_exec` samples the
section: the tick count after `++l.seg` times `SEGMENT_TIME`, limited to the
section time. -/
def _line_exec_t (E : env AXES SCurve) (w : world AXES SCurve) : ℚ :=
  if w.l.line.time w.l.section_ < ((w.l.seg + 1 : Int) : ℚ) * E.SEGMENT_TIME then
    w.l.line.time w.l.section_
  else ((w.l.seg + 1 : Int) : ℚ) * E.SEGMENT_TIME

/-- The duration `seg_time` of the segment that the next call of `_line_exec`
emits. -/
def _line_exec_seg_time (E : env AXES SCurve) (w : world AXES SCurve) : ℚ :=
  if w.l.line.time w.l.section_ < ((w.l.seg + 1 : Int) : ℚ) * E.SEGMENT_TIME then
    w.l.line.time w.l.section_ - ((w.l.seg + 1 - 1 : Int) : ℚ) * E.SEGMENT_TIME
  else E.SEGMENT_TIME

/-- The distance `d` that the next call of `_line_exec` works with, after the
step "Don't allow overshoot". -/
def _line_exec_d (E : env AXES SCurve) (w : world AXES SCurve) : ℚ :=
  if w.l.line.length < _segment_distance w (_line_exec_t E w) then w.l.line.length
  else _segment_distance w (_line_exec_t E w)

/-- The world in which `_line_exec` checks for the end of the section: the
tick is counted and the synchronized speeds are handled. -/
def _line_exec_synced (E : env AXES SCurve) (w : world AXES SCurve) : world AXES SCurve :=
  _set_sync_speeds (_line_exec_d E w) { w with l := { w.l with seg := w.l.seg + 1 } }

/-- The speeds passed to `spindle_set_speed` in a trace, in call order. -/
def spindle_speeds : List (event AXES) → List ℚ
  | [] => []
  | event.spindle_set_speed speed :: tr => speed :: spindle_speeds tr
  | _ :: tr => spindle_speeds tr

/-- The executor is inside a section: the section index is one of `0..6`,
its duration is not zero, and the jerk and initial acceleration are the ones
`_section_next` sets on entering that section. -/
def _section_entered (w : world AXES SCurve) : Prop :=
  0 ≤ w.l.section_ ∧ w.l.section_ < 7 ∧ w.l.line.time w.l.section_ ≠ 0 ∧
    w.l.jerk = _section_jerk w.l.line w.l.section_ ∧
    w.l.iA = _section_accel w.l.line w.l.section_

instance (w : world AXES SCurve) : Decidable (_section_entered w) := by
  unfold _section_entered
  infer_instance

/-! ## `jog.c`: one tick of the jog executor -/

/-- Modelled from the spec: `exec.c` is not among the sources.
`exec_get_axis_position` reads the executor position of one axis. -/
def exec_get_axis_position (w : world AXES SCurve) (axis : Fin AXES) : ℚ :=
  w.exec_position axis

/-- Modelled from the spec: `command.c` is not among the sources.
`command_reset_position` resets the commanded position to the last target
given to the executor. -/
def command_reset_position (w : world AXES SCurve) : world AXES SCurve :=
  { w with position := w.exec_position,
           trace := w.trace ++ [event.command_reset_position] }

/-- Modelled from the spec: `state.c` is not among the sources.
`state_holding` moves the machine to the holding state. -/
def state_holding (w : world AXES SCurve) : world AXES SCurve :=
  { w with state := state_t.STATE_HOLDING, trace := w.trace ++ [event.state_holding] }

/-- Modelled from the spec: `state.c` is not among the sources.
`state_idle` moves the machine back to the ready (idle) state. -/
def state_idle (w : world AXES SCurve) : world AXES SCurve :=
  { w with state := state_t.STATE_READY, trace := w.trace ++ [event.state_idle] }

/-- The variables that the axis loop of `jog_exec` updates: the structure
`jr` and the locals `done`, `target` and `velocity_sqr`. -/
structure jog_loop_t (AXES : Nat) (SCurve : Type) where
  jr : jr_t AXES SCurve
  done : Bool
  target : Fin AXES → ℚ
  velocity_sqr : ℚ

/-- The block "Apply soft limits, if enabled and homed" of `jog_exec`: the
target velocity handed to the profile. -/
def jog_exec_targetV (E : env AXES SCurve) (softLimited : Bool) (p vel targetV min max : ℚ)
    (scurve : SCurve) : ℚ :=
  if softLimited = true ∧ E.MIN_VELOCITY < |targetV| then
    let dist := E.getStoppingDist scurve * (1 + E.JOG_STOPPING_UNDERSHOOT / 100)
    let targetV := if vel < 0 ∧ p - dist ≤ min then -E.MIN_VELOCITY else targetV
    if 0 < vel ∧ max ≤ p + dist then E.MIN_VELOCITY else targetV
  else targetV

/-- The block "Don't overshoot soft limits" of `jog_exec`: the new position
of the axis. -/
def jog_exec_position (softLimited : Bool) (p deltaP min max : ℚ) : ℚ :=
  if softLimited = true ∧ 0 < deltaP ∧ max < p + deltaP then max
  else if softLimited = true ∧ deltaP < 0 ∧ p + deltaP < min then min
  else p + deltaP

/-- The body of the axis loop of `jog_exec`.  The writes to `jr.targetV[axis]`
and `jr.scurves[axis]` are collected into one update of `jr`. -/
def jog_exec_axis (E : env AXES SCurve) (w : world AXES SCurve)
    (st : jog_loop_t AXES SCurve) (axis : Fin AXES) : jog_loop_t AXES SCurve :=
  if E.axis_is_enabled axis = false then st
  else
    let jr_targetV : Fin AXES → ℚ :=
      if st.jr.writing = false then
        Function.update st.jr.targetV axis (st.jr.next axis * E.axis_get_velocity_max axis)
      else st.jr.targetV
    let p := exec_get_axis_position w axis
    let vel := E.getVelocity (st.jr.scurves axis)
    let targetV := jr_targetV axis
    let min := E.axis_get_soft_limit axis true
    let max := E.axis_get_soft_limit axis false
    let softLimited : Bool := decide (min ≠ max) && E.axis_get_homed axis
    let targetV := jog_exec_targetV E softLimited p vel targetV min max (st.jr.scurves axis)
    let r := E.next (st.jr.scurves axis) E.SEGMENT_TIME targetV
    let v := r.1
    let deltaP := v * E.SEGMENT_TIME
    let p := jog_exec_position softLimited p deltaP min max
    let done : Bool :=
      if E.MIN_VELOCITY < |v| ∨ E.MIN_VELOCITY < |targetV| then false else st.done
    { jr := { st.jr with
              targetV := jr_targetV
              scurves := Function.update st.jr.scurves axis r.2 }
      done := done
      target := Function.update st.target axis p
      velocity_sqr := st.velocity_sqr + v * v }

/-- The axis loop of `jog_exec`, from `done = true`, a zero `target` and a
zero `velocity_sqr`. -/
def jog_exec_loop (E : env AXES SCurve) (w : world AXES SCurve) : jog_loop_t AXES SCurve :=
  (List.finRange AXES).foldl (jog_exec_axis E w)
    { jr := w.jr, done := true, target := fun _ => 0, velocity_sqr := 0 }

/-- Function `jog_exec`: one tick of the jog executor.  The block "Next jog
ID" writes `jr.lastID` and `jr.id` in one update of `jr`. -/
def jog_exec (E : env AXES SCurve) (w : world AXES SCurve) : stat_t × world AXES SCurve :=
  let st := jog_exec_loop E w
  let next_id : Bool := decide (st.jr.writing = false ∧ st.jr.id ≠ st.jr.nextID)
  let jr : jr_t AXES SCurve :=
    { st.jr with
      lastID := if next_id = true then st.jr.id else st.jr.lastID
      id := if next_id = true then st.jr.nextID else st.jr.id }
  if st.done = true then
    let w : world AXES SCurve := { w with jr := { jr with lastID := jr.id } }
    let w := command_reset_position w
    let w := exec_set_velocity 0 w
    let w := exec_set_cb exec_cb.none w
    if w.jr.holding = true then (stat_t.STAT_NOP, state_holding w)
    else (stat_t.STAT_NOP, state_idle w)
  else
    let w : world AXES SCurve := { w with jr := jr }
    let w := exec_set_velocity (E.sqrt st.velocity_sqr) w
    let w := exec_move_to_target st.target w
    (stat_t.STAT_OK, w)

/-- A jog session seen from the executor: before each tick the operator's
requested velocity fractions `jr.next` may have been replaced, then the tick
runs.  One entry of `requests` per tick. -/
def jog_run (E : env AXES SCurve) (requests : List (Fin AXES → ℚ))
    (w : world AXES SCurve) : world AXES SCurve :=
  requests.foldl (fun w next => (jog_exec E { w with jr := { w.jr with next := next } }).2) w

/-- The targets passed to `exec_move_to_target` in a trace, in call order. -/
def move_targets : List (event AXES) → List (Fin AXES → ℚ)
  | [] => []
  | event.exec_move_to_target target :: tr => target :: move_targets tr
  | _ :: tr => move_targets tr

/-! ## A concrete environment

Four axes, command fields of one character, and a profile that reaches its
target velocity within one tick.  It is used to run the definitions above on
concrete commands. -/

/-- A float field of one character: a decimal digit is its own value and
`-` is `-1`; any other character is not a float. -/
def sample_decode_float : List Char → Option ℚ × Nat
  | [] => (none, 0)
  | c :: _ =>
    if c = '-' then (some (-1), 1)
    else if c.isDigit then (some ((c.toNat - '0'.toNat : Nat) : ℚ), 1)
    else (none, 1)

/-- The axis named by a character, for the axis names `xyza`. -/
def sample_axis : Char → Option (Fin 4)
  | 'x' => some 0
  | 'y' => some 1
  | 'z' => some 2
  | 'a' => some 3
  | _ => none

/-- A list of axis names, each followed by a float field. -/
def sample_decode_axes : List Char → (Fin 4 → ℚ) → stat_t × (Fin 4 → ℚ) × Nat
  | [], axes => (stat_t.STAT_OK, axes, 0)
  | [c], axes =>
    match sample_axis c with
    | none => (stat_t.STAT_OK, axes, 0)
    | some _ => (stat_t.STAT_BAD_FLOAT, axes, 0)
  | c :: f :: cmd, axes =>
    match sample_axis c with
    | none => (stat_t.STAT_OK, axes, 0)
    | some i =>
      match (sample_decode_float [f]).1 with
      | none => (stat_t.STAT_BAD_FLOAT, axes, 0)
      | some x =>
        let r := sample_decode_axes cmd (Function.update axes i x)
        (r.1, r.2.1, r.2.2 + 2)

/-- An identifier field of one character: a decimal digit is its own value;
any other character is not an identifier. -/
def sample_decode_hex_u16 : List Char → Option Nat × Nat
  | [] => (none, 0)
  | c :: _ => if c.isDigit then (some (c.toNat - '0'.toNat), 1) else (none, 1)

/-- The sample environment: a tick of `1`, every axis enabled and homed
with soft limits `[0, 100]` and a velocity limit of `10`; the estop switch is
released. -/
def sample_env : env 4 ℚ where
  SEGMENT_TIME := 1
  MIN_VELOCITY := 1 / 100
  JOG_STOPPING_UNDERSHOOT := 1
  sqrt := Rat.sqrt
  decode_float := sample_decode_float
  decode_hex_u16 := sample_decode_hex_u16
  decode_axes := sample_decode_axes
  exec_segment_status := fun _ => stat_t.STAT_OK
  axis_is_enabled := fun _ => true
  axis_get_homed := fun _ => true
  axis_get_velocity_max := fun _ => 10
  axis_get_accel_max := fun _ => 10
  axis_get_jerk_max := fun _ => 100
  axis_get_soft_limit := fun _ is_min => if is_min then 0 else 100
  SCurve_new := fun _ _ _ => 0
  SCurve_zero := 0
  getVelocity := fun v => v
  getStoppingDist := fun _ => 0
  next := fun _ _ targetV => (targetV, targetV)
  switch_is_active := fun _ => false

/-- The sample world: at rest at the origin, nothing queued, no line or jog
in progress. -/
def sample_world : world 4 ℚ where
  position := fun _ => 0
  queue := []
  cb := exec_cb.none
  velocity := 0
  exec_position := fun _ => 0
  state := state_t.STATE_READY
  l :=
    { line := line_t.zero 4
      section_ := 0
      seg := 0
      iD := 0
      iV := 0
      iA := 0
      jerk := 0
      lV := 0
      speed := { offset := -1, speed := 0 } }
  jr :=
    { holding := false
      writing := false
      scurves := fun _ => 0
      next := fun _ => 0
      targetV := fun _ => 0
      id := 0
      nextID := 0
      lastID := 0 }
  estop_reason := stat_t.STAT_OK
  trace := []

/-- A line command that names section 0 twice: target velocity 0, maximum
acceleration 5, maximum jerk 9, target x = 5, then time 1 and time 0 for
section 0. -/
def sample_line_repeated_section : List Char :=
  ['l', '0', '5', '9', 'x', '5', '0', '1', '0', '0']

/-- A line command with a negative target velocity. -/
def sample_line_negative_velocity : List Char :=
  ['l', '-', '5', '9', 'x', '5', '0', '1']

/-- A line command that gives time 1 to section 0 and then time `-1` to
section 1. -/
def sample_line_negative_time : List Char :=
  ['l', '0', '5', '9', 'x', '5', '0', '1', '1', '-']

/-- A line command to x = 3, y = 4 with time 1 for section 0: target velocity
0, maximum acceleration 5, maximum jerk 9. -/
def sample_line : List Char :=
  ['l', '0', '5', '9', 'x', '3', 'y', '4', '0', '1']

/-- The sample environment with the velocity limit of every axis raised to
`FLT_MAX`. -/
def sample_env_fast : env 4 ℚ :=
  { sample_env with axis_get_velocity_max := fun _ => FLT_MAX }

/-- A line from the origin to x = 10 with target velocity 0, maximum
acceleration 10 and maximum jerk 100: ramps of `1/10` around a cruise of
`49/5` at velocity 1. -/
def sample_record : line_t 4 where
  start := fun _ => 0
  target := ![10, 0, 0, 0]
  times := ![1 / 10, 0, 1 / 10, 49 / 5, 1 / 10, 0, 1 / 10]
  target_vel := 0
  max_vel := 10
  max_accel := 10
  max_jerk := 100
  unit := ![1, 0, 0, 0]
  length := 10

/-- The sample world at the start of section 0 of `sample_record`. -/
def sample_world_first : world 4 ℚ :=
  { sample_world with
    cb := exec_cb._line_exec
    l := { line := sample_record, section_ := 0, seg := 0, iD := 0, iV := 0, iA := 0,
           jerk := 100, lV := 0, speed := { offset := -1, speed := 0 } } }

/-- The sample world cruising through section 3 of `sample_record`, with the
synchronized speed 100 at offset `1/2` pending and nothing queued. -/
def sample_world_pending : world 4 ℚ :=
  { sample_world with
    cb := exec_cb._line_exec
    l := { line := sample_record, section_ := 3, seg := 0, iD := 1 / 10, iV := 1, iA := 0,
           jerk := 0, lV := 0, speed := { offset := 1 / 2, speed := 100 } } }

/-- The sample world cruising through section 3 of `sample_record`, with two
synchronized speeds queued: 100 at offset `1/2` and 200 at offset 1. -/
def sample_world_sync : world 4 ℚ :=
  { sample_world with
    cb := exec_cb._line_exec
    queue := [command_t.COMMAND_sync_speed { offset := 1 / 2, speed := 100 },
              command_t.COMMAND_sync_speed { offset := 1, speed := 200 }]
    l := { line := sample_record, section_ := 3, seg := 0, iD := 1 / 10, iV := 1, iA := 0,
           jerk := 0, lV := 0, speed := { offset := -1, speed := 0 } } }

/-- A line command to x = 5 with maximum jerk 1 that gives time 1 to section
0 and time 1 to section 3 only. -/
def sample_line_gap : List Char :=
  ['l', '0', '5', '1', 'x', '5', '0', '1', '3', '1']

/-- The sample world with the x axis at 95 and a jog at full speed towards the
upper soft limit 100 requested. -/
def sample_world_jog : world 4 ℚ :=
  { sample_world with
    cb := exec_cb.jog_exec
    state := state_t.STATE_JOGGING
    exec_position := ![95, 0, 0, 0]
    jr := { sample_world.jr with next := ![1, 0, 0, 0] } }

/-! ## The executor's use of `line.c` -/

/-- Modelled from the spec: `exec.c` is not among the sources.  One step of
the executor as far as a line is concerned: while no callback is registered it
starts a queued line record through `command_line_exec`, and while `_line_exec`
is registered it runs one tick of it. -/
inductive line_step (E : env AXES SCurve) : world AXES SCurve → world AXES SCurve → Prop
  | start (w : world AXES SCurve) (data : line_t AXES) (h : w.cb = exec_cb.none) :
      line_step E w (command_line_exec data w)
  | tick (w : world AXES SCurve) (h : w.cb = exec_cb._line_exec) :
      line_step E w (_line_exec E w).2

/-! ## `jog.c`: the jog command -/

/-- Modelled from the spec: `state.c` is not among the sources.
`state_get` reads the machine state. -/
def state_get (w : world AXES SCurve) : state_t :=
  w.state

/-- Modelled from the spec: `state.c` is not among the sources.
`state_jogging` moves the machine to the jogging state. -/
def state_jogging (w : world AXES SCurve) : world AXES SCurve :=
  { w with state := state_t.STATE_JOGGING, trace := w.trace ++ [event.state_jogging] }

/-- The structure `jr` after `memset((void *)&jr, 0, sizeof(jr))`. -/
def jr_t.zero (E : env AXES SCurve) : jr_t AXES SCurve where
  holding := false
  writing := false
  scurves := fun _ => E.SCurve_zero
  next := fun _ => 0
  targetV := fun _ => 0
  id := 0
  nextID := 0
  lastID := 0

/-- Function `jog_stop`.  The flag `jr.writing` is set around the writes and
is false when the function returns. -/
def jog_stop (w : world AXES SCurve) : world AXES SCurve :=
  if state_get w ≠ state_t.STATE_JOGGING then w
  else { w with jr := { w.jr with next := fun _ => 0, writing := false } }

/-- The block "Start jogging" of `command_jog`: the structure `jr` is
zeroed, `jr.holding` records whether the machine was holding, every enabled
axis gets a fresh profile, the machine goes to the jogging state and
`jog_exec` is registered. -/
def command_jog_start (E : env AXES SCurve) (w : world AXES SCurve) : world AXES SCurve :=
  let jr : jr_t AXES SCurve :=
    { jr_t.zero E with
      holding := decide (state_get w = state_t.STATE_HOLDING)
      scurves := fun axis =>
        if E.axis_is_enabled axis = true then
          E.SCurve_new (E.axis_get_velocity_max axis) (E.axis_get_accel_max axis)
            (E.axis_get_jerk_max axis)
        else E.SCurve_zero }
  exec_set_cb exec_cb.jog_exec (state_jogging { w with jr := jr })

/-- The block "Set next velocities" of `command_jog`.  The flag `jr.writing`
is set around the writes and is false afterwards. -/
def command_jog_next (velocity : Fin AXES → ℚ) (id : Nat) (w : world AXES SCurve) :
    world AXES SCurve :=
  { w with jr := { w.jr with next := velocity, nextID := id, writing := false } }

/-- Function `command_jog`: the status it returns and the world it leaves. -/
def command_jog (E : env AXES SCurve) (cmd : List Char) (w : world AXES SCurve) :
    stat_t × world AXES SCurve :=
  if state_get w ≠ state_t.STATE_READY ∧ state_get w ≠ state_t.STATE_HOLDING ∧
      state_get w ≠ state_t.STATE_JOGGING then (.STAT_NOP, w)
  else
    let cmd := cmd.drop 1
    match E.decode_hex_u16 cmd with
    | (none, _) => (.STAT_BAD_INT, w)
    | (some id, n) =>
      let cmd := cmd.drop n
      match E.decode_axes cmd (fun _ => 0) with
      | (status, velocity, n) =>
        if status ≠ .STAT_OK then (status, w)
        else
          let cmd := cmd.drop n
          if cmd ≠ [] then (.STAT_INVALID_ARGUMENTS, w)
          else if state_get w ≠ state_t.STATE_JOGGING then
            (.STAT_OK, command_jog_next velocity id (command_jog_start E w))
          else (.STAT_OK, command_jog_next velocity id w)

/-- Function `get_jog_id`. -/
def get_jog_id (w : world AXES SCurve) : Nat :=
  w.jr.lastID

/-! ### Quantities of one jog tick, for the statements below -/

/-- The target velocity that the tick of `jog_exec` from `w` hands to the
profile of an axis: the local `targetV` after the soft limits. -/
def jog_exec_axis_targetV (E : env AXES SCurve) (w : world AXES SCurve) (axis : Fin AXES) : ℚ :=
  let min := E.axis_get_soft_limit axis true
  let max := E.axis_get_soft_limit axis false
  jog_exec_targetV E (decide (min ≠ max) && E.axis_get_homed axis)
    (exec_get_axis_position w axis) (E.getVelocity (w.jr.scurves axis))
    (if w.jr.writing = false then w.jr.next axis * E.axis_get_velocity_max axis
     else w.jr.targetV axis)
    min max (w.jr.scurves axis)

/-- The velocity that the profile of an axis returns in the tick of
`jog_exec` from `w`: the local `v`. -/
def jog_exec_axis_v (E : env AXES SCurve) (w : world AXES SCurve) (axis : Fin AXES) : ℚ :=
  (E.next (w.jr.scurves axis) E.SEGMENT_TIME (jog_exec_axis_targetV E w axis)).1

/-- A jog command with identifier 5 that names no axis: every velocity is
zero. -/
def sample_jog_zero : List Char :=
  ['j', '5']

/-- A jog command with identifier 5 and full speed on the x axis. -/
def sample_jog_x : List Char :=
  ['j', '5', 'x', '1']

/-- A jog command with identifier 7 and full speed on the y axis. -/
def sample_jog_y : List Char :=
  ['j', '7', 'y', '1']

/-- A jog command with a field that is not an axis after the identifier. -/
def sample_jog_malformed : List Char :=
  ['j', '5', '?']

/-- The sample world while a line is running. -/
def sample_world_running : world 4 ℚ :=
  { sample_world with state := state_t.STATE_RUNNING }

/-! ## `estop.c`: the emergency stop -/

/-- Modelled from the spec: `outputs.c` is not among the sources.
`outputs_set_active` drives an output pin. -/
def outputs_set_active (pin : pin_t) (active : Bool) (w : world AXES SCurve) :
    world AXES SCurve :=
  { w with trace := w.trace ++ [event.outputs_set_active pin active] }

/-- Modelled from the spec: `hardware.c` is not among the sources.
`hw_request_hard_reset` asks for a reboot of the controller. -/
def hw_request_hard_reset (w : world AXES SCurve) : world AXES SCurve :=
  { w with trace := w.trace ++ [event.hw_request_hard_reset] }

/-- Function `estop_triggered`. -/
def estop_triggered (w : world AXES SCurve) : Bool :=
  decide (w.estop_reason ≠ stat_t.STAT_OK)

/-- Function `estop_clear`. -/
def estop_clear (E : env AXES SCurve) (w : world AXES SCurve) : world AXES SCurve :=
  if estop_triggered w = false then w
  else if E.switch_is_active switch_id_t.SW_ESTOP = true then
    { w with estop_reason := stat_t.STAT_ESTOP_SWITCH }
  else
    let w := outputs_set_active pin_t.FAULT_PIN false w
    let w : world AXES SCurve := { w with estop_reason := stat_t.STAT_OK }
    hw_request_hard_reset w

/-- Modelled from the spec: `stepper.c` is not among the sources.
`st_shutdown` stops the stepper drivers. -/
def st_shutdown (w : world AXES SCurve) : world AXES SCurve :=
  { w with trace := w.trace ++ [event.st_shutdown] }

/-- Modelled from the spec: `spindle.c` is not among the sources.
`spindle_estop` stops the spindle. -/
def spindle_estop (w : world AXES SCurve) : world AXES SCurve :=
  { w with trace := w.trace ++ [event.spindle_estop] }

/-- Modelled from the spec: `outputs.c` is not among the sources.
`outputs_stop` switches the outputs off. -/
def outputs_stop (w : world AXES SCurve) : world AXES SCurve :=
  { w with trace := w.trace ++ [event.outputs_stop] }

/-- Modelled from the spec: `state.c` is not among the sources.
`state_estop` moves the machine to the estop state. -/
def state_estop (w : world AXES SCurve) : world AXES SCurve :=
  { w with state := state_t.STATE_ESTOPPED, trace := w.trace ++ [event.state_estop] }

/-- Function `estop_trigger`. -/
def estop_trigger (reason : stat_t) (w : world AXES SCurve) : world AXES SCurve :=
  if estop_triggered w = true then w
  else
    let w : world AXES SCurve := { w with estop_reason := reason }
    let w := outputs_set_active pin_t.FAULT_PIN true w
    let w := st_shutdown w
    let w := spindle_estop w
    let w := jog_stop w
    let w := outputs_stop w
    state_estop w

/-- The sample world after an emergency stop requested by the user. -/
def sample_world_estopped : world 4 ℚ :=
  { sample_world with
    state := state_t.STATE_ESTOPPED
    estop_reason := stat_t.STAT_ESTOP_USER }

/-- The sample environment with the estop switch pressed. -/
def sample_env_switch : env 4 ℚ :=
  { sample_env with switch_is_active := fun _ => true }

/-! ## `vars.c`: reading a variable -/

/-- The union `get_cb_u`: one function pointer, which `_get` calls through
the member `get_TYPE`, without an argument, or through the member
`get_TYPE_index`, with an index.  The fields give the value that each way of
calling it leaves in the union `type_u`.  The enumeration `type_t` of
`type.def` is a parameter. -/
structure get_cb_u (type_t type_u : Type) where
  get : type_t → type_u
  get_index : type_t → Int → type_u

/-- A call that `_get` makes through the union `get_cb_u`. -/
inductive get_call (type_t : Type)
  | get (type : type_t)
  | get_index (type : type_t) (index : Int)
  deriving DecidableEq, Repr

/-- Function `_get`: the value it returns and the calls it makes, in call
order.  Every `case` of its `switch` is the same text for another `TYPE`;
`value` is the local of that name, which is not initialised. -/
def _get {type_t type_u : Type} (type : type_t) (index : Int) (cb : get_cb_u type_t type_u)
    (value : type_u) : type_u × List (get_call type_t) :=
  let st : type_u × List (get_call type_t) :=
    if index = -1 then (cb.get type, [get_call.get type]) else (value, [])
  (cb.get_index type index, st.2 ++ [get_call.get_index type index])

/-- A sample callback for a variable of a single type: called without an
argument it returns 1, and called with an index it returns 2 for the index
`-1` and 3 for any other index. -/
def sample_get_cb : get_cb_u Unit Nat where
  get := fun _ => 1
  get_index := fun _ index => if index = -1 then 2 else 3

/-! ### Runs of ticks and further quantities of a tick -/

/-- The world after `n` calls of `_line_exec`. -/
def _line_exec_ticks (E : env AXES SCurve) : Nat → world AXES SCurve → world AXES SCurve
  | 0, w => w
  | n + 1, w => _line_exec_ticks E n (_line_exec E w).2

/-- The durations passed to `exec_segment` in a trace, in call order. -/
def segment_times : List (event AXES) → List ℚ
  | [] => []
  | event.exec_segment s :: tr => s.time :: segment_times tr
  | _ :: tr => segment_times tr

/-- The targets passed to `exec_segment` in a trace, in call order. -/
def segment_targets : List (event AXES) → List (Fin AXES → ℚ)
  | [] => []
  | event.exec_segment s :: tr => s.target :: segment_targets tr
  | _ :: tr => segment_targets tr

/-- The requested target velocity of an axis in the tick of `jog_exec` from
`w`: the local `targetV` before the soft limits. -/
def jog_exec_axis_request (E : env AXES SCurve) (w : world AXES SCurve) (axis : Fin AXES) : ℚ :=
  if w.jr.writing = false then w.jr.next axis * E.axis_get_velocity_max axis
  else w.jr.targetV axis

/-- The local `dist` of `jog_exec` for an axis in the tick from `w`. -/
def jog_exec_axis_dist (E : env AXES SCurve) (w : world AXES SCurve) (axis : Fin AXES) : ℚ :=
  E.getStoppingDist (w.jr.scurves axis) * (1 + E.JOG_STOPPING_UNDERSHOOT / 100)

/-- The sample world at the start of section 0 of a copy of `sample_record`
whose length is only `1/100`. -/
def sample_world_short : world 4 ℚ :=
  { sample_world_first with
    l := { sample_world_first.l with line := { sample_record with length := 1 / 100 } } }

/-- The sample world with the executor moving at velocity 2 after a line whose
target velocity was 3. -/
def sample_world_moving : world 4 ℚ :=
  { sample_world with velocity := 2, l := { sample_world.l with lV := 3 } }

/-- A copy of `sample_record` with target velocity 5. -/
def sample_record_through : line_t 4 :=
  { sample_record with target_vel := 5 }

/-- The sample world with the x axis at its upper soft limit 100, moving at
velocity 10, and a jog at full speed towards that limit requested. -/
def sample_world_jog_limit : world 4 ℚ :=
  { sample_world_jog with
    exec_position := ![100, 0, 0, 0]
    jr := { sample_world_jog.jr with scurves := ![10, 0, 0, 0] } }

/-- The number of ticks that a section of duration `T` takes:
`ceil(T / SEGMENT_TIME)`. -/
def _line_exec_tick_count (E : env AXES SCurve) (T : ℚ) : Nat :=
  ⌈T / E.SEGMENT_TIME⌉₊

/-! ## `line.c`: queueing a synchronized speed -/

/-- Function `command_sync_speed`: the status it returns and the world it
leaves. -/
def command_sync_speed (E : env AXES SCurve) (cmd : List Char) (w : world AXES SCurve) :
    stat_t × world AXES SCurve :=
  let cmd := cmd.drop 1
  match E.decode_float cmd with
  | (none, _) => (.STAT_BAD_FLOAT, w)
  | (some offset, n) =>
    let cmd := cmd.drop n
    match E.decode_float cmd with
    | (none, _) => (.STAT_BAD_FLOAT, w)
    | (some speed, _) =>
      (.STAT_OK, command_push (command_t.COMMAND_sync_speed { offset := offset, speed := speed }) w)

/-- The sample world cruising through section 3 of `sample_record`, with two
synchronized speeds queued: 100 at offset `1/2` and `FLT_MAX` at offset 1. -/
def sample_world_sync_max : world 4 ℚ :=
  { sample_world_sync with
    queue := [command_t.COMMAND_sync_speed { offset := 1 / 2, speed := 100 },
              command_t.COMMAND_sync_speed { offset := 1, speed := FLT_MAX }] }

/-- The sample world `sample_world_sync` with the synchronized speed 50 at
offset 5 loaded and pending. -/
def sample_world_sync_blocked : world 4 ℚ :=
  { sample_world_sync with
    l := { sample_world_sync.l with speed := { offset := 5, speed := 50 } } }

/-- The sample world cruising through section 3 of `sample_record`, with the
synchronized speed 300 at offset `-1` queued. -/
def sample_world_sync_negative : world 4 ℚ :=
  { sample_world_sync with
    queue := [command_t.COMMAND_sync_speed { offset := -1, speed := 300 }] }

/-- A command that queues the synchronized speed 3 at offset `-1`. -/
def sample_sync_speed_negative : List Char :=
  ['s', '-', '3']

/-! ## `line.c`: the machine arithmetic of the tick time -/

/-- The machine arithmetic of the block "Compute times" of `_line_exec`:
`fl` gives the `float` value of the exact result of an arithmetic operation,
and `INT_MAX` is the largest value of an `int`, `-INT_MAX - 1` being the
smallest. -/
structure arith_t where
  fl : ℚ → ℚ
  INT_MAX : Int

/-- The value of `++i` for an `int` `i`.  At `INT_MAX` the behaviour of the C
program is undefined; the counter is taken to wrap to `INT_MIN`, as a register
of that width does. -/
def arith_t.incr (A : arith_t) (i : Int) : Int :=
  if i = A.INT_MAX then -A.INT_MAX - 1 else i + 1

/-- The value of `i - 1` for an `int` `i`.  At `INT_MIN` the behaviour of the
C program is undefined; the difference is taken to wrap to `INT_MAX`. -/
def arith_t.decr (A : arith_t) (i : Int) : Int :=
  if i = -A.INT_MAX - 1 then A.INT_MAX else i - 1

/-- Exact arithmetic with an `int` that reaches up to `M`. -/
def arith_exact (M : Int) : arith_t where
  fl := fun x => x
  INT_MAX := M

/-- The elapsed time `t` of the next call of `_line_exec` under the machine
arithmetic `A`, before it is limited to the section time: the `float` value of
`++l.seg * SEGMENT_TIME`. -/
def _line_exec_arith_raw_t (E : env AXES SCurve) (A : arith_t) (w : world AXES SCurve) : ℚ :=
  A.fl (((A.incr w.l.seg : Int) : ℚ) * E.SEGMENT_TIME)

/-- The elapsed time `t` at which the next call of `_line_exec` samples the
section under the machine arithmetic `A`. -/
def _line_exec_arith_t (E : env AXES SCurve) (A : arith_t) (w : world AXES SCurve) : ℚ :=
  if w.l.line.time w.l.section_ < _line_exec_arith_raw_t E A w then
    w.l.line.time w.l.section_
  else _line_exec_arith_raw_t E A w

/-- The duration `seg_time` of the segment that the next call of `_line_exec`
emits under the machine arithmetic `A`. -/
def _line_exec_arith_seg_time (E : env AXES SCurve) (A : arith_t) (w : world AXES SCurve) :
    ℚ :=
  if w.l.line.time w.l.section_ < _line_exec_arith_raw_t E A w then
    A.fl (w.l.line.time w.l.section_
      - A.fl (((A.decr (A.incr w.l.seg) : Int) : ℚ) * E.SEGMENT_TIME))
  else A.fl E.SEGMENT_TIME

/-- Function `_line_exec` with the machine arithmetic of its block "Compute
times" made explicit: the tick counter `l.seg` is an `int`, so that `++l.seg`
and `l.seg - 1` wrap, and the product `++l.seg * SEGMENT_TIME`, the product
and the difference in `section_time - (l.seg - 1) * SEGMENT_TIME`, and the
initial value of `seg_time` are rounded to `float`.  The conversion of the
`int` to `float` is exact, as it is for an `int` of at most 24 bits.  The
comparisons `section_time < t` and `t == section_time` are those of the
`float` values, and the rest of the function is that of `_line_exec`. -/
def _line_exec_arith (E : env AXES SCurve) (A : arith_t) (w : world AXES SCurve) :
    stat_t × world AXES SCurve :=
  let section_time := w.l.line.time w.l.section_
  let seg_time := A.fl E.SEGMENT_TIME
  let w : world AXES SCurve := { w with l := { w.l with seg := A.incr w.l.seg } }
  let t : ℚ := A.fl ((w.l.seg : ℚ) * E.SEGMENT_TIME)
  let seg_time : ℚ :=
    if section_time < t then
      A.fl (section_time - A.fl (((A.decr w.l.seg : Int) : ℚ) * E.SEGMENT_TIME))
    else seg_time
  let t : ℚ := if section_time < t then section_time else t
  let d := _segment_distance w t
  let v := _segment_velocity w t
  let a := _segment_accel w t
  let d := if w.l.line.length < d then w.l.line.length else d
  let w := _set_sync_speeds d w
  if t = section_time then
    match _section_next w with
    | (true, w) =>
      let w : world AXES SCurve := { w with l := { w.l with seg := 0, iD := d, iV := v } }
      exec_segment E
        ⟨seg_time, _segment_target w d, v, a, w.l.line.max_vel, w.l.line.max_accel,
          w.l.line.max_jerk⟩ w
    | (false, w) =>
      let w := exec_set_cb exec_cb.none w
      exec_segment E
        ⟨seg_time, w.l.line.target, w.l.line.target_vel, a, w.l.line.max_vel,
          w.l.line.max_accel, w.l.line.max_jerk⟩ w
  else
    exec_segment E
      ⟨seg_time, _segment_target w d, v, a, w.l.line.max_vel, w.l.line.max_accel,
        w.l.line.max_jerk⟩ w

/-- The world after `n` calls of `_line_exec` under the machine arithmetic
`A`. -/
def _line_exec_arith_ticks (E : env AXES SCurve) (A : arith_t) :
    Nat → world AXES SCurve → world AXES SCurve
  | 0, w => w
  | n + 1, w => _line_exec_arith_ticks E A n (_line_exec_arith E A w).2

/-- Rounding to the nearest integer, ties to the even one. -/
def round_half_even (m : ℚ) : Int :=
  if m - ⌊m⌋ < 1 / 2 then ⌊m⌋
  else if 1 / 2 < m - ⌊m⌋ then ⌊m⌋ + 1
  else if ⌊m⌋ % 2 = 0 then ⌊m⌋
  else ⌊m⌋ + 1

/-- The binary exponent of a rational in the IEEE 754 binary32 format: that
of its leading bit, and `-126`, the exponent of the subnormal numbers, for
what is below `2^(-126)`. -/
def binary32_exponent (x : ℚ) : Int :=
  max (Int.log 2 |x|) (-126)

/-- The `float` nearest to a rational, in the IEEE 754 binary32 format with
rounding to nearest, ties to even: 24 significant bits, so that the step at
binary exponent `e` is `2^(e - 23)`, and a fixed step of `2^(-149)` below
`2^(-126)`.  There is no overflow to infinity. -/
def binary32 (x : ℚ) : ℚ :=
  round_half_even (x / 2 ^ (binary32_exponent x - 23)) * 2 ^ (binary32_exponent x - 23)

/-- The arithmetic of the firmware as compiled for the AVR: `float` and
`double` are both binary32 and an `int` has 16 bits. -/
def arith_avr : arith_t where
  fl := binary32
  INT_MAX := 32767

/-- The sample environment with a tick period of `0.1f`, the `float` nearest
to `1/10`. -/
def sample_env_float : env 4 ℚ :=
  { sample_env with SEGMENT_TIME := 13421773 / 134217728 }

/-- A line with a single section, section 0, of duration `0.3f`, the `float`
nearest to `3/10`. -/
def sample_record_float : line_t 4 :=
  { sample_record with times := ![5033165 / 16777216, 0, 0, 0, 0, 0, 0] }

/-- The sample world at the start of section 0 of `sample_record_float`. -/
def sample_world_float : world 4 ℚ :=
  { sample_world with
    cb := exec_cb._line_exec
    l := { line := sample_record_float, section_ := 0, seg := 0, iD := 0, iV := 0, iA := 0,
           jerk := 100, lV := 0, speed := { offset := -1, speed := 0 } } }

/-- The sample world at the start of a line with a single section, section
0, of duration `M + 1`. -/
def sample_world_long (M : Nat) : world 4 ℚ :=
  { sample_world with
    cb := exec_cb._line_exec
    l := { line := { sample_record with times := ![(M : ℚ) + 1, 0, 0, 0, 0, 0, 0] },
           section_ := 0, seg := 0, iD := 0, iV := 0, iA := 0,
           jerk := 100, lV := 0, speed := { offset := -1, speed := 0 } } }

/-! ## Accepting a line command: lemmas -/

theorem command_line_times_error (E : env AXES SCurve) (cmd : List Char)
    (times : Fin 7 → ℚ) (has_time : Bool) (st : stat_t)
    (h : command_line_times E cmd times has_time = .error st) :
    st = stat_t.STAT_BAD_FLOAT ∨ st = stat_t.STAT_NEGATIVE_SCURVE_TIME := by
  induction cmd, times, has_time using command_line_times.induct E with
  | case1 times has_time => simp [command_line_times] at h
  | case2 times has_time c cmd1 hc => simp [command_line_times, hc] at h
  | case3 times has_time c cmd1 hc n hd =>
    rw [command_line_times] at h
    simp only [hc, if_false, hd] at h
    left
    cases h
    rfl
  | case4 times has_time c cmd1 hc time n hd ht =>
    rw [command_line_times] at h
    simp only [hc, if_false, hd, ht, if_true] at h
    right
    cases h
    rfl
  | case5 times has_time c cmd1 hc section_ time n hd ht ih =>
    rw [command_line_times] at h
    simp only [hc, if_false, hd, ht] at h
    exact ih h

theorem command_line_times_nonneg (E : env AXES SCurve) (cmd : List Char)
    (times : Fin 7 → ℚ) (has_time : Bool) (r : (Fin 7 → ℚ) × Bool × List Char)
    (h0 : ∀ i, 0 ≤ times i)
    (h : command_line_times E cmd times has_time = .ok r) : ∀ i, 0 ≤ r.1 i := by
  induction cmd, times, has_time using command_line_times.induct E with
  | case1 times has_time =>
    simp only [command_line_times, Except.ok.injEq] at h
    subst h
    exact h0
  | case2 times has_time c cmd1 hc =>
    simp only [command_line_times, hc, if_true, Except.ok.injEq] at h
    subst h
    exact h0
  | case3 times has_time c cmd1 hc n hd =>
    rw [command_line_times] at h
    simp only [hc, if_false, hd] at h
    cases h
  | case4 times has_time c cmd1 hc time n hd ht =>
    rw [command_line_times] at h
    simp only [hc, if_false, hd, ht, if_true] at h
    cases h
  | case5 times has_time c cmd1 hc section_ time n hd ht ih =>
    rw [command_line_times] at h
    simp only [hc, if_false, hd, ht] at h
    refine ih ?_ h
    intro i
    by_cases hi : i = section_
    · subst hi
      simpa using not_lt.mp ht
    · simpa [Function.update_noteq hi] using h0 i

theorem command_line_unchanged_or_ok (E : env AXES SCurve) (cmd : List Char)
    (w : world AXES SCurve) :
    (command_line E cmd w).2 = w ∨ (command_line E cmd w).1 = stat_t.STAT_OK := by
  unfold command_line
  dsimp only
  repeat' split
  all_goals first
    | exact Or.inl rfl
    | exact Or.inr rfl

theorem command_line_eq_accept (E : env AXES SCurve) (cmd : List Char) (w : world AXES SCurve)
    (tv ma mj : ℚ) (n1 n2 n3 n4 : Nat) (target : Fin AXES → ℚ) (times : Fin 7 → ℚ)
    (h1 : E.decode_float (cmd.drop 1) = (some tv, n1)) (htv : 0 ≤ tv)
    (h2 : E.decode_float ((cmd.drop 1).drop n1) = (some ma, n2)) (hma : 0 ≤ ma)
    (h3 : E.decode_float (((cmd.drop 1).drop n1).drop n2) = (some mj, n3)) (hmj : 0 ≤ mj)
    (h4 : E.decode_axes ((((cmd.drop 1).drop n1).drop n2).drop n3) w.position
        = (stat_t.STAT_OK, target, n4))
    (h5 : command_line_times E (((((cmd.drop 1).drop n1).drop n2).drop n3).drop n4)
        (fun _ => 0) false = .ok (times, true, [])) :
    command_line E cmd w
      = (stat_t.STAT_OK,
          command_line_accept E (command_line_record w tv ma mj target times) w) := by
  unfold command_line
  simp only [h1, h2, h3, not_lt.mpr htv, not_lt.mpr hma, not_lt.mpr hmj, if_false,
    command_get_position, h4, line_t.zero, h5, ne_eq, not_true_eq_false, if_false,
    Bool.not_true, Bool.false_eq_true, command_line_record]

theorem command_line_ok_inv (E : env AXES SCurve) (cmd : List Char) (w : world AXES SCurve)
    (h : (command_line E cmd w).1 = stat_t.STAT_OK) :
    ∃ tv n1 ma n2 mj n3 target n4 times,
      E.decode_float (cmd.drop 1) = (some tv, n1) ∧ 0 ≤ tv ∧
      E.decode_float ((cmd.drop 1).drop n1) = (some ma, n2) ∧ 0 ≤ ma ∧
      E.decode_float (((cmd.drop 1).drop n1).drop n2) = (some mj, n3) ∧ 0 ≤ mj ∧
      E.decode_axes ((((cmd.drop 1).drop n1).drop n2).drop n3) w.position
        = (stat_t.STAT_OK, target, n4) ∧
      command_line_times E (((((cmd.drop 1).drop n1).drop n2).drop n3).drop n4)
        (fun _ => 0) false = .ok (times, true, []) := by
  unfold command_line at h
  dsimp only at h
  split at h
  · exact absurd h (by simp)
  rename_i tv n1 h1
  split at h
  · exact absurd h (by simp)
  rename_i htv
  split at h
  · exact absurd h (by simp)
  rename_i ma n2 h2
  split at h
  · exact absurd h (by simp)
  rename_i hma
  split at h
  · exact absurd h (by simp)
  rename_i mj n3 h3
  split at h
  · exact absurd h (by simp)
  rename_i hmj
  split at h
  · rename_i hst
    exact absurd h hst
  rename_i hst
  rw [ne_eq, not_not] at hst
  split at h
  · rename_i st h5
    rcases command_line_times_error E _ _ _ _ h5 with hs | hs
    all_goals
      rw [hs] at h
      exact absurd h (by simp)
  rename_i times has_time rest h5
  split at h
  · exact absurd h (by simp)
  rename_i hht
  split at h
  · exact absurd h (by simp)
  rename_i hrest
  rw [ne_eq, not_not] at hrest
  have hht1 : has_time = true := by
    cases has_time
    · exact absurd rfl hht
    · rfl
  subst hrest
  subst hht1
  exact ⟨tv, n1, ma, n2, mj, n3,
    (E.decode_axes ((((cmd.drop 1).drop n1).drop n2).drop n3) w.position).2.1,
    (E.decode_axes ((((cmd.drop 1).drop n1).drop n2).drop n3) w.position).2.2,
    times, h1, not_lt.mp htv, h2, not_lt.mp hma, h3, not_lt.mp hmj,
    Prod.ext hst (Prod.ext rfl rfl), h5⟩

theorem sample_line_repeated_section_eq :
    command_line sample_env sample_line_repeated_section sample_world
      = (stat_t.STAT_OK,
          command_line_accept sample_env
            (command_line_record sample_world 0 5 9
              (Function.update sample_world.position 0 5) (fun _ => 0)) sample_world) := by
  refine command_line_eq_accept sample_env sample_line_repeated_section sample_world
    0 5 9 1 1 1 2 _ _ ?_ (le_refl 0) ?_ (by norm_num) ?_ (by norm_num) ?_ ?_
  · rfl
  · rfl
  · rfl
  · simp [sample_line_repeated_section, sample_env, sample_decode_axes, sample_axis,
      sample_decode_float]
  · simp [sample_line_repeated_section, sample_env, sample_decode_float, command_line_times]

theorem _section_next_all_zero (w : world AXES SCurve) (h : ∀ i, w.l.line.times i = 0) :
    _section_next w = (false, { w with l := { w.l with section_ := max (w.l.section_ + 1) 7 } }) := by
  induction w using _section_next.induct with
  | case1 x w hlt hz ih =>
    rw [_section_next]
    simp only [w] at hlt hz ih
    simp only [hlt, if_true, hz]
    rw [ih h]
    have : max (x.l.section_ + 1 + 1) 7 = max (x.l.section_ + 1) 7 := by omega
    simp only [this]
  | case2 x w hlt hz =>
    exact absurd (h _) hz
  | case3 x w hlt =>
    rw [_section_next]
    simp only [w] at hlt
    simp only [hlt, if_false]
    have : max (x.l.section_ + 1) 7 = x.l.section_ + 1 := by omega
    rw [this]

theorem command_line_accept_queue (E : env AXES SCurve) (line : line_t AXES)
    (w : world AXES SCurve) :
    ∃ rec : line_t AXES,
      (command_line_accept E line w).queue = w.queue ++ [command_t.COMMAND_line rec] ∧
      rec.start = line.start ∧ rec.target = line.target ∧ rec.times = line.times ∧
      rec.target_vel = line.target_vel ∧ rec.max_accel = line.max_accel ∧
      rec.max_jerk = line.max_jerk ∧
      rec.unit = (command_line_direction E line).unit ∧
      rec.length = (command_line_direction E line).length ∧
      rec.max_vel = command_line_max_vel E (command_line_direction E line) :=
  ⟨_, rfl, rfl, rfl, rfl, rfl, rfl, rfl, rfl, rfl, rfl⟩

theorem command_line_accept_frame (E : env AXES SCurve) (line : line_t AXES)
    (w : world AXES SCurve) :
    (command_line_accept E line w).position = line.target ∧
    (command_line_accept E line w).cb = w.cb ∧
    (command_line_accept E line w).l = w.l ∧
    (command_line_accept E line w).trace = w.trace :=
  ⟨rfl, rfl, rfl, rfl⟩

theorem _set_sync_speeds_load_frame (w : world AXES SCurve) :
    ∃ q sp, _set_sync_speeds_load w = { w with queue := q, l := { w.l with speed := sp } } := by
  unfold _set_sync_speeds_load
  split
  · split
    · exact ⟨_, _, rfl⟩
    · exact ⟨w.queue, w.l.speed, rfl⟩
  · exact ⟨w.queue, w.l.speed, rfl⟩

theorem _set_sync_speeds_loop_frame (d : ℚ) (w : world AXES SCurve) (speed : ℚ) :
    ∃ q sp, (_set_sync_speeds_loop d w speed).2
      = { w with queue := q, l := { w.l with speed := sp } } := by
  induction w, speed using _set_sync_speeds_loop.induct d with
  | case1 w speed w1 hbrk =>
    rw [_set_sync_speeds_loop]
    simp only [w1] at hbrk
    simp only [hbrk, if_true]
    exact _set_sync_speeds_load_frame w
  | case2 w speed w1 hbrk ih =>
    rw [_set_sync_speeds_loop]
    simp only [w1] at hbrk ih
    simp only [hbrk, if_false]
    obtain ⟨q, sp, h⟩ := ih
    obtain ⟨q1, sp1, h1⟩ := _set_sync_speeds_load_frame w
    rw [h, h1]
    exact ⟨q, sp, rfl⟩

/-- What `_set_sync_speeds` leaves behind: only the queue, the pending speed
and the trace change, and the trace grows by at most one call, a call of
`spindle_set_speed`. -/
theorem _set_sync_speeds_frame (d : ℚ) (w : world AXES SCurve) :
    ∃ q sp tr, _set_sync_speeds d w
        = { w with queue := q, l := { w.l with speed := sp }, trace := w.trace ++ tr } ∧
      (tr = [] ∨ ∃ speed, tr = [event.spindle_set_speed speed]) := by
  unfold _set_sync_speeds
  obtain ⟨q, sp, h⟩ := _set_sync_speeds_loop_frame d w FLT_MAX
  rcases hr : _set_sync_speeds_loop d w FLT_MAX with ⟨speed, w1⟩
  rw [hr] at h
  simp only at h
  subst h
  simp only []
  split
  · exact ⟨q, sp, [event.spindle_set_speed speed], rfl, Or.inr ⟨speed, rfl⟩⟩
  · exact ⟨q, sp, [], by simp, Or.inl rfl⟩

theorem command_line_exec_all_zero (data : line_t AXES) (w : world AXES SCurve)
    (h : ∀ i, data.times i = 0) :
    (command_line_exec data w).cb = w.cb := by
  unfold command_line_exec
  simp only []
  obtain ⟨q, sp, tr, hs, -⟩ := _set_sync_speeds_frame 0
    ({ w with l := { ({ w with l := { w.l with line := data } } : world AXES SCurve).l with
        speed := { w.l.speed with offset := -1 } } } : world AXES SCurve)
  rw [hs]
  rw [_section_next_all_zero _ h]

/-- C1: a line command that names section 0 twice, first with time 1 and
then with time 0, is accepted with `STAT_OK`; the commanded position moves to
the target and the queued record has seven zero durations, so that
`command_line_exec` finds no section and registers no callback. -/
theorem command_line_accepts_all_zero_times :
    (command_line sample_env sample_line_repeated_section sample_world).1 = stat_t.STAT_OK ∧
    (command_line sample_env sample_line_repeated_section sample_world).2.position 0 = 5 ∧
    ∃ line : line_t 4,
      (command_line sample_env sample_line_repeated_section sample_world).2.queue
        = [command_t.COMMAND_line line] ∧
      (∀ i, line.times i = 0) ∧
      (command_line_exec line
        (command_next
          (command_line sample_env sample_line_repeated_section sample_world).2)).cb
        = exec_cb.none := by
  rw [sample_line_repeated_section_eq]
  refine ⟨rfl, ?_, ?_⟩
  · simp [command_line_accept, command_push, command_set_position, command_line_record]
  · obtain ⟨rec, hq, -, -, ht, -⟩ :=
      command_line_accept_queue sample_env
        (command_line_record sample_world 0 5 9
          (Function.update sample_world.position 0 5) (fun _ => 0)) sample_world
    have hz : ∀ i, rec.times i = 0 := by
      intro i
      rw [ht]
      rfl
    refine ⟨rec, ?_, hz, ?_⟩
    · rw [hq]
      rfl
    · rw [command_line_exec_all_zero _ _ hz]
      rfl

/-! ## Accepting a line command: the claims -/

/-- What an accepted command leaves: the record it queues and the commanded
position. -/
theorem command_line_ok_record (E : env AXES SCurve) (cmd : List Char) (w : world AXES SCurve)
    (h : (command_line E cmd w).1 = stat_t.STAT_OK) :
    ∃ (line : line_t AXES) (c : List Char),
      (command_line E cmd w).2.queue = w.queue ++ [command_t.COMMAND_line line] ∧
      (command_line E cmd w).2.position = line.target ∧
      (command_line E cmd w).2.cb = w.cb ∧
      (command_line E cmd w).2.l = w.l ∧
      (command_line E cmd w).2.trace = w.trace ∧
      line.start = w.position ∧
      (∃ k, c = cmd.drop k) ∧
      line.target = (E.decode_axes c w.position).2.1 ∧
      0 ≤ line.target_vel ∧ 0 ≤ line.max_accel ∧ 0 ≤ line.max_jerk ∧
      (∀ i, 0 ≤ line.times i) ∧
      line.unit = (command_line_direction E
        (command_line_record w line.target_vel line.max_accel line.max_jerk line.target
          line.times)).unit ∧
      line.length = (command_line_direction E
        (command_line_record w line.target_vel line.max_accel line.max_jerk line.target
          line.times)).length ∧
      line.max_vel = command_line_max_vel E (command_line_direction E
        (command_line_record w line.target_vel line.max_accel line.max_jerk line.target
          line.times)) := by
  obtain ⟨tv, n1, ma, n2, mj, n3, target, n4, times, h1, htv, h2, hma, h3, hmj, h4, h5⟩ :=
    command_line_ok_inv E cmd w h
  have heq := command_line_eq_accept E cmd w _ _ _ _ _ _ _ _ _ h1 htv h2 hma h3 hmj h4 h5
  have hnn := command_line_times_nonneg E _ _ _ _ (fun _ => le_refl 0) h5
  obtain ⟨rec, hq, hs, ht, hti, hv, ha, hj, hu, hl, hm⟩ :=
    command_line_accept_queue E (command_line_record w tv ma mj target times) w
  have hrec : command_line_record w rec.target_vel rec.max_accel rec.max_jerk rec.target
      rec.times = command_line_record w tv ma mj target times := by
    rw [hv, ha, hj, ht, hti]
    rfl
  refine ⟨rec, (((cmd.drop 1).drop n1).drop n2).drop n3, ?_, ?_, ?_, ?_, ?_, hs,
    ⟨1 + n1 + n2 + n3, ?_⟩, ?_, ?_, ?_, ?_, ?_, ?_, ?_, ?_⟩
  · rw [heq]
    exact hq
  · rw [heq, ht]
    rfl
  · rw [heq]
    rfl
  · rw [heq]
    rfl
  · rw [heq]
    rfl
  · simp only [List.drop_drop]
  · rw [ht, h4]
    rfl
  · rw [hv]
    exact htv
  · rw [ha]
    exact hma
  · rw [hj]
    exact hmj
  · rw [hti]
    exact hnn
  · rw [hrec]
    exact hu
  · rw [hrec]
    exact hl
  · rw [hrec]
    exact hm

theorem command_line_times_negative (E : env AXES SCurve) (cmd : List Char)
    (c : Char) (rest : List Char) (time : ℚ) (n : Nat)
    (hreach : command_line_times_reaches E cmd (c :: rest))
    (hc : ¬(c < '0' ∨ '6' < c)) (hd : E.decode_float rest = (some time, n))
    (ht : time < 0) (times : Fin 7 → ℚ) (has_time : Bool) :
    command_line_times E cmd times has_time
      = .error stat_t.STAT_NEGATIVE_SCURVE_TIME := by
  generalize hto : c :: rest = cmd2 at hreach
  induction hreach generalizing times has_time with
  | start cmd1 =>
    subst hto
    rw [command_line_times]
    simp only [hc, if_false, hd, ht, if_true]
  | next c1 rest1 time1 n1 cmd1 hc1 hd1 ht1 _ ih =>
    rw [command_line_times]
    simp only [hc1, if_false, hd1, not_lt.mpr ht1]
    exact ih _ _ hto

/-- C2: when the target velocity, maximum acceleration and maximum jerk
fields all decode and one of them is negative, `command_line` returns
`STAT_INVALID_ARGUMENTS`; when they are not negative, the axis words decode
and the times loop comes to a section whose time decodes to a negative value,
`command_line` returns `STAT_NEGATIVE_SCURVE_TIME`; every record that
`command_line` queues has a non-negative target velocity, maximum
acceleration, maximum jerk and seven non-negative durations. -/
theorem command_line_rejects_negative (E : env AXES SCurve) (cmd : List Char)
    (w : world AXES SCurve) :
    (∀ tv n1 ma n2 mj n3,
      E.decode_float (cmd.drop 1) = (some tv, n1) →
      E.decode_float ((cmd.drop 1).drop n1) = (some ma, n2) →
      E.decode_float (((cmd.drop 1).drop n1).drop n2) = (some mj, n3) →
      tv < 0 ∨ ma < 0 ∨ mj < 0 →
      (command_line E cmd w).1 = stat_t.STAT_INVALID_ARGUMENTS) ∧
    (∀ tv n1 ma n2 mj n3 target n4 (c : Char) (rest : List Char) (time : ℚ) (n : Nat),
      E.decode_float (cmd.drop 1) = (some tv, n1) → 0 ≤ tv →
      E.decode_float ((cmd.drop 1).drop n1) = (some ma, n2) → 0 ≤ ma →
      E.decode_float (((cmd.drop 1).drop n1).drop n2) = (some mj, n3) → 0 ≤ mj →
      E.decode_axes ((((cmd.drop 1).drop n1).drop n2).drop n3) w.position
        = (stat_t.STAT_OK, target, n4) →
      command_line_times_reaches E
        (((((cmd.drop 1).drop n1).drop n2).drop n3).drop n4) (c :: rest) →
      ¬(c < '0' ∨ '6' < c) → E.decode_float rest = (some time, n) → time < 0 →
      (command_line E cmd w).1 = stat_t.STAT_NEGATIVE_SCURVE_TIME) ∧
    ((command_line E cmd w).1 = stat_t.STAT_OK →
      ∃ line : line_t AXES,
        (command_line E cmd w).2.queue = w.queue ++ [command_t.COMMAND_line line] ∧
        0 ≤ line.target_vel ∧ 0 ≤ line.max_accel ∧ 0 ≤ line.max_jerk ∧
        ∀ i, 0 ≤ line.times i) := by
  refine ⟨?_, ?_, ?_⟩
  · intro tv n1 ma n2 mj n3 h1 h2 h3 hneg
    unfold command_line
    simp only [h1, h2, h3]
    by_cases htv : tv < 0
    · simp only [htv, if_true]
    by_cases hma : ma < 0
    · simp only [htv, hma, if_true, if_false]
    have hmj : mj < 0 := by
      rcases hneg with h | h | h
      · exact absurd h htv
      · exact absurd h hma
      · exact h
    simp only [htv, hma, hmj, if_true, if_false]
  · intro tv n1 ma n2 mj n3 target n4 c rest time n h1 htv h2 hma h3 hmj h4 hreach hc hd ht
    have h5 := command_line_times_negative E _ c rest time n hreach hc hd ht
      (fun _ => 0) false
    unfold command_line
    simp only [h1, h2, h3, not_lt.mpr htv, not_lt.mpr hma, not_lt.mpr hmj, if_false,
      command_get_position, h4, line_t.zero, h5, ne_eq, not_true_eq_false]
  · intro h
    obtain ⟨line, c, hq, -, -, -, -, -, -, -, hv, ha, hj, ht, -⟩ :=
      command_line_ok_record E cmd w h
    exact ⟨line, hq, hv, ha, hj, ht⟩

/-- C2, on two sample commands: with target velocity `-1` the three fields
decode and the command is refused with `STAT_INVALID_ARGUMENTS`; with time 1
for section 0 followed by time `-1` for section 1 it is refused with
`STAT_NEGATIVE_SCURVE_TIME`. -/
theorem command_line_rejects_negative_witness :
    sample_env.decode_float (sample_line_negative_velocity.drop 1) = (some (-1), 1) ∧
    (command_line sample_env sample_line_negative_velocity sample_world).1
      = stat_t.STAT_INVALID_ARGUMENTS ∧
    (command_line sample_env sample_line_negative_time sample_world).1
      = stat_t.STAT_NEGATIVE_SCURVE_TIME :=
  ⟨rfl,
    (command_line_rejects_negative sample_env sample_line_negative_velocity sample_world).1
      (-1) 1 5 1 9 1 rfl rfl rfl (Or.inl (by norm_num)),
    (command_line_rejects_negative sample_env sample_line_negative_time sample_world).2.1
      0 1 5 1 9 1 (Function.update sample_world.position 0 5) 2 '1' ['-'] (-1) 1
      rfl (le_refl 0) rfl (by norm_num) rfl (by norm_num)
      (by
        simp [sample_line_negative_time, sample_env, sample_decode_axes, sample_axis,
          sample_decode_float])
      (command_line_times_reaches.next '0' ['1', '1', '-'] 1 1 ['1', '-'] (by decide) rfl
        (by norm_num) (command_line_times_reaches.start _))
      (by decide) rfl (by norm_num)⟩

/-- C3: when `command_line` returns a status other than `STAT_OK` it leaves
the world as it found it: the commanded position is not updated and nothing is
pushed onto the command queue. -/
theorem command_line_rejection_atomic (E : env AXES SCurve) (cmd : List Char)
    (w : world AXES SCurve) (h : (command_line E cmd w).1 ≠ stat_t.STAT_OK) :
    (command_line E cmd w).2 = w ∧
    (command_line E cmd w).2.position = w.position ∧
    (command_line E cmd w).2.queue = w.queue := by
  rcases command_line_unchanged_or_ok E cmd w with hw | hok
  · rw [hw]
    exact ⟨rfl, rfl, rfl⟩
  · exact absurd hok h

/-- C3, on the sample command with a negative target velocity. -/
theorem command_line_rejection_atomic_witness :
    (command_line sample_env sample_line_negative_velocity sample_world).1 ≠ stat_t.STAT_OK ∧
    (command_line sample_env sample_line_negative_velocity sample_world).2 = sample_world :=
  have h : (command_line sample_env sample_line_negative_velocity sample_world).1
      ≠ stat_t.STAT_OK := by
    simp [command_line, sample_line_negative_velocity, sample_env, sample_decode_float]
  ⟨h, (command_line_rejection_atomic sample_env sample_line_negative_velocity sample_world
    h).1⟩

/-- C4: an accepted command queues a record whose start is the commanded
position before the call and whose target is what `decode_axes` makes of that
start, so the target equals the start on every axis that `decode_axes` leaves
untouched for this command; the commanded position after the call is the
record's target, and the record queued by the next accepted command starts on
every axis at that target. -/
theorem command_line_position_chain (E : env AXES SCurve) (cmd : List Char)
    (w : world AXES SCurve) (h : (command_line E cmd w).1 = stat_t.STAT_OK) :
    ∃ (line : line_t AXES) (c : List Char),
      (command_line E cmd w).2.queue = w.queue ++ [command_t.COMMAND_line line] ∧
      (∃ k, c = cmd.drop k) ∧
      line.start = w.position ∧
      line.target = (E.decode_axes c line.start).2.1 ∧
      (∀ axis, (∀ v, (E.decode_axes c v).2.1 axis = v axis) →
        line.target axis = line.start axis) ∧
      (command_line E cmd w).2.position = line.target ∧
      ∀ cmd2, (command_line E cmd2 (command_line E cmd w).2).1 = stat_t.STAT_OK →
        ∃ line2 : line_t AXES,
          (command_line E cmd2 (command_line E cmd w).2).2.queue
            = w.queue ++ [command_t.COMMAND_line line, command_t.COMMAND_line line2] ∧
          ∀ axis, line2.start axis = line.target axis := by
  obtain ⟨line, c, hq, hp, -, -, -, hs, hk, ht, -⟩ := command_line_ok_record E cmd w h
  refine ⟨line, c, hq, hk, hs, ?_, ?_, hp, ?_⟩
  · rw [hs]
    exact ht
  · intro axis hframe
    rw [ht, hs]
    exact hframe _
  · intro cmd2 h2
    obtain ⟨line2, c2, hq2, -, -, -, -, hs2, -⟩ :=
      command_line_ok_record E cmd2 (command_line E cmd w).2 h2
    refine ⟨line2, ?_, ?_⟩
    · rw [hq2, hq]
      simp
    · intro axis
      rw [hs2, hp]

/-! ## The velocity limit of a line -/

theorem command_line_max_vel_fold (E : env AXES SCurve) (line : line_t AXES)
    (axes : List (Fin AXES)) (m0 : ℚ) :
    axes.foldl (command_line_max_vel_step E line) m0 ≤ m0 ∧
    (∀ axis ∈ axes, line.unit axis ≠ 0 →
      axes.foldl (command_line_max_vel_step E line) m0
        ≤ E.axis_get_velocity_max axis / |line.unit axis|) ∧
    (axes.foldl (command_line_max_vel_step E line) m0 = m0 ∨
      ∃ axis ∈ axes, line.unit axis ≠ 0 ∧
        axes.foldl (command_line_max_vel_step E line) m0
          = E.axis_get_velocity_max axis / |line.unit axis|) := by
  induction axes generalizing m0 with
  | nil => simp
  | cons a as ih =>
    simp only [List.foldl_cons]
    obtain ⟨hle, hall, hatt⟩ := ih (command_line_max_vel_step E line m0 a)
    have hstep : command_line_max_vel_step E line m0 a ≤ m0 := by
      unfold command_line_max_vel_step
      split
      · simp only []
        split
        · rename_i hlt
          exact le_of_lt hlt
        · exact le_refl _
      · exact le_refl _
    refine ⟨le_trans hle hstep, ?_, ?_⟩
    · intro axis hmem hu
      rcases List.mem_cons.mp hmem with rfl | hmem
      · refine le_trans hle ?_
        unfold command_line_max_vel_step
        simp only [hu, ne_eq, not_false_eq_true, if_true]
        split
        · exact le_refl _
        · rename_i hnlt
          exact not_lt.mp hnlt
      · exact hall axis hmem hu
    · rcases hatt with heq | ⟨axis, hmem, hu, heq⟩
      · rw [heq]
        unfold command_line_max_vel_step
        split
        · rename_i hu
          simp only []
          split
          · exact Or.inr ⟨a, List.mem_cons_self _ _, hu, rfl⟩
          · exact Or.inl rfl
        · exact Or.inl rfl
      · exact Or.inr ⟨axis, List.mem_cons_of_mem _ hmem, hu, heq⟩

/-- The velocity limit is the least of `FLT_MAX` and the quotients
`axis_get_velocity_max(axis) / |unit[axis]|` of the axes that move. -/
theorem command_line_max_vel_min (E : env AXES SCurve) (line : line_t AXES) :
    command_line_max_vel E line ≤ FLT_MAX ∧
    (∀ axis, line.unit axis ≠ 0 →
      command_line_max_vel E line ≤ E.axis_get_velocity_max axis / |line.unit axis|) ∧
    (command_line_max_vel E line = FLT_MAX ∨
      ∃ axis, line.unit axis ≠ 0 ∧
        command_line_max_vel E line = E.axis_get_velocity_max axis / |line.unit axis|) := by
  obtain ⟨hle, hall, hatt⟩ := command_line_max_vel_fold E line (List.finRange AXES) FLT_MAX
  refine ⟨hle, fun axis hu => hall axis (List.mem_finRange axis) hu, ?_⟩
  rcases hatt with h | ⟨axis, -, hu, h⟩
  · exact Or.inl h
  · exact Or.inr ⟨axis, hu, h⟩

theorem command_line_max_vel_congr (E : env AXES SCurve) (line line2 : line_t AXES)
    (h : line.unit = line2.unit) :
    command_line_max_vel E line = command_line_max_vel E line2 := by
  unfold command_line_max_vel
  congr 1
  funext max_vel axis
  unfold command_line_max_vel_step
  rw [h]

/-- C5, as amended: the record queued by an accepted command has `max_vel`
equal to the least of `FLT_MAX` and the quotients
`axis_get_velocity_max(axis) / |unit[axis]|` over the axes with a non-zero
direction component; with non-negative axis limits,
`max_vel * |unit[axis]| <= axis_get_velocity_max(axis)` on every axis. -/
theorem command_line_max_vel_clamped (E : env AXES SCurve) (cmd : List Char)
    (w : world AXES SCurve) (h : (command_line E cmd w).1 = stat_t.STAT_OK)
    (hv : ∀ axis, 0 ≤ E.axis_get_velocity_max axis) :
    ∃ line : line_t AXES,
      (command_line E cmd w).2.queue = w.queue ++ [command_t.COMMAND_line line] ∧
      line.max_vel ≤ FLT_MAX ∧
      (∀ axis, line.unit axis ≠ 0 →
        line.max_vel ≤ E.axis_get_velocity_max axis / |line.unit axis|) ∧
      (line.max_vel = FLT_MAX ∨
        ∃ axis, line.unit axis ≠ 0 ∧
          line.max_vel = E.axis_get_velocity_max axis / |line.unit axis|) ∧
      ∀ axis, line.max_vel * |line.unit axis| ≤ E.axis_get_velocity_max axis := by
  obtain ⟨line, c, hq, -, -, -, -, -, -, -, -, -, -, -, hu, -, hm⟩ :=
    command_line_ok_record E cmd w h
  have hm2 : line.max_vel = command_line_max_vel E line := by
    rw [hm]
    exact command_line_max_vel_congr E _ _ hu.symm
  obtain ⟨hle, hall, hatt⟩ := command_line_max_vel_min E line
  rw [← hm2] at hle hall hatt
  refine ⟨line, hq, hle, hall, hatt, ?_⟩
  intro axis
  by_cases hz : line.unit axis = 0
  · rw [hz]
    simpa using hv axis
  · have hpos : 0 < |line.unit axis| := abs_pos.mpr hz
    exact (le_div_iff₀ hpos).mp (hall axis hz)

theorem sample_line_accept (E : env 4 ℚ) (hf : E.decode_float = sample_decode_float)
    (ha : E.decode_axes = sample_decode_axes) :
    command_line E sample_line sample_world
      = (stat_t.STAT_OK,
          command_line_accept E
            (command_line_record sample_world 0 5 9
              (Function.update (Function.update sample_world.position 0 3) 1 4)
              (Function.update (fun _ => 0) 0 1)) sample_world) := by
  refine command_line_eq_accept E sample_line sample_world
    0 5 9 1 1 1 4 _ _ ?_ (le_refl 0) ?_ (by norm_num) ?_ (by norm_num) ?_ ?_
  · rw [hf]
    rfl
  · rw [hf]
    rfl
  · rw [hf]
    rfl
  · rw [ha]
    simp [sample_line, sample_decode_axes, sample_axis, sample_decode_float]
  · simp [sample_line, hf, sample_decode_float, command_line_times]
    rfl

theorem sample_line_unit (E : env 4 ℚ) (hs : E.sqrt = Rat.sqrt) (axis : Fin 4) :
    (command_line_direction E
      (command_line_record sample_world 0 5 9
        (Function.update (Function.update sample_world.position 0 3) 1 4)
        (Function.update (fun _ => 0) 0 1))).unit axis = ![3 / 5, 4 / 5, 0, 0] axis := by
  have hr : List.finRange 4 = [0, 1, 2, 3] := rfl
  have h25 : Rat.sqrt 25 = 5 := by
    have : (25 : ℚ) = 5 * 5 := by norm_num
    rw [this, Rat.sqrt_eq]
    norm_num
  have hd : ∀ a : Fin 4,
      Function.update (Function.update sample_world.position 0 3) 1 4 a
        - sample_world.position a = ![3, 4, 0, 0] a := by
    intro a
    fin_cases a <;> simp +decide [Function.update, sample_world]
  unfold command_line_direction
  simp only [hr, hs, List.foldl_cons, List.foldl_nil, command_line_record, hd]
  fin_cases axis <;> norm_num [h25]
/-- C4, on the sample command from the origin to x = 3, y = 4. -/
theorem command_line_position_chain_witness :
    (command_line sample_env sample_line sample_world).1 = stat_t.STAT_OK ∧
    ∃ line : line_t 4,
      (command_line sample_env sample_line sample_world).2.queue
        = [command_t.COMMAND_line line] ∧
      line.start = sample_world.position ∧
      (command_line sample_env sample_line sample_world).2.position = line.target :=
  have h : (command_line sample_env sample_line sample_world).1 = stat_t.STAT_OK := by
    rw [sample_line_accept sample_env rfl rfl]
  ⟨h, by
    obtain ⟨line, c, hq, -, hs, -, -, hp, -⟩ :=
      command_line_position_chain sample_env sample_line sample_world h
    exact ⟨line, hq, hs, hp⟩⟩

/-- C5, as amended, on the sample command with the sample axis limits. -/
theorem command_line_max_vel_clamped_witness :
    (command_line sample_env sample_line sample_world).1 = stat_t.STAT_OK ∧
    (∀ axis, 0 ≤ sample_env.axis_get_velocity_max axis) ∧
    ∃ line : line_t 4,
      (command_line sample_env sample_line sample_world).2.queue
        = [command_t.COMMAND_line line] ∧
      ∀ axis, line.max_vel * |line.unit axis| ≤ sample_env.axis_get_velocity_max axis :=
  have h : (command_line sample_env sample_line sample_world).1 = stat_t.STAT_OK := by
    rw [sample_line_accept sample_env rfl rfl]
  have hv : ∀ axis, 0 ≤ sample_env.axis_get_velocity_max axis := by
    intro axis
    simp [sample_env]
  ⟨h, hv, by
    obtain ⟨line, hq, -, -, -, hb⟩ :=
      command_line_max_vel_clamped sample_env sample_line sample_world h hv
    exact ⟨line, hq, hb⟩⟩

/-- C5, as stated, fails: with axis limits of `FLT_MAX` the accepted line
from the origin to x = 3, y = 4 has `max_vel = FLT_MAX`, strictly below
`axis_get_velocity_max(axis) / |unit[axis]|` for every axis that moves, so
`max_vel` is not the minimum of those quotients. -/
theorem command_line_max_vel_not_min :
    (command_line sample_env_fast sample_line sample_world).1 = stat_t.STAT_OK ∧
    ∃ line : line_t 4,
      (command_line sample_env_fast sample_line sample_world).2.queue
        = [command_t.COMMAND_line line] ∧
      line.start ≠ line.target ∧
      line.unit 0 ≠ 0 ∧
      line.max_vel = FLT_MAX ∧
      ∀ axis, line.unit axis ≠ 0 →
        line.max_vel < sample_env_fast.axis_get_velocity_max axis / |line.unit axis| := by
  have heq := sample_line_accept sample_env_fast rfl rfl
  have h : (command_line sample_env_fast sample_line sample_world).1 = stat_t.STAT_OK := by
    rw [heq]
  refine ⟨h, ?_⟩
  obtain ⟨line, c, hq, -, -, -, -, hs, -, -, -, -, -, -, hu, -, hm⟩ :=
    command_line_ok_record sample_env_fast sample_line sample_world h
  obtain ⟨rec, hq2, hs2, ht2, hti2, hv2, ha2, hj2, hu2, -, -⟩ :=
    command_line_accept_queue sample_env_fast
      (command_line_record sample_world 0 5 9
        (Function.update (Function.update sample_world.position 0 3) 1 4)
        (Function.update (fun _ => 0) 0 1)) sample_world
  have hrec : line = rec := by
    rw [heq] at hq
    simp only [] at hq
    rw [hq2] at hq
    have := List.append_cancel_left hq
    simp only [List.cons.injEq, and_true, command_t.COMMAND_line.injEq] at this
    exact this.symm
  have hunit : ∀ axis, line.unit axis = ![3 / 5, 4 / 5, 0, 0] axis := by
    intro axis
    rw [hrec, hu2]
    exact sample_line_unit sample_env_fast rfl axis
  have hFpos : (0 : ℚ) < FLT_MAX := by
    unfold FLT_MAX
    norm_num
  have hquot : ∀ axis, line.unit axis ≠ 0 →
      FLT_MAX < sample_env_fast.axis_get_velocity_max axis / |line.unit axis| := by
    intro axis hne
    have hlt : |line.unit axis| < 1 := by
      rw [hunit axis]
      fin_cases axis <;> norm_num [abs_of_nonneg]
    have hpos : 0 < |line.unit axis| := abs_pos.mpr hne
    have hvm : sample_env_fast.axis_get_velocity_max axis = FLT_MAX := rfl
    rw [hvm, lt_div_iff₀ hpos]
    calc FLT_MAX * |line.unit axis| < FLT_MAX * 1 := by
          exact mul_lt_mul_of_pos_left hlt hFpos
      _ = FLT_MAX := mul_one _
  have hm2 : line.max_vel = command_line_max_vel sample_env_fast line := by
    rw [hm]
    exact command_line_max_vel_congr sample_env_fast _ _ hu.symm
  obtain ⟨hle, -, hatt⟩ := command_line_max_vel_min sample_env_fast line
  rw [← hm2] at hle hatt
  have hmax : line.max_vel = FLT_MAX := by
    rcases hatt with h1 | ⟨axis, hne, h1⟩
    · exact h1
    · exact absurd (h1 ▸ hquot axis hne) (not_lt.mpr hle)
  refine ⟨line, ?_, ?_, ?_, hmax, ?_⟩
  · rw [hq]
    rfl
  · intro hst
    have h0 : line.target 0 = 3 := by
      rw [hrec, ht2]
      simp +decide [command_line_record, Function.update]
    have h1 : line.start 0 = 0 := by
      rw [hs]
      rfl
    rw [hst, h0] at h1
    norm_num at h1
  · rw [hunit 0]
    norm_num
  · intro axis hne
    rw [hmax]
    exact hquot axis hne

/-! ## Executing a line: lemmas -/

/-- When every later section has a zero duration, `_section_next` runs past
section 6 and returns false. -/
theorem _section_next_none (w : world AXES SCurve)
    (h : ∀ s : Int, w.l.section_ < s → s < 7 → w.l.line.time s = 0) :
    _section_next w
      = (false, { w with l := { w.l with section_ := max (w.l.section_ + 1) 7 } }) := by
  induction w using _section_next.induct with
  | case1 x w hlt hz ih =>
    rw [_section_next]
    simp only [w] at hlt hz ih
    simp only [hlt, if_true, hz]
    rw [ih (fun s hs h7 => h s (by omega) h7)]
    have : max (x.l.section_ + 1 + 1) 7 = max (x.l.section_ + 1) 7 := by omega
    simp only [this]
  | case2 x w hlt hz =>
    simp only [w] at hlt hz
    exact absurd (h _ (by omega) hlt) hz
  | case3 x w hlt =>
    rw [_section_next]
    simp only [w] at hlt
    simp only [hlt, if_false]
    have : max (x.l.section_ + 1) 7 = x.l.section_ + 1 := by omega
    rw [this]

/-- When `s` is the first later section with a non-zero duration,
`_section_next` enters it: it sets the section, its jerk and its initial
acceleration, reports the jerk, and returns true. -/
theorem _section_next_some (w : world AXES SCurve) (s : Int)
    (hlt : w.l.section_ < s) (h7 : s < 7)
    (hz : ∀ r : Int, w.l.section_ < r → r < s → w.l.line.time r = 0)
    (hnz : w.l.line.time s ≠ 0) :
    _section_next w
      = (true,
          { w with
            l := { w.l with
                   section_ := s
                   jerk := _section_jerk w.l.line s
                   iA := _section_accel w.l.line s }
            trace := w.trace ++ [event.exec_set_jerk (_section_jerk w.l.line s)] }) := by
  induction w using _section_next.induct with
  | case1 x w hlt1 hz1 ih =>
    rw [_section_next]
    simp only [w] at hlt1 hz1 ih
    simp only [hlt1, if_true, hz1]
    have hne : x.l.section_ + 1 ≠ s := by
      intro he
      rw [he] at hz1
      exact hnz hz1
    rw [ih (by omega) (fun r hr hrs => hz r (by omega) hrs) hnz]
  | case2 x w hlt1 hnz1 =>
    rw [_section_next]
    simp only [w] at hlt1 hnz1
    simp only [hlt1, if_true, hnz1, if_false]
    have he : x.l.section_ + 1 = s := by
      by_contra hne
      exact hnz1 (hz _ (by omega) (by omega))
    simp only [he, exec_set_jerk]
  | case3 x w hlt1 =>
    simp only [w] at hlt1
    omega

/-- Function `_line_exec` in terms of the quantities of the tick. -/
theorem _line_exec_eq (E : env AXES SCurve) (w : world AXES SCurve) :
    _line_exec E w =
      if _line_exec_t E w = w.l.line.time w.l.section_ then
        match _section_next (_line_exec_synced E w) with
        | (true, w1) =>
          exec_segment E
            ⟨_line_exec_seg_time E w, fun axis => w1.l.line.start axis
                + w1.l.line.unit axis * _line_exec_d E w,
              _segment_velocity w (_line_exec_t E w), _segment_accel w (_line_exec_t E w),
              w1.l.line.max_vel, w1.l.line.max_accel, w1.l.line.max_jerk⟩
            { w1 with l := { w1.l with seg := 0, iD := _line_exec_d E w,
                                       iV := _segment_velocity w (_line_exec_t E w) } }
        | (false, w1) =>
          exec_segment E
            ⟨_line_exec_seg_time E w, w1.l.line.target, w1.l.line.target_vel,
              _segment_accel w (_line_exec_t E w), w1.l.line.max_vel, w1.l.line.max_accel,
              w1.l.line.max_jerk⟩
            (exec_set_cb exec_cb.none w1)
      else
        exec_segment E
          ⟨_line_exec_seg_time E w, fun axis => (_line_exec_synced E w).l.line.start axis
              + (_line_exec_synced E w).l.line.unit axis * _line_exec_d E w,
            _segment_velocity w (_line_exec_t E w), _segment_accel w (_line_exec_t E w),
            (_line_exec_synced E w).l.line.max_vel, (_line_exec_synced E w).l.line.max_accel,
            (_line_exec_synced E w).l.line.max_jerk⟩
          (_line_exec_synced E w) := by
  rfl

/-- The synchronized speeds are handled without touching anything but the
queue, the pending speed and the trace, which grows by at most one call of
`spindle_set_speed`. -/
theorem _line_exec_synced_frame (E : env AXES SCurve) (w : world AXES SCurve) :
    ∃ q sp tr, _line_exec_synced E w
        = { w with queue := q, l := { w.l with seg := w.l.seg + 1, speed := sp },
                   trace := w.trace ++ tr } ∧
      (tr = [] ∨ ∃ speed, tr = [event.spindle_set_speed speed]) := by
  obtain ⟨q, sp, tr, hs, htr⟩ := _set_sync_speeds_frame (_line_exec_d E w)
    { w with l := { w.l with seg := w.l.seg + 1 } }
  exact ⟨q, sp, tr, hs, htr⟩

theorem _line_exec_t_eq (E : env AXES SCurve) (w : world AXES SCurve)
    (hdone : w.l.line.time w.l.section_ ≤ ((w.l.seg + 1 : Int) : ℚ) * E.SEGMENT_TIME) :
    _line_exec_t E w = w.l.line.time w.l.section_ := by
  unfold _line_exec_t
  split
  · rfl
  · rename_i hnlt
    exact le_antisymm (not_lt.mp hnlt) hdone

theorem line_t.time_ofNat (line : line_t AXES) (i : Fin 7) :
    line.time ((i : Nat) : Int) = line.times i := by
  unfold line_t.time
  congr 1
  fin_cases i <;> rfl

set_option linter.unusedTactic false in
/-- When the first ramp is symmetric (`times[0] = times[2]`) the initial
acceleration of the next executed section is the acceleration at the end of
the current one. -/
theorem _section_accel_continuous (line : line_t AXES) (p s : Int)
    (hp0 : 0 ≤ p) (hps : p < s) (hs7 : s < 7) (hpnz : line.time p ≠ 0)
    (hz : ∀ r : Int, p < r → r < s → line.time r = 0)
    (h02 : line.times 0 = line.times 2) :
    _section_accel line s = _section_accel line p + _section_jerk line p * line.time p := by
  have t0 : line.time 0 = line.times 0 := line_t.time_ofNat line 0
  have t1 : line.time 1 = line.times 1 := line_t.time_ofNat line 1
  have t2 : line.time 2 = line.times 2 := line_t.time_ofNat line 2
  have t3 : line.time 3 = line.times 3 := line_t.time_ofNat line 3
  have t4 : line.time 4 = line.times 4 := line_t.time_ofNat line 4
  have t5 : line.time 5 = line.times 5 := line_t.time_ofNat line 5
  have e1 : p < 1 → 1 < s → line.times 1 = 0 := fun a b => t1 ▸ hz 1 a b
  have e2 : p < 2 → 2 < s → line.times 2 = 0 := fun a b => t2 ▸ hz 2 a b
  have e3 : p < 3 → 3 < s → line.times 3 = 0 := fun a b => t3 ▸ hz 3 a b
  have e4 : p < 4 → 4 < s → line.times 4 = 0 := fun a b => t4 ▸ hz 4 a b
  have e5 : p < 5 → 5 < s → line.times 5 = 0 := fun a b => t5 ▸ hz 5 a b
  clear hz
  have hp7 : p < 7 := by omega
  interval_cases p <;> interval_cases s <;>
    norm_num [_section_accel, _section_jerk, t0, t1, t2, t3, t4, t5] at e1 e2 e3 e4 e5 hpnz ⊢ <;>
    first
      | done
      | (rw [h02]; ring1)
      | (rw [h02, e2]; ring1)
      | (rw [e4]; done)
      | (rw [e4, h02, e2]; done)
      | (rw [e4, h02, e2]; ring1)
      | (rw [e4]; ring1)
      | (rw [h02, e2] at hpnz; exact absurd rfl hpnz)
      | (rw [e4, h02]; ring1)
      | (right; rw [h02]; exact e2)
      | (right; exact e4)


/-- C9, as amended: when the first ramp of the line is symmetric
(`times[0] = times[2]`) and the executor is inside a section with the jerk and
initial acceleration that `_section_next` set for it, the initial acceleration
that `_section_next` derives for the next section `s` with a non-zero duration
is the old section's acceleration `iA + jerk*T` at its full duration `T`; the
tick of `_line_exec` that completes the old section enters `s` with that
acceleration and is again inside a section in the same sense. -/
theorem _section_next_accel_continuous (E : env AXES SCurve) (w : world AXES SCurve)
    (s : Int) (hent : _section_entered w)
    (h02 : w.l.line.times 0 = w.l.line.times 2)
    (hlt : w.l.section_ < s) (h7 : s < 7)
    (hz : ∀ r : Int, w.l.section_ < r → r < s → w.l.line.time r = 0)
    (hnz : w.l.line.time s ≠ 0) :
    (_section_next w).1 = true ∧
    (_section_next w).2.l.section_ = s ∧
    (_section_next w).2.l.iA = w.l.iA + w.l.jerk * w.l.line.time w.l.section_ ∧
    (_section_next w).2.l.iA = _segment_accel w (w.l.line.time w.l.section_) ∧
    (w.l.line.time w.l.section_ ≤ ((w.l.seg + 1 : Int) : ℚ) * E.SEGMENT_TIME →
      (_line_exec E w).2.l.iA = w.l.iA + w.l.jerk * w.l.line.time w.l.section_ ∧
      _section_entered (_line_exec E w).2) := by
  obtain ⟨hp0, hp7, hpnz, hj, ha⟩ := hent
  have hacc := _section_accel_continuous w.l.line w.l.section_ s hp0 hlt h7 hpnz hz h02
  have hn := _section_next_some w s hlt h7 hz hnz
  have hval : _section_accel w.l.line s = w.l.iA + w.l.jerk * w.l.line.time w.l.section_ := by
    rw [hacc, ha, hj]
  refine ⟨?_, ?_, ?_, ?_, ?_⟩
  · rw [hn]
  · rw [hn]
  · rw [hn]
    exact hval
  · rw [hn]
    simp only [_segment_accel, SCurve_acceleration]
    rw [hval]
  · intro hdone
    obtain ⟨q, sp, tr, hs, htr⟩ := _line_exec_synced_frame E w
    have ht := _line_exec_t_eq E w hdone
    have hn2 := _section_next_some
      ({ w with queue := q, l := { w.l with seg := w.l.seg + 1, speed := sp },
                trace := w.trace ++ tr } : world AXES SCurve) s hlt h7 hz hnz
    rw [_line_exec_eq, if_pos ht, hs, hn2]
    refine ⟨hval, ?_⟩
    exact ⟨by simp only [exec_segment]; omega, h7, hnz, rfl, rfl⟩

/-! ## Synchronized speeds: lemmas -/

theorem _set_sync_speeds_loop_break (d : ℚ) (w : world AXES SCurve) (speed : ℚ)
    (h : (_set_sync_speeds_load w).l.speed.offset < 0
      ∨ d < (_set_sync_speeds_load w).l.speed.offset) :
    _set_sync_speeds_loop d w speed = (speed, _set_sync_speeds_load w) := by
  rw [_set_sync_speeds_loop]
  simp only [h, if_true]

theorem _set_sync_speeds_loop_step (d : ℚ) (w : world AXES SCurve) (speed : ℚ)
    (h0 : 0 ≤ (_set_sync_speeds_load w).l.speed.offset)
    (hd : (_set_sync_speeds_load w).l.speed.offset ≤ d) :
    _set_sync_speeds_loop d w speed
      = _set_sync_speeds_loop d (_set_sync_speeds_done (_set_sync_speeds_load w))
          (_set_sync_speeds_load w).l.speed.speed := by
  rw [_set_sync_speeds_loop, _set_sync_speeds_done]
  have h : ¬((_set_sync_speeds_load w).l.speed.offset < 0
      ∨ d < (_set_sync_speeds_load w).l.speed.offset) := by
    rw [not_or]
    exact ⟨not_lt.mpr h0, not_lt.mpr hd⟩
  simp only [h, if_false]

theorem _set_sync_speeds_load_idem (w : world AXES SCurve)
    (h : 0 ≤ w.l.speed.offset) : _set_sync_speeds_load w = w := by
  unfold _set_sync_speeds_load
  rw [if_neg (not_lt.mpr h)]

theorem _section_next_trace (w : world AXES SCurve) :
    ∃ tr, (_section_next w).2.trace = w.trace ++ tr ∧ spindle_speeds tr = [] := by
  induction w using _section_next.induct with
  | case1 x w hlt hz ih =>
    rw [_section_next]
    simp only [w] at hlt hz ih
    simp only [hlt, if_true, hz]
    exact ih
  | case2 x w hlt hnz =>
    rw [_section_next]
    simp only [w] at hlt hnz
    simp only [hlt, if_true, hnz, if_false]
    exact ⟨[event.exec_set_jerk _], rfl, rfl⟩
  | case3 x w hlt =>
    rw [_section_next]
    simp only [w] at hlt
    simp only [hlt, if_false]
    exact ⟨[], by simp, rfl⟩

theorem spindle_speeds_append (a b : List (event AXES)) :
    spindle_speeds (a ++ b) = spindle_speeds a ++ spindle_speeds b := by
  induction a with
  | nil => rfl
  | cons e a ih =>
    cases e <;> simp [spindle_speeds, ih]

theorem exec_segment_trace (E : env AXES SCurve) (s : segment_t AXES)
    (w0 w : world AXES SCurve) (tr : List (event AXES))
    (h : w.trace = w0.trace ++ tr) (hsp : spindle_speeds tr = []) :
    ∃ rest, (exec_segment E s w).2.trace = w0.trace ++ rest ∧ spindle_speeds rest = [] := by
  refine ⟨tr ++ [event.exec_segment s], ?_, ?_⟩
  · simp only [exec_segment, h, List.append_assoc]
  · rw [spindle_speeds_append, hsp]
    rfl

/-- In one tick the trace grows by what `_set_sync_speeds` adds, at most one
call of `spindle_set_speed`, followed by calls that are not calls of
`spindle_set_speed`: the section change or the end of the line, and the
segment. -/
theorem _line_exec_trace (E : env AXES SCurve) (w : world AXES SCurve) :
    ∃ tr rest,
      (_line_exec E w).2.trace = w.trace ++ tr ++ rest ∧
      (_line_exec_synced E w).trace = w.trace ++ tr ∧
      (tr = [] ∨ ∃ speed, tr = [event.spindle_set_speed speed]) ∧
      spindle_speeds rest = [] := by
  obtain ⟨q, sp, tr, hs, htr⟩ := _line_exec_synced_frame E w
  have hst : (_line_exec_synced E w).trace = w.trace ++ tr := by
    rw [hs]
  have key : ∃ rest, (_line_exec E w).2.trace = (_line_exec_synced E w).trace ++ rest
      ∧ spindle_speeds rest = [] := by
    rw [_line_exec_eq]
    split
    · obtain ⟨tr2, h2, hsp⟩ := _section_next_trace (_line_exec_synced E w)
      rcases hsn : _section_next (_line_exec_synced E w) with ⟨b, w1⟩
      rw [hsn] at h2
      simp only [] at h2
      cases b
      · refine exec_segment_trace E _ _ _ (tr2 ++ [event.exec_set_cb exec_cb.none]) ?_ ?_
        · simp only [exec_set_cb, h2, List.append_assoc]
        · rw [spindle_speeds_append, hsp]
          rfl
      · exact exec_segment_trace E _ _ _ tr2 h2 hsp
    · exact exec_segment_trace E _ _ _ [] (by simp) rfl
  obtain ⟨rest, hr, hsr⟩ := key
  exact ⟨tr, rest, by rw [hr, hst], hst, htr, hsr⟩

theorem _set_sync_speeds_pending (d : ℚ) (w : world AXES SCurve)
    (hd : d < (_set_sync_speeds_load w).l.speed.offset) :
    _set_sync_speeds d w = _set_sync_speeds_load w := by
  unfold _set_sync_speeds
  rw [_set_sync_speeds_loop_break d w FLT_MAX (Or.inr hd)]
  simp

theorem _set_sync_speeds_fire (d : ℚ) (w : world AXES SCurve)
    (h0 : 0 ≤ (_set_sync_speeds_load w).l.speed.offset)
    (hd : (_set_sync_speeds_load w).l.speed.offset ≤ d)
    (hsp : (_set_sync_speeds_load w).l.speed.speed ≠ FLT_MAX)
    (hnext : (_set_sync_speeds_load (_set_sync_speeds_done (_set_sync_speeds_load w))).l.speed.offset
        < 0
      ∨ d < (_set_sync_speeds_load
              (_set_sync_speeds_done (_set_sync_speeds_load w))).l.speed.offset) :
    _set_sync_speeds d w
      = spindle_set_speed (_set_sync_speeds_load w).l.speed.speed
          (_set_sync_speeds_load (_set_sync_speeds_done (_set_sync_speeds_load w))) := by
  unfold _set_sync_speeds
  rw [_set_sync_speeds_loop_step d w FLT_MAX h0 hd]
  rw [_set_sync_speeds_loop_break d _ _ hnext]
  simp only [hsp, ne_eq, not_false_eq_true, if_true]

/-- C7, as amended: for the synchronized speed that a call of
`_set_sync_speeds(d)` considers first (the pending one, or the one it takes
from the head of the queue when none is pending), with a non-negative offset:
if `d < offset` the call leaves it pending and does not call
`spindle_set_speed`; if `offset <= d`, its speed is not `FLT_MAX` and no
further synchronized speed is ready behind it, the call calls
`spindle_set_speed` exactly once, with its speed, and the event is no longer
pending afterwards.  In every tick `_line_exec` makes this call on the clamped
distance, and the trace of the tick is at most one call of
`spindle_set_speed` followed by the section change or line completion and the
segment. -/
theorem _set_sync_speeds_fires_once (E : env AXES SCurve) (w : world AXES SCurve) (d : ℚ) :
    (0 ≤ (_set_sync_speeds_load w).l.speed.offset →
      d < (_set_sync_speeds_load w).l.speed.offset →
      _set_sync_speeds d w = _set_sync_speeds_load w ∧
      (_set_sync_speeds d w).trace = w.trace) ∧
    (0 ≤ (_set_sync_speeds_load w).l.speed.offset →
      (_set_sync_speeds_load w).l.speed.offset ≤ d →
      (_set_sync_speeds_load w).l.speed.speed ≠ FLT_MAX →
      ((_set_sync_speeds_load
          (_set_sync_speeds_done (_set_sync_speeds_load w))).l.speed.offset < 0
        ∨ d < (_set_sync_speeds_load
                (_set_sync_speeds_done (_set_sync_speeds_load w))).l.speed.offset) →
      (_set_sync_speeds d w).trace
        = w.trace ++ [event.spindle_set_speed (_set_sync_speeds_load w).l.speed.speed] ∧
      ((_set_sync_speeds d w).l.speed.offset < 0
        ∨ d < (_set_sync_speeds d w).l.speed.offset)) ∧
    _line_exec_synced E w
      = _set_sync_speeds (_line_exec_d E w) { w with l := { w.l with seg := w.l.seg + 1 } } ∧
    ∃ tr rest,
      (_line_exec E w).2.trace = w.trace ++ tr ++ rest ∧
      (_line_exec_synced E w).trace = w.trace ++ tr ∧
      (tr = [] ∨ ∃ speed, tr = [event.spindle_set_speed speed]) ∧
      spindle_speeds rest = [] := by
  have hload : ∀ x : world AXES SCurve, (_set_sync_speeds_load x).trace = x.trace := by
    intro x
    obtain ⟨q, sp, h⟩ := _set_sync_speeds_load_frame x
    rw [h]
  refine ⟨?_, ?_, rfl, _line_exec_trace E w⟩
  · intro _ hd
    rw [_set_sync_speeds_pending d w hd]
    exact ⟨rfl, hload w⟩
  · intro h0 hd hsp hnext
    rw [_set_sync_speeds_fire d w h0 hd hsp hnext]
    refine ⟨?_, hnext⟩
    simp only [spindle_set_speed, hload, _set_sync_speeds_done]

/-! ## Executing a line: the sample runs -/

/-- C9, as amended, on the sample line, whose first ramp is symmetric: the
tick that completes section 0 enters section 2 with initial acceleration
`0 + 100 * (1/10) = 10`. -/
theorem _section_next_accel_continuous_witness :
    (_section_next sample_world_first).2.l.iA = 10 ∧
    (_line_exec sample_env sample_world_first).2.l.iA = 10 := by
  obtain ⟨-, -, ha, -, htick⟩ :=
    _section_next_accel_continuous sample_env sample_world_first 2
      (by
        refine ⟨by decide, by decide, ?_, rfl, rfl⟩
        show sample_record.time 0 ≠ 0
        rw [show sample_record.time 0 = 1 / 10 from rfl]
        norm_num)
      rfl (by decide) (by decide)
      (by
        intro r h0 h2
        have hr : r = 1 := by
          simp only [sample_world_first] at h0
          omega
        subst hr
        rfl)
      (by
        show sample_record.time 2 ≠ 0
        rw [show sample_record.time 2 = 1 / 10 from rfl]
        norm_num)
  have hval : sample_world_first.l.iA
      + sample_world_first.l.jerk * sample_world_first.l.line.time sample_world_first.l.section_
      = 10 := by
    show (0 : ℚ) + 100 * sample_record.time 0 = 10
    rw [show sample_record.time 0 = 1 / 10 from rfl]
    norm_num
  refine ⟨ha.trans hval, ?_⟩
  have hdone : sample_world_first.l.line.time sample_world_first.l.section_
      ≤ ((sample_world_first.l.seg + 1 : Int) : ℚ) * sample_env.SEGMENT_TIME := by
    show sample_record.time 0 ≤ ((0 + 1 : Int) : ℚ) * 1
    rw [show sample_record.time 0 = 1 / 10 from rfl]
    norm_num
  exact (htick hdone).1.trans hval

theorem sample_world_pending_load :
    _set_sync_speeds_load sample_world_pending = sample_world_pending :=
  _set_sync_speeds_load_idem sample_world_pending (by
    show (0 : ℚ) ≤ 1 / 2
    norm_num)

theorem sample_world_pending_next :
    _set_sync_speeds_load (_set_sync_speeds_done sample_world_pending)
      = _set_sync_speeds_done sample_world_pending := by
  simp [_set_sync_speeds_load, _set_sync_speeds_done, sample_world_pending, sample_world]

/-- C7, as amended, on the sample world with the speed 100 pending at offset
`1/2`: a call with `d = 1/4` leaves the trace as it is, and a call with
`d = 1` calls `spindle_set_speed(100)` once. -/
theorem _set_sync_speeds_fires_once_witness :
    (_set_sync_speeds (1 / 4) sample_world_pending).trace = sample_world_pending.trace ∧
    (_set_sync_speeds 1 sample_world_pending).trace
      = sample_world_pending.trace ++ [event.spindle_set_speed 100] := by
  have h0 : 0 ≤ (_set_sync_speeds_load sample_world_pending).l.speed.offset := by
    rw [sample_world_pending_load]
    show (0 : ℚ) ≤ 1 / 2
    norm_num
  refine ⟨?_, ?_⟩
  · refine ((_set_sync_speeds_fires_once sample_env sample_world_pending (1 / 4)).1 h0 ?_).2
    rw [sample_world_pending_load]
    show (1 / 4 : ℚ) < 1 / 2
    norm_num
  · have h := ((_set_sync_speeds_fires_once sample_env sample_world_pending 1).2.1 h0
      (by
        rw [sample_world_pending_load]
        show (1 / 2 : ℚ) ≤ 1
        norm_num)
      (by
        rw [sample_world_pending_load]
        show (100 : ℚ) ≠ FLT_MAX
        unfold FLT_MAX
        norm_num)
      (by
        left
        rw [sample_world_pending_load, sample_world_pending_next]
        show (-1 : ℚ) < 0
        norm_num)).1
    rw [sample_world_pending_load] at h
    exact h

theorem sample_world_sync_d : _line_exec_d sample_env sample_world_sync = 11 / 10 := by
  have ht : _line_exec_t sample_env sample_world_sync = 1 := by
    unfold _line_exec_t
    show (if sample_record.time 3 < ((0 + 1 : Int) : ℚ) * 1 then sample_record.time 3
      else ((0 + 1 : Int) : ℚ) * 1) = 1
    rw [show sample_record.time 3 = 49 / 5 from rfl]
    norm_num
  unfold _line_exec_d
  rw [ht]
  show (if (10 : ℚ) < 1 / 10 + SCurve_distance 1 1 0 0 then (10 : ℚ)
    else 1 / 10 + SCurve_distance 1 1 0 0) = 11 / 10
  norm_num [SCurve_distance]

theorem sample_world_sync_synced :
    (_line_exec_synced sample_env sample_world_sync).queue = [] ∧
    (_line_exec_synced sample_env sample_world_sync).trace = [event.spindle_set_speed 200] := by
  unfold _line_exec_synced
  rw [sample_world_sync_d]
  unfold _set_sync_speeds
  rw [_set_sync_speeds_loop_step _ _ _
    (by norm_num [_set_sync_speeds_load, sample_world_sync, sample_world, command_next])
    (by norm_num [_set_sync_speeds_load, sample_world_sync, sample_world, command_next])]
  rw [_set_sync_speeds_loop_step _ _ _
    (by norm_num [_set_sync_speeds_load, _set_sync_speeds_done, sample_world_sync,
      sample_world, command_next])
    (by norm_num [_set_sync_speeds_load, _set_sync_speeds_done, sample_world_sync,
      sample_world, command_next])]
  rw [_set_sync_speeds_loop_break _ _ _
    (by
      left
      norm_num [_set_sync_speeds_load, _set_sync_speeds_done, sample_world_sync,
        sample_world, command_next])]
  norm_num [_set_sync_speeds_load, _set_sync_speeds_done, sample_world_sync,
        sample_world, command_next, spindle_set_speed, FLT_MAX]

/-- C7, as stated, fails: in the sample world with the speeds 100 (offset
`1/2`) and 200 (offset 1) queued, one tick reaches the distance `11/10`, takes
both events from the queue and calls `spindle_set_speed` once, with 200; the
speed 100 is never set. -/
theorem _line_exec_coalesces_sync_speeds :
    sample_world_sync.queue
      = [command_t.COMMAND_sync_speed { offset := 1 / 2, speed := 100 },
         command_t.COMMAND_sync_speed { offset := 1, speed := 200 }] ∧
    _line_exec_d sample_env sample_world_sync = 11 / 10 ∧
    (_line_exec sample_env sample_world_sync).2.queue = [] ∧
    spindle_speeds (_line_exec sample_env sample_world_sync).2.trace = [200] := by
  have ht : _line_exec_t sample_env sample_world_sync
      ≠ sample_world_sync.l.line.time sample_world_sync.l.section_ := by
    unfold _line_exec_t
    show (if sample_record.time 3 < ((0 + 1 : Int) : ℚ) * 1 then sample_record.time 3
      else ((0 + 1 : Int) : ℚ) * 1) ≠ sample_record.time 3
    rw [show sample_record.time 3 = 49 / 5 from rfl]
    norm_num
  refine ⟨rfl, sample_world_sync_d, ?_, ?_⟩
  · rw [_line_exec_eq, if_neg ht]
    exact sample_world_sync_synced.1
  · rw [_line_exec_eq, if_neg ht]
    simp only [exec_segment, sample_world_sync_synced.2]
    rfl

/-- When `s` is the first section with a non-zero duration,
`command_line_exec` starts the line in it and registers `_line_exec`. -/
theorem command_line_exec_first (data : line_t AXES) (w : world AXES SCurve) (s : Int)
    (hs : -1 < s) (h7 : s < 7)
    (hz : ∀ r : Int, -1 < r → r < s → data.time r = 0) (hnz : data.time s ≠ 0) :
    ∃ q sp tr,
      command_line_exec data w
        = { w with
            queue := q
            cb := exec_cb._line_exec
            l := { line := data, section_ := s, seg := 0, iD := 0,
                   iV := if w.velocity ≠ 0 then w.l.lV else 0,
                   iA := _section_accel data s, jerk := _section_jerk data s,
                   lV := data.target_vel, speed := sp }
            trace := w.trace ++ tr
              ++ [event.exec_set_jerk (_section_jerk data s),
                  event.exec_set_cb exec_cb._line_exec] } ∧
      (tr = [] ∨ ∃ speed, tr = [event.spindle_set_speed speed]) := by
  obtain ⟨q, sp, tr, hsync, htr⟩ := _set_sync_speeds_frame 0
    ({ w with l := { ({ w with l := { w.l with line := data } } : world AXES SCurve).l with
        speed := { w.l.speed with offset := -1 } } } : world AXES SCurve)
  refine ⟨q, sp, tr, ?_, htr⟩
  unfold command_line_exec
  simp only []
  rw [hsync]
  have hn := _section_next_some
    ({ w with
       queue := q
       l := { line := data, section_ := -1, seg := 0, iD := 0,
              iV := if w.velocity ≠ 0 then w.l.lV else 0, iA := w.l.iA, jerk := w.l.jerk,
              lV := data.target_vel, speed := sp }
       trace := w.trace ++ tr } : world AXES SCurve) s hs h7 hz hnz
  rw [hn]
  simp [exec_set_cb]

/-- The section that `_line_exec` enters on the tick that completes a
section which is followed by a section `s` with a non-zero duration. -/
theorem _line_exec_next_section (E : env AXES SCurve) (w : world AXES SCurve) (s : Int)
    (hdone : w.l.line.time w.l.section_ ≤ ((w.l.seg + 1 : Int) : ℚ) * E.SEGMENT_TIME)
    (hlt : w.l.section_ < s) (h7 : s < 7)
    (hz : ∀ r : Int, w.l.section_ < r → r < s → w.l.line.time r = 0)
    (hnz : w.l.line.time s ≠ 0) :
    (_line_exec E w).2.l.line = w.l.line ∧
    (_line_exec E w).2.l.section_ = s ∧
    (_line_exec E w).2.l.seg = 0 ∧
    (_line_exec E w).2.l.jerk = _section_jerk w.l.line s ∧
    (_line_exec E w).2.l.iA = _section_accel w.l.line s ∧
    (_line_exec E w).2.cb = w.cb := by
  obtain ⟨q, sp, tr, hs, -⟩ := _line_exec_synced_frame E w
  have ht := _line_exec_t_eq E w hdone
  have hn := _section_next_some
    ({ w with queue := q, l := { w.l with seg := w.l.seg + 1, speed := sp },
              trace := w.trace ++ tr } : world AXES SCurve) s hlt h7 hz hnz
  rw [_line_exec_eq, if_pos ht, hs, hn]
  exact ⟨rfl, rfl, rfl, rfl, rfl, rfl⟩

theorem sample_line_gap_accept :
    command_line sample_env sample_line_gap sample_world
      = (stat_t.STAT_OK,
          command_line_accept sample_env
            (command_line_record sample_world 0 5 1
              (Function.update sample_world.position 0 5)
              (Function.update (Function.update (fun _ => 0) 0 1) 3 1)) sample_world) := by
  refine command_line_eq_accept sample_env sample_line_gap sample_world
    0 5 1 1 1 1 2 _ _ ?_ (le_refl 0) ?_ (by norm_num) ?_ (by norm_num) ?_ ?_
  · rfl
  · rfl
  · rfl
  · simp [sample_line_gap, sample_env, sample_decode_axes, sample_axis, sample_decode_float]
  · simp [sample_line_gap, sample_env, sample_decode_float, command_line_times]
    rfl

theorem sample_gap_times (line : line_t 4)
    (h : line.times = Function.update (Function.update (fun _ => 0) 0 1) 3 1) :
    line.time 0 = 1 ∧ line.time 1 = 0 ∧ line.time 2 = 0 ∧ line.time 3 = 1 := by
  have t0 : line.time 0 = line.times 0 := line_t.time_ofNat line 0
  have t1 : line.time 1 = line.times 1 := line_t.time_ofNat line 1
  have t2 : line.time 2 = line.times 2 := line_t.time_ofNat line 2
  have t3 : line.time 3 = line.times 3 := line_t.time_ofNat line 3
  rw [t0, t1, t2, t3, h]
  simp +decide [Function.update]

/-- C9, as stated, fails: the sample command with maximum jerk 1 that gives
time 1 to section 0 and time 1 to section 3 only is accepted; the line starts
in section 0, whose acceleration after its full duration is `0 + 1 * 1 = 1`,
and the tick that completes it enters section 3 with initial acceleration 0. -/
theorem _section_next_accel_jump :
    (command_line sample_env sample_line_gap sample_world).1 = stat_t.STAT_OK ∧
    ∃ line : line_t 4,
      (command_line sample_env sample_line_gap sample_world).2.queue
        = [command_t.COMMAND_line line] ∧
      (command_line_exec line
        (command_next (command_line sample_env sample_line_gap sample_world).2)).cb
        = exec_cb._line_exec ∧
      (command_line_exec line
        (command_next (command_line sample_env sample_line_gap sample_world).2)).l.section_
        = 0 ∧
      (command_line_exec line
          (command_next (command_line sample_env sample_line_gap sample_world).2)).l.iA
        + (command_line_exec line
            (command_next (command_line sample_env sample_line_gap sample_world).2)).l.jerk
          * line.time 0 = 1 ∧
      _segment_accel
        (command_line_exec line
          (command_next (command_line sample_env sample_line_gap sample_world).2))
        (line.time 0) = 1 ∧
      (_line_exec sample_env
        (command_line_exec line
          (command_next
            (command_line sample_env sample_line_gap sample_world).2))).2.l.section_ = 3 ∧
      (_line_exec sample_env
        (command_line_exec line
          (command_next
            (command_line sample_env sample_line_gap sample_world).2))).2.l.iA = 0 := by
  rw [sample_line_gap_accept]
  refine ⟨rfl, ?_⟩
  obtain ⟨rec, hq, -, -, hti, -, -, hj, -⟩ :=
    command_line_accept_queue sample_env
      (command_line_record sample_world 0 5 1
        (Function.update sample_world.position 0 5)
        (Function.update (Function.update (fun _ => 0) 0 1) 3 1)) sample_world
  have hmj : rec.max_jerk = 1 := hj
  obtain ⟨h0, h1, h2, h3⟩ := sample_gap_times rec hti
  obtain ⟨q, sp, tr, hw0, -⟩ := command_line_exec_first rec
    (command_next
      (command_line_accept sample_env
        (command_line_record sample_world 0 5 1
          (Function.update sample_world.position 0 5)
          (Function.update (Function.update (fun _ => 0) 0 1) 3 1)) sample_world))
    0 (by decide) (by decide)
    (by
      intro r hr0 hr1
      omega)
    (by
      rw [h0]
      norm_num)
  refine ⟨rec, by rw [hq]; rfl, ?_⟩
  dsimp only
  generalize command_line_exec rec
    (command_next
      (command_line_accept sample_env
        (command_line_record sample_world 0 5 1
          (Function.update sample_world.position 0 5)
          (Function.update (Function.update (fun _ => 0) 0 1) 3 1)) sample_world)) = w0
    at hw0 ⊢
  have hline : w0.l.line = rec := by rw [hw0]
  have hsec : w0.l.section_ = 0 := by rw [hw0]
  have hseg : w0.l.seg = 0 := by rw [hw0]
  have hiA : w0.l.iA = _section_accel rec 0 := by rw [hw0]
  have hjerk : w0.l.jerk = _section_jerk rec 0 := by rw [hw0]
  have hcb : w0.cb = exec_cb._line_exec := by rw [hw0]
  obtain ⟨-, hs3, -, -, ha3, -⟩ := _line_exec_next_section sample_env w0 3
    (by
      rw [hline, hsec, hseg, h0]
      show (1 : ℚ) ≤ ((0 + 1 : Int) : ℚ) * 1
      norm_num)
    (by
      rw [hsec]
      decide)
    (by decide)
    (by
      intro r hr0 hr3
      rw [hsec] at hr0
      rw [hline]
      have hr : r = 1 ∨ r = 2 := by omega
      rcases hr with rfl | rfl
      · exact h1
      · exact h2)
    (by
      rw [hline, h3]
      norm_num)
  refine ⟨hcb, hsec, ?_, ?_, hs3, ?_⟩
  · simp only [hiA, hjerk, _section_accel, _section_jerk, h0, hmj]
    norm_num
  · simp only [_segment_accel, SCurve_acceleration, hiA, hjerk, _section_accel,
      _section_jerk, h0, hmj]
    norm_num
  · rw [ha3, hline]
    simp [_section_accel]

/-! ## The jog executor: soft limits -/

theorem jog_exec_position_bounds (p deltaP min max : ℚ) (hlo : min ≤ p) (hhi : p ≤ max) :
    min ≤ jog_exec_position true p deltaP min max ∧
      jog_exec_position true p deltaP min max ≤ max := by
  unfold jog_exec_position
  have hmm : min ≤ max := le_trans hlo hhi
  split
  · exact ⟨hmm, le_refl _⟩
  · rename_i h1
    split
    · exact ⟨le_refl _, hmm⟩
    · rename_i h2
      simp only [true_and, not_and, not_lt] at h1 h2
      constructor
      · by_cases hd : deltaP < 0
        · exact h2 hd
        · linarith [not_lt.mp hd]
      · by_cases hd : 0 < deltaP
        · exact h1 hd
        · linarith [not_lt.mp hd]

theorem jog_exec_axis_target (E : env AXES SCurve) (w : world AXES SCurve)
    (st : jog_loop_t AXES SCurve) (a axis : Fin AXES)
    (hen : E.axis_is_enabled axis = true) (hhomed : E.axis_get_homed axis = true)
    (hne : E.axis_get_soft_limit axis true ≠ E.axis_get_soft_limit axis false)
    (hlo : E.axis_get_soft_limit axis true ≤ w.exec_position axis)
    (hhi : w.exec_position axis ≤ E.axis_get_soft_limit axis false)
    (h : a = axis ∨
      (E.axis_get_soft_limit axis true ≤ st.target axis ∧
        st.target axis ≤ E.axis_get_soft_limit axis false)) :
    E.axis_get_soft_limit axis true ≤ (jog_exec_axis E w st a).target axis ∧
      (jog_exec_axis E w st a).target axis ≤ E.axis_get_soft_limit axis false := by
  by_cases ha : a = axis
  · subst ha
    unfold jog_exec_axis
    have hen2 : ¬E.axis_is_enabled a = false := by
      rw [hen]
      decide
    rw [if_neg hen2]
    simp only [Function.update_same, exec_get_axis_position, hhomed, Bool.and_true]
    rw [decide_eq_true hne]
    exact jog_exec_position_bounds _ _ _ _ hlo hhi
  · rcases h with h | h
    · exact absurd h ha
    · unfold jog_exec_axis
      split
      · exact h
      · simp only [Function.update_noteq (Ne.symm ha)]
        exact h

theorem jog_exec_fold_target (E : env AXES SCurve) (w : world AXES SCurve)
    (axes : List (Fin AXES)) (st : jog_loop_t AXES SCurve) (axis : Fin AXES)
    (hen : E.axis_is_enabled axis = true) (hhomed : E.axis_get_homed axis = true)
    (hne : E.axis_get_soft_limit axis true ≠ E.axis_get_soft_limit axis false)
    (hlo : E.axis_get_soft_limit axis true ≤ w.exec_position axis)
    (hhi : w.exec_position axis ≤ E.axis_get_soft_limit axis false)
    (h : axis ∈ axes ∨
      (E.axis_get_soft_limit axis true ≤ st.target axis ∧
        st.target axis ≤ E.axis_get_soft_limit axis false)) :
    E.axis_get_soft_limit axis true ≤ (axes.foldl (jog_exec_axis E w) st).target axis ∧
      (axes.foldl (jog_exec_axis E w) st).target axis ≤ E.axis_get_soft_limit axis false := by
  induction axes generalizing st with
  | nil =>
    rcases h with h | h
    · exact absurd h (List.not_mem_nil _)
    · exact h
  | cons a as ih =>
    simp only [List.foldl_cons]
    rcases h with h | h
    · rcases List.mem_cons.mp h with h | h
      · exact ih _ (Or.inr (jog_exec_axis_target E w st a axis hen hhomed hne hlo hhi
          (Or.inl h.symm)))
      · exact ih _ (Or.inl h)
    · exact ih _ (Or.inr (jog_exec_axis_target E w st a axis hen hhomed hne hlo hhi
        (Or.inr h)))

/-- The target that one tick computes for a homed, enabled axis with soft
limits stays within them when the axis starts within them. -/
theorem jog_exec_loop_target (E : env AXES SCurve) (w : world AXES SCurve) (axis : Fin AXES)
    (hen : E.axis_is_enabled axis = true) (hhomed : E.axis_get_homed axis = true)
    (hne : E.axis_get_soft_limit axis true ≠ E.axis_get_soft_limit axis false)
    (hlo : E.axis_get_soft_limit axis true ≤ w.exec_position axis)
    (hhi : w.exec_position axis ≤ E.axis_get_soft_limit axis false) :
    E.axis_get_soft_limit axis true ≤ (jog_exec_loop E w).target axis ∧
      (jog_exec_loop E w).target axis ≤ E.axis_get_soft_limit axis false :=
  jog_exec_fold_target E w (List.finRange AXES) _ axis hen hhomed hne hlo hhi
    (Or.inl (List.mem_finRange axis))

/-- What one tick of `jog_exec` does to the executor position and the trace:
either it ends the session, moving nothing, or it moves to the target that
the axis loop computed. -/
theorem jog_exec_moves (E : env AXES SCurve) (w : world AXES SCurve) :
    ((jog_exec E w).1 = stat_t.STAT_NOP ∧
      (jog_exec E w).2.exec_position = w.exec_position ∧
      ∃ new, (jog_exec E w).2.trace = w.trace ++ new ∧ move_targets new = []) ∨
    ((jog_exec E w).1 = stat_t.STAT_OK ∧
      (jog_exec E w).2.exec_position = (jog_exec_loop E w).target ∧
      ∃ new, (jog_exec E w).2.trace = w.trace ++ new ∧
        move_targets new = [(jog_exec_loop E w).target]) := by
  unfold jog_exec
  simp only []
  by_cases hd : (jog_exec_loop E w).done = true
  · left
    rw [if_pos hd]
    by_cases hh : (jog_exec_loop E w).jr.holding = true
    · simp only [exec_set_cb, exec_set_velocity, command_reset_position, state_holding, hh,
        if_true]
      exact ⟨trivial, trivial, [event.command_reset_position, event.exec_set_velocity 0,
        event.exec_set_cb exec_cb.none, event.state_holding], by simp, rfl⟩
    · simp only [exec_set_cb, exec_set_velocity, command_reset_position, state_idle, hh,
        Bool.false_eq_true, if_false]
      exact ⟨trivial, trivial, [event.command_reset_position, event.exec_set_velocity 0,
        event.exec_set_cb exec_cb.none, event.state_idle], by simp, rfl⟩
  · right
    rw [if_neg hd]
    exact ⟨rfl, rfl, [event.exec_set_velocity (E.sqrt (jog_exec_loop E w).velocity_sqr),
      event.exec_move_to_target (jog_exec_loop E w).target], by
        simp [exec_move_to_target, exec_set_velocity],
      rfl⟩

theorem move_targets_append (a b : List (event AXES)) :
    move_targets (a ++ b) = move_targets a ++ move_targets b := by
  induction a with
  | nil => rfl
  | cons e a ih =>
    cases e <;> simp [move_targets, ih]

/-- C10: for an enabled, homed axis with soft limits `min != max` whose
position lies within them, the target that a tick of `jog_exec` computes for
the axis lies within them, whatever the requested fractions are and whatever
the profile returns; over any number of ticks, with any requests in between,
the executor position of the axis stays within the limits and so does every
target passed to `exec_move_to_target`. -/
theorem jog_exec_soft_limit (E : env AXES SCurve) (w : world AXES SCurve) (axis : Fin AXES)
    (hen : E.axis_is_enabled axis = true) (hhomed : E.axis_get_homed axis = true)
    (hne : E.axis_get_soft_limit axis true ≠ E.axis_get_soft_limit axis false)
    (hlo : E.axis_get_soft_limit axis true ≤ w.exec_position axis)
    (hhi : w.exec_position axis ≤ E.axis_get_soft_limit axis false) :
    (E.axis_get_soft_limit axis true ≤ (jog_exec_loop E w).target axis ∧
      (jog_exec_loop E w).target axis ≤ E.axis_get_soft_limit axis false) ∧
    ∀ requests : List (Fin AXES → ℚ),
      (E.axis_get_soft_limit axis true ≤ (jog_run E requests w).exec_position axis ∧
        (jog_run E requests w).exec_position axis ≤ E.axis_get_soft_limit axis false) ∧
      ∃ new, (jog_run E requests w).trace = w.trace ++ new ∧
        ∀ target ∈ move_targets new,
          E.axis_get_soft_limit axis true ≤ target axis ∧
            target axis ≤ E.axis_get_soft_limit axis false := by
  refine ⟨jog_exec_loop_target E w axis hen hhomed hne hlo hhi, ?_⟩
  intro requests
  induction requests generalizing w with
  | nil =>
    exact ⟨⟨hlo, hhi⟩, [], by simp [jog_run], by simp [move_targets]⟩
  | cons next requests ih =>
    have hstep : jog_run E (next :: requests) w
        = jog_run E requests (jog_exec E { w with jr := { w.jr with next := next } }).2 := rfl
    rw [hstep]
    have htarget := jog_exec_loop_target E
      ({ w with jr := { w.jr with next := next } } : world AXES SCurve) axis hen hhomed hne
      hlo hhi
    rcases jog_exec_moves E ({ w with jr := { w.jr with next := next } } : world AXES SCurve)
      with ⟨-, hpos, new1, htr1, hmt1⟩ | ⟨-, hpos, new1, htr1, hmt1⟩
    · obtain ⟨hb, new2, htr2, hmt2⟩ := ih _
        (by rw [hpos]; exact hlo) (by rw [hpos]; exact hhi)
      refine ⟨hb, new1 ++ new2, ?_, ?_⟩
      · rw [htr2, htr1, List.append_assoc]
      · intro target hmem
        rw [move_targets_append, hmt1, List.nil_append] at hmem
        exact hmt2 target hmem
    · obtain ⟨hb, new2, htr2, hmt2⟩ := ih _
        (by rw [hpos]; exact htarget.1) (by rw [hpos]; exact htarget.2)
      refine ⟨hb, new1 ++ new2, ?_, ?_⟩
      · rw [htr2, htr1, List.append_assoc]
      · intro target hmem
        rw [move_targets_append, hmt1] at hmem
        rcases List.mem_append.mp hmem with h | h
        · rw [List.mem_singleton.mp h]
          exact htarget
        · exact hmt2 target h

/-- C10, on the sample world: the x axis has soft limits `[0, 100]` and
stands at 95; the target of a tick and the position after two ticks at full
speed towards the limit do not exceed 100. -/
theorem jog_exec_soft_limit_witness :
    (jog_exec_loop sample_env sample_world_jog).target 0 ≤ 100 ∧
    (jog_run sample_env [![1, 0, 0, 0], ![1, 0, 0, 0]] sample_world_jog).exec_position 0
      ≤ 100 :=
  have h := jog_exec_soft_limit sample_env sample_world_jog 0 rfl rfl
    (by
      show (0 : ℚ) ≠ 100
      norm_num)
    (by
      show (0 : ℚ) ≤ 95
      norm_num)
    (by
      show (95 : ℚ) ≤ 100
      norm_num)
  ⟨h.1.2, (h.2 [![1, 0, 0, 0], ![1, 0, 0, 0]]).1.2⟩

/-! ## Executing a line: the section invariant -/

/-- When `command_line_exec` registers the callback the executor is inside a
section, with the jerk and initial acceleration of that section. -/
theorem command_line_exec_entered (data : line_t AXES) (w : world AXES SCurve) (s : Int)
    (hs : -1 < s) (h7 : s < 7)
    (hz : ∀ r : Int, -1 < r → r < s → data.time r = 0) (hnz : data.time s ≠ 0) :
    (command_line_exec data w).cb = exec_cb._line_exec ∧
      (command_line_exec data w).l.line = data ∧
      _section_entered (command_line_exec data w) := by
  obtain ⟨q, sp, tr, hw, -⟩ := command_line_exec_first data w s hs h7 hz hnz
  rw [hw]
  exact ⟨rfl, rfl, by simp only []; omega, h7, hnz, rfl, rfl⟩

/-- A tick that does not complete the section leaves the line, the section,
its jerk and its initial acceleration as they are. -/
theorem _line_exec_entered (E : env AXES SCurve) (w : world AXES SCurve)
    (hent : _section_entered w)
    (ht : _line_exec_t E w ≠ w.l.line.time w.l.section_) :
    (_line_exec E w).2.l.line = w.l.line ∧
      (_line_exec E w).2.l.section_ = w.l.section_ ∧
      (_line_exec E w).2.cb = w.cb ∧
      _section_entered (_line_exec E w).2 := by
  obtain ⟨q, sp, tr, hs, -⟩ := _line_exec_synced_frame E w
  rw [_line_exec_eq, if_neg ht, hs]
  exact ⟨rfl, rfl, rfl, hent⟩

/-! ## Executing a line: the order of the sections -/

/-- After any index `p`, either every section below 7 has a zero duration or
there is a first one with a non-zero duration. -/
theorem line_t.first_nonzero (line : line_t AXES) (p : Int) :
    (∀ s : Int, p < s → s < 7 → line.time s = 0) ∨
    ∃ s : Int, p < s ∧ s < 7 ∧ (∀ r : Int, p < r → r < s → line.time r = 0) ∧
      line.time s ≠ 0 := by
  have key : ∀ (k : Nat) (p : Int), 7 - p ≤ k →
      (∀ s : Int, p < s → s < 7 → line.time s = 0) ∨
      ∃ s : Int, p < s ∧ s < 7 ∧ (∀ r : Int, p < r → r < s → line.time r = 0) ∧
        line.time s ≠ 0 := by
    intro k
    induction k with
    | zero =>
      intro p hp
      exact Or.inl (fun s hs h7 => by omega)
    | succ k ih =>
      intro p hp
      by_cases h7 : p + 1 < 7
      · by_cases hz : line.time (p + 1) = 0
        · rcases ih (p + 1) (by omega) with h | ⟨s, hs, hs7, hr, hnz⟩
          · refine Or.inl (fun s hs hs7 => ?_)
            by_cases he : s = p + 1
            · rw [he]; exact hz
            · exact h s (by omega) hs7
          · refine Or.inr ⟨s, by omega, hs7, fun r hr1 hr2 => ?_, hnz⟩
            by_cases he : r = p + 1
            · rw [he]; exact hz
            · exact hr r (by omega) hr2
        · exact Or.inr ⟨p + 1, by omega, h7, fun r hr1 hr2 => by omega, hz⟩
      · exact Or.inl (fun s hs hs7 => by omega)
  exact key (7 - p).toNat p (by omega)

/-- The two outcomes of `_section_next`. -/
theorem _section_next_cases (w : world AXES SCurve) :
    ((∀ s : Int, w.l.section_ < s → s < 7 → w.l.line.time s = 0) ∧
      _section_next w
        = (false, { w with l := { w.l with section_ := max (w.l.section_ + 1) 7 } })) ∨
    ∃ s : Int, w.l.section_ < s ∧ s < 7 ∧
      (∀ r : Int, w.l.section_ < r → r < s → w.l.line.time r = 0) ∧
      w.l.line.time s ≠ 0 ∧
      _section_next w
        = (true,
            { w with
              l := { w.l with
                     section_ := s
                     jerk := _section_jerk w.l.line s
                     iA := _section_accel w.l.line s }
              trace := w.trace ++ [event.exec_set_jerk (_section_jerk w.l.line s)] }) := by
  rcases line_t.first_nonzero w.l.line w.l.section_ with h | ⟨s, hs, h7, hz, hnz⟩
  · exact Or.inl ⟨h, _section_next_none w h⟩
  · exact Or.inr ⟨s, hs, h7, hz, hnz, _section_next_some w s hs h7 hz hnz⟩

/-- What one tick of `_line_exec` does to the section: it stays in it, or it
enters a later section with a non-zero duration, or it runs past section 6
and clears the callback.  The line record is kept. -/
theorem _line_exec_section (E : env AXES SCurve) (w : world AXES SCurve) :
    (_line_exec E w).2.l.line = w.l.line ∧
    (((_line_exec E w).2.l.section_ = w.l.section_ ∧
        (_line_exec E w).2.l.jerk = w.l.jerk ∧ (_line_exec E w).2.l.iA = w.l.iA ∧
        (_line_exec E w).2.cb = w.cb) ∨
      (w.l.section_ < (_line_exec E w).2.l.section_ ∧ (_line_exec E w).2.l.section_ < 7 ∧
        w.l.line.time (_line_exec E w).2.l.section_ ≠ 0 ∧
        (∀ r : Int, w.l.section_ < r → r < (_line_exec E w).2.l.section_ →
          w.l.line.time r = 0) ∧
        (_line_exec E w).2.l.jerk = _section_jerk w.l.line (_line_exec E w).2.l.section_ ∧
        (_line_exec E w).2.l.iA = _section_accel w.l.line (_line_exec E w).2.l.section_ ∧
        (_line_exec E w).2.cb = w.cb) ∨
      (w.l.section_ < (_line_exec E w).2.l.section_ ∧
        (∀ r : Int, w.l.section_ < r → r < 7 → w.l.line.time r = 0) ∧
        (_line_exec E w).2.cb = exec_cb.none)) := by
  obtain ⟨q, sp, tr, hs, -⟩ := _line_exec_synced_frame E w
  rw [_line_exec_eq]
  split
  · rcases _section_next_cases (_line_exec_synced E w) with ⟨hz, hn⟩ | ⟨s, hlt, h7, hz, hnz, hn⟩
    · rw [hn]
      rw [hs] at hz ⊢
      simp only [exec_segment, exec_set_cb]
      refine ⟨trivial, Or.inr (Or.inr ⟨?_, hz, trivial⟩)⟩
      omega
    · rw [hn]
      rw [hs] at hlt hz hnz ⊢
      simp only [exec_segment]
      exact ⟨trivial, Or.inr (Or.inl ⟨hlt, h7, hnz, hz, trivial, trivial, trivial⟩)⟩
  · rw [hs]
    simp only [exec_segment]
    exact ⟨trivial, Or.inl ⟨trivial, trivial, trivial, trivial⟩⟩

/-- A line started while `_line_exec` is not registered is inside a section
whenever `command_line_exec` registers the callback. -/
theorem command_line_exec_ready (data : line_t AXES) (w : world AXES SCurve)
    (h : w.cb ≠ exec_cb._line_exec)
    (hcb : (command_line_exec data w).cb = exec_cb._line_exec) :
    _section_entered (command_line_exec data w) := by
  rcases line_t.first_nonzero data (-1) with hz | ⟨s, hs, h7, hz, hnz⟩
  · have hall : ∀ i, data.times i = 0 := by
      intro i
      rw [← line_t.time_ofNat]
      exact hz _ (by omega) (by omega)
    rw [command_line_exec_all_zero data w hall] at hcb
    exact absurd hcb h
  · exact (command_line_exec_entered data w s hs h7 hz hnz).2.2

/-- A tick from inside a section that keeps the callback registered ends
inside a section. -/
theorem _line_exec_ready (E : env AXES SCurve) (w : world AXES SCurve)
    (hent : _section_entered w)
    (hcb : (_line_exec E w).2.cb = exec_cb._line_exec) :
    _section_entered (_line_exec E w).2 := by
  obtain ⟨h0, h7, hnz, hj, ha⟩ := hent
  obtain ⟨hline, hc⟩ := _line_exec_section E w
  rcases hc with ⟨hs, hj2, ha2, -⟩ | ⟨hlt, hs7, hnz2, -, hj2, ha2, -⟩ | ⟨-, -, hnone⟩
  · unfold _section_entered
    rw [hline, hs, hj2, ha2]
    exact ⟨h0, h7, hnz, hj, ha⟩
  · unfold _section_entered
    rw [hline]
    exact ⟨by omega, hs7, hnz2, hj2, ha2⟩
  · rw [hnone] at hcb
    exact absurd hcb (by decide)

/-- Along the steps of the executor, whenever `_line_exec` is registered the
executor is inside a section. -/
theorem line_step_ready (E : env AXES SCurve) (w0 w1 : world AXES SCurve)
    (hrun : Relation.ReflTransGen (line_step E) w0 w1)
    (h0 : w0.cb = exec_cb._line_exec → _section_entered w0) :
    w1.cb = exec_cb._line_exec → _section_entered w1 := by
  induction hrun with
  | refl => exact h0
  | tail _ hstep ih =>
    cases hstep with
    | start data h =>
      exact command_line_exec_ready data _ (by rw [h]; decide)
    | tick h =>
      exact _line_exec_ready E _ (ih h)

/-- C19: from a section index that is at least `-1`, `_section_next` either
returns true, leaving the line as it is, with the section index at the
smallest later index below 7 whose duration is not zero, or it returns false
and every later index below 7 has a zero duration.  Consequently, along the
steps of the executor from a state with no callback, whenever `_line_exec` is
registered the section index is in `0..6` and the duration of that section is
not zero, and a tick keeps the line and either stays in its section or moves
to a section with a larger index. -/
theorem _section_next_increasing (E : env AXES SCurve) (w w0 w1 : world AXES SCurve)
    (hs : -1 ≤ w.l.section_) (h0 : w0.cb = exec_cb.none)
    (hrun : Relation.ReflTransGen (line_step E) w0 w1)
    (hcb : w1.cb = exec_cb._line_exec) :
    (((_section_next w).1 = true ∧ (_section_next w).2.l.line = w.l.line ∧
        w.l.section_ < (_section_next w).2.l.section_ ∧
        0 ≤ (_section_next w).2.l.section_ ∧ (_section_next w).2.l.section_ < 7 ∧
        w.l.line.time (_section_next w).2.l.section_ ≠ 0 ∧
        ∀ r : Int, w.l.section_ < r → r < (_section_next w).2.l.section_ →
          w.l.line.time r = 0) ∨
      ((_section_next w).1 = false ∧
        ∀ s : Int, w.l.section_ < s → s < 7 → w.l.line.time s = 0)) ∧
    (0 ≤ w1.l.section_ ∧ w1.l.section_ < 7 ∧ w1.l.line.time w1.l.section_ ≠ 0) ∧
    (_line_exec E w1).2.l.line = w1.l.line ∧
    ((_line_exec E w1).2.l.section_ = w1.l.section_ ∨
      (w1.l.section_ < (_line_exec E w1).2.l.section_ ∧
        ((_line_exec E w1).2.cb = exec_cb._line_exec →
          (_line_exec E w1).2.l.section_ < 7 ∧
          w1.l.line.time (_line_exec E w1).2.l.section_ ≠ 0))) := by
  refine ⟨?_, ?_, (_line_exec_section E w1).1, ?_⟩
  · rcases _section_next_cases w with ⟨hz, hn⟩ | ⟨s, hlt, h7, hz, hnz, hn⟩
    · exact Or.inr ⟨by rw [hn], hz⟩
    · refine Or.inl ?_
      rw [hn]
      exact ⟨rfl, rfl, hlt, by simp only []; omega, h7, hnz, hz⟩
  · have hent := line_step_ready E w0 w1 hrun (by rw [h0]; intro h; exact absurd h (by decide)) hcb
    exact ⟨hent.1, hent.2.1, hent.2.2.1⟩
  · rcases (_line_exec_section E w1).2 with ⟨hs1, -⟩ | ⟨hlt, hs7, hnz, -⟩ | ⟨hlt, -, hnone⟩
    · exact Or.inl hs1
    · exact Or.inr ⟨hlt, fun _ => ⟨hs7, hnz⟩⟩
    · refine Or.inr ⟨hlt, fun h => ?_⟩
      rw [hnone] at h
      exact absurd h (by decide)

/-- C19 on the sample line, whose sections 1 and 5 have a zero duration:
from section 0 `_section_next` moves to section 2, the line starts in section
0, and its first tick, which completes section 0, moves to section 2. -/
theorem _section_next_increasing_witness :
    (_section_next sample_world_first).1 = true ∧
    (_section_next sample_world_first).2.l.section_ = 2 ∧
    (command_line_exec sample_record sample_world).l.section_ = 0 ∧
    (_line_exec sample_env (command_line_exec sample_record sample_world)).2.l.section_
      = 2 := by
  have hnz0 : sample_record.time 0 ≠ 0 := by
    rw [show sample_record.time 0 = 1 / 10 from rfl]
    norm_num
  have hnz2 : sample_record.time 2 ≠ 0 := by
    rw [show sample_record.time 2 = 1 / 10 from rfl]
    norm_num
  have hz1 : sample_record.time 1 = 0 := rfl
  obtain ⟨hcb, hline, hent⟩ := command_line_exec_entered sample_record sample_world 0
    (by decide) (by decide) (fun r h0 h1 => by omega) hnz0
  obtain ⟨q, sp, tr, hw, -⟩ := command_line_exec_first sample_record sample_world 0
    (by decide) (by decide) (fun r h0 h1 => by omega) hnz0
  have hsec : (command_line_exec sample_record sample_world).l.section_ = 0 := by rw [hw]
  have hseg : (command_line_exec sample_record sample_world).l.seg = 0 := by rw [hw]
  have hnext := _line_exec_next_section sample_env
    (command_line_exec sample_record sample_world) 2
    (by
      rw [hline, hsec, hseg]
      show sample_record.time 0 ≤ ((0 + 1 : Int) : ℚ) * 1
      rw [show sample_record.time 0 = 1 / 10 from rfl]
      norm_num)
    (by rw [hsec]; decide) (by decide)
    (by
      intro r h0 h2
      rw [hsec] at h0
      have hr : r = 1 := by omega
      subst hr
      rw [hline]
      rfl)
    (by rw [hline]; exact hnz2)
  obtain ⟨hsn, -, -, -⟩ :=
    _section_next_increasing sample_env sample_world_first sample_world
      (command_line_exec sample_record sample_world)
      (by decide) rfl
      (Relation.ReflTransGen.single (line_step.start sample_world sample_record rfl)) hcb
  have hn := _section_next_some sample_world_first 2 (by decide) (by decide)
    (by
      intro r h0 h2
      have hr : r = 1 := by
        simp only [sample_world_first] at h0
        omega
      subst hr
      rfl)
    hnz2
  refine ⟨?_, ?_, hsec, hnext.2.1⟩
  · rcases hsn with h | h
    · exact h.1
    · rw [hn] at h
      exact absurd h.1 (by decide)
  · rw [hn]

/-- C20: when `_section_next`, from a section index that is at least `-1`,
enters a section `s`, then `s` is one of `0..6`, the jerk is `max_jerk` for
`s` 0 or 6, `-max_jerk` for 2 or 4 and 0 for 1, 3 or 5, so that it is
always one of `max_jerk`, 0 and `-max_jerk`; that jerk is reported to the
executor; and the initial acceleration is `max_jerk * times[0]` for `s` 1 or
2, `-max_jerk * times[4]` for 5 or 6 and 0 for 0, 3 or 4. -/
theorem _section_next_parameters (w : world AXES SCurve) (hs : -1 ≤ w.l.section_)
    (ht : (_section_next w).1 = true) :
    (0 ≤ (_section_next w).2.l.section_ ∧ (_section_next w).2.l.section_ < 7) ∧
    (_section_next w).2.l.line = w.l.line ∧
    ((_section_next w).2.l.section_ = 0 ∨ (_section_next w).2.l.section_ = 6 →
      (_section_next w).2.l.jerk = w.l.line.max_jerk) ∧
    ((_section_next w).2.l.section_ = 2 ∨ (_section_next w).2.l.section_ = 4 →
      (_section_next w).2.l.jerk = -w.l.line.max_jerk) ∧
    ((_section_next w).2.l.section_ = 1 ∨ (_section_next w).2.l.section_ = 3 ∨
        (_section_next w).2.l.section_ = 5 →
      (_section_next w).2.l.jerk = 0) ∧
    ((_section_next w).2.l.section_ = 1 ∨ (_section_next w).2.l.section_ = 2 →
      (_section_next w).2.l.iA = w.l.line.max_jerk * w.l.line.times 0) ∧
    ((_section_next w).2.l.section_ = 5 ∨ (_section_next w).2.l.section_ = 6 →
      (_section_next w).2.l.iA = -w.l.line.max_jerk * w.l.line.times 4) ∧
    ((_section_next w).2.l.section_ = 0 ∨ (_section_next w).2.l.section_ = 3 ∨
        (_section_next w).2.l.section_ = 4 →
      (_section_next w).2.l.iA = 0) ∧
    ((_section_next w).2.l.jerk = w.l.line.max_jerk ∨ (_section_next w).2.l.jerk = 0 ∨
      (_section_next w).2.l.jerk = -w.l.line.max_jerk) ∧
    (_section_next w).2.trace
      = w.trace ++ [event.exec_set_jerk (_section_next w).2.l.jerk] := by
  rcases _section_next_cases w with ⟨-, hn⟩ | ⟨s, hlt, h7, -, -, hn⟩
  · rw [hn] at ht
    exact absurd ht Bool.false_ne_true
  · rw [hn]
    simp only []
    have h0 : 0 ≤ s := by omega
    refine ⟨⟨h0, h7⟩, trivial, ?_, ?_, ?_, ?_, ?_, ?_, ?_, trivial⟩ <;>
      interval_cases s <;> simp [_section_jerk, _section_accel]

/-- C20 on the sample line: from section 0 `_section_next` enters section 2
with jerk `-100` and initial acceleration `100 * (1/10) = 10`. -/
theorem _section_next_parameters_witness :
    (_section_next sample_world_first).2.l.section_ = 2 ∧
    (_section_next sample_world_first).2.l.jerk = -100 ∧
    (_section_next sample_world_first).2.l.iA = 10 := by
  have hn := _section_next_some sample_world_first 2 (by decide) (by decide)
    (by
      intro r h0 h2
      have hr : r = 1 := by
        simp only [sample_world_first] at h0
        omega
      subst hr
      rfl)
    (by
      show sample_record.time 2 ≠ 0
      rw [show sample_record.time 2 = 1 / 10 from rfl]
      norm_num)
  have hsec : (_section_next sample_world_first).2.l.section_ = 2 := by rw [hn]
  obtain ⟨-, -, -, hj, -, ha, -⟩ :=
    _section_next_parameters sample_world_first (by decide) (by rw [hn])
  refine ⟨hsec, hj (Or.inl hsec), ?_⟩
  rw [ha (Or.inr hsec)]
  show (100 : ℚ) * (1 / 10) = 10
  norm_num

/-! ## The jog command: lemmas -/

/-- A well-formed jog command in one of the states that accept it. -/
theorem command_jog_eq (E : env AXES SCurve) (cmd : List Char) (w : world AXES SCurve)
    (id n1 n2 : Nat) (velocity : Fin AXES → ℚ)
    (hs : state_get w = state_t.STATE_READY ∨ state_get w = state_t.STATE_HOLDING ∨
      state_get w = state_t.STATE_JOGGING)
    (h1 : E.decode_hex_u16 (cmd.drop 1) = (some id, n1))
    (h2 : E.decode_axes ((cmd.drop 1).drop n1) (fun _ => 0) = (stat_t.STAT_OK, velocity, n2))
    (h3 : ((cmd.drop 1).drop n1).drop n2 = []) :
    command_jog E cmd w
      = (stat_t.STAT_OK,
          command_jog_next velocity id
            (if state_get w ≠ state_t.STATE_JOGGING then command_jog_start E w else w)) := by
  unfold command_jog
  have hst : ¬(state_get w ≠ state_t.STATE_READY ∧ state_get w ≠ state_t.STATE_HOLDING ∧
      state_get w ≠ state_t.STATE_JOGGING) := by
    rcases hs with h | h | h <;> rw [h] <;> decide
  rw [if_neg hst]
  simp only [h1, h2, h3, ne_eq, not_true_eq_false, if_false]
  split <;> rfl

/-- `command_jog` either leaves the world as it is or sets the next
velocities, after starting a session when the machine is not jogging. -/
theorem command_jog_cases (E : env AXES SCurve) (cmd : List Char) (w : world AXES SCurve) :
    ((command_jog E cmd w).1 ≠ stat_t.STAT_OK ∧ (command_jog E cmd w).2 = w) ∨
    ∃ velocity id,
      command_jog E cmd w
        = (stat_t.STAT_OK,
            command_jog_next velocity id
              (if state_get w ≠ state_t.STATE_JOGGING then command_jog_start E w else w)) := by
  unfold command_jog
  split
  · exact Or.inl ⟨by simp, rfl⟩
  · dsimp only
    split
    · exact Or.inl ⟨by simp, rfl⟩
    · rename_i id n hid
      split
      · rename_i hne
        exact Or.inl ⟨hne, rfl⟩
      · split
        · exact Or.inl ⟨by simp, rfl⟩
        · refine Or.inr
            ⟨(E.decode_axes ((cmd.drop 1).drop n) (fun _ => 0)).2.1, id, ?_⟩
          split <;> rfl

/-- One pass of the axis loop of `jog_exec` writes only the profile and the
applied target velocity of its own axis. -/
theorem jog_exec_axis_frame (E : env AXES SCurve) (w : world AXES SCurve)
    (st : jog_loop_t AXES SCurve) (axis : Fin AXES) :
    (jog_exec_axis E w st axis).jr.holding = st.jr.holding ∧
    (jog_exec_axis E w st axis).jr.writing = st.jr.writing ∧
    (jog_exec_axis E w st axis).jr.next = st.jr.next ∧
    (jog_exec_axis E w st axis).jr.id = st.jr.id ∧
    (jog_exec_axis E w st axis).jr.nextID = st.jr.nextID ∧
    (jog_exec_axis E w st axis).jr.lastID = st.jr.lastID ∧
    ∀ a, a ≠ axis →
      (jog_exec_axis E w st axis).jr.scurves a = st.jr.scurves a ∧
      (jog_exec_axis E w st axis).jr.targetV a = st.jr.targetV a := by
  unfold jog_exec_axis
  split
  · exact ⟨rfl, rfl, rfl, rfl, rfl, rfl, fun a _ => ⟨rfl, rfl⟩⟩
  · refine ⟨rfl, rfl, rfl, rfl, rfl, rfl, fun a ha => ⟨?_, ?_⟩⟩
    · simp only [Function.update_noteq ha]
    · simp only []
      split
      · simp only [Function.update_noteq ha]
      · rfl

/-- The flag `done` after one pass of the axis loop of `jog_exec`, when the
entries of `jr` that the pass reads are still those of the start of the
tick. -/
theorem jog_exec_axis_done (E : env AXES SCurve) (w : world AXES SCurve)
    (st : jog_loop_t AXES SCurve) (axis : Fin AXES)
    (hw : st.jr.writing = w.jr.writing) (hn : st.jr.next = w.jr.next)
    (hsc : st.jr.scurves axis = w.jr.scurves axis)
    (htv : st.jr.targetV axis = w.jr.targetV axis) :
    (jog_exec_axis E w st axis).done =
      if E.axis_is_enabled axis = true ∧
          (E.MIN_VELOCITY < |jog_exec_axis_v E w axis| ∨
            E.MIN_VELOCITY < |jog_exec_axis_targetV E w axis|) then false
      else st.done := by
  have htarget : (if st.jr.writing = false then
        Function.update st.jr.targetV axis (st.jr.next axis * E.axis_get_velocity_max axis)
      else st.jr.targetV) axis
      = if w.jr.writing = false then w.jr.next axis * E.axis_get_velocity_max axis
        else w.jr.targetV axis := by
    rw [hw, hn]
    split
    · simp only [Function.update_same]
    · exact htv
  unfold jog_exec_axis
  by_cases hen : E.axis_is_enabled axis = true
  · have hen2 : ¬E.axis_is_enabled axis = false := by
      rw [hen]
      decide
    rw [if_neg hen2]
    simp only [htarget, hsc, jog_exec_axis_v, jog_exec_axis_targetV, hen, true_and]
  · have hen2 : E.axis_is_enabled axis = false := by
      simpa using hen
    rw [if_pos hen2, if_neg (fun h => hen h.1)]

/-- The axis loop of `jog_exec` keeps the session fields of `jr`. -/
theorem jog_exec_fold_frame (E : env AXES SCurve) (w : world AXES SCurve)
    (axes : List (Fin AXES)) (st : jog_loop_t AXES SCurve) :
    (axes.foldl (jog_exec_axis E w) st).jr.holding = st.jr.holding ∧
    (axes.foldl (jog_exec_axis E w) st).jr.writing = st.jr.writing ∧
    (axes.foldl (jog_exec_axis E w) st).jr.next = st.jr.next ∧
    (axes.foldl (jog_exec_axis E w) st).jr.id = st.jr.id ∧
    (axes.foldl (jog_exec_axis E w) st).jr.nextID = st.jr.nextID ∧
    (axes.foldl (jog_exec_axis E w) st).jr.lastID = st.jr.lastID := by
  induction axes generalizing st with
  | nil => exact ⟨rfl, rfl, rfl, rfl, rfl, rfl⟩
  | cons a as ih =>
    simp only [List.foldl_cons]
    obtain ⟨h1, h2, h3, h4, h5, h6, -⟩ := jog_exec_axis_frame E w st a
    obtain ⟨k1, k2, k3, k4, k5, k6⟩ := ih (jog_exec_axis E w st a)
    exact ⟨k1.trans h1, k2.trans h2, k3.trans h3, k4.trans h4, k5.trans h5, k6.trans h6⟩

/-- The flag `done` after the axis loop of `jog_exec` over distinct axes. -/
theorem jog_exec_fold_done (E : env AXES SCurve) (w : world AXES SCurve)
    (axes : List (Fin AXES)) (st : jog_loop_t AXES SCurve) (hnd : axes.Nodup)
    (hw : st.jr.writing = w.jr.writing) (hn : st.jr.next = w.jr.next)
    (hag : ∀ a ∈ axes, st.jr.scurves a = w.jr.scurves a ∧ st.jr.targetV a = w.jr.targetV a) :
    (axes.foldl (jog_exec_axis E w) st).done = true ↔
      st.done = true ∧
      ∀ a ∈ axes, E.axis_is_enabled a = true →
        |jog_exec_axis_v E w a| ≤ E.MIN_VELOCITY ∧
        |jog_exec_axis_targetV E w a| ≤ E.MIN_VELOCITY := by
  induction axes generalizing st with
  | nil => simp
  | cons a as ih =>
    simp only [List.foldl_cons]
    obtain ⟨hnot, hnd2⟩ := List.nodup_cons.mp hnd
    obtain ⟨-, f2, f3, -, -, -, f7⟩ := jog_exec_axis_frame E w st a
    have hstep := jog_exec_axis_done E w st a hw hn (hag a (List.mem_cons_self a as)).1
      (hag a (List.mem_cons_self a as)).2
    rw [ih (jog_exec_axis E w st a) hnd2 (f2.trans hw) (f3.trans hn)
      (fun b hb => by
        have hne : b ≠ a := fun h => hnot (h ▸ hb)
        obtain ⟨g1, g2⟩ := f7 b hne
        obtain ⟨g3, g4⟩ := hag b (List.mem_cons_of_mem a hb)
        exact ⟨g1.trans g3, g2.trans g4⟩)]
    rw [hstep]
    constructor
    · rintro ⟨hd, hall⟩
      by_cases hc : E.axis_is_enabled a = true ∧
          (E.MIN_VELOCITY < |jog_exec_axis_v E w a| ∨
            E.MIN_VELOCITY < |jog_exec_axis_targetV E w a|)
      · rw [if_pos hc] at hd
        exact absurd hd Bool.false_ne_true
      · rw [if_neg hc] at hd
        refine ⟨hd, fun b hb hen => ?_⟩
        rcases List.mem_cons.mp hb with h | h
        · subst h
          have hnot2 := fun h => hc ⟨hen, h⟩
          exact ⟨not_lt.mp (fun h => hnot2 (Or.inl h)), not_lt.mp (fun h => hnot2 (Or.inr h))⟩
        · exact hall b h hen
    · rintro ⟨hd, hall⟩
      have hc : ¬(E.axis_is_enabled a = true ∧
          (E.MIN_VELOCITY < |jog_exec_axis_v E w a| ∨
            E.MIN_VELOCITY < |jog_exec_axis_targetV E w a|)) := by
        rintro ⟨hen, h⟩
        obtain ⟨h1, h2⟩ := hall a (List.mem_cons_self a as) hen
        rcases h with h | h
        · exact absurd h (not_lt.mpr h1)
        · exact absurd h (not_lt.mpr h2)
      rw [if_neg hc]
      exact ⟨hd, fun b hb hen => hall b (List.mem_cons_of_mem a hb) hen⟩

/-- The session is done after the axis loop exactly when every enabled axis
has both its profile velocity and its target velocity of this tick within
`MIN_VELOCITY`. -/
theorem jog_exec_loop_done (E : env AXES SCurve) (w : world AXES SCurve) :
    (jog_exec_loop E w).done = true ↔
      ∀ axis, E.axis_is_enabled axis = true →
        |jog_exec_axis_v E w axis| ≤ E.MIN_VELOCITY ∧
        |jog_exec_axis_targetV E w axis| ≤ E.MIN_VELOCITY := by
  unfold jog_exec_loop
  rw [jog_exec_fold_done E w (List.finRange AXES) _ (List.nodup_finRange AXES) rfl rfl
    (fun a _ => ⟨rfl, rfl⟩)]
  simp only [true_and]
  exact ⟨fun h axis => h axis (List.mem_finRange axis), fun h axis _ => h axis⟩

/-- The axis loop of `jog_exec` keeps the session fields of `jr`. -/
theorem jog_exec_loop_frame (E : env AXES SCurve) (w : world AXES SCurve) :
    (jog_exec_loop E w).jr.holding = w.jr.holding ∧
    (jog_exec_loop E w).jr.writing = w.jr.writing ∧
    (jog_exec_loop E w).jr.next = w.jr.next ∧
    (jog_exec_loop E w).jr.id = w.jr.id ∧
    (jog_exec_loop E w).jr.nextID = w.jr.nextID ∧
    (jog_exec_loop E w).jr.lastID = w.jr.lastID :=
  jog_exec_fold_frame E w (List.finRange AXES) _

/-- The tick of `jog_exec` that finds the session done. -/
theorem jog_exec_eq_done (E : env AXES SCurve) (w : world AXES SCurve)
    (hd : (jog_exec_loop E w).done = true) :
    (jog_exec E w).1 = stat_t.STAT_NOP ∧
    (jog_exec E w).2.position = w.exec_position ∧
    (jog_exec E w).2.exec_position = w.exec_position ∧
    (jog_exec E w).2.velocity = 0 ∧
    (jog_exec E w).2.cb = exec_cb.none ∧
    (jog_exec E w).2.state
      = (if w.jr.holding = true then state_t.STATE_HOLDING else state_t.STATE_READY) ∧
    (jog_exec E w).2.trace
      = w.trace ++ [event.command_reset_position, event.exec_set_velocity 0,
          event.exec_set_cb exec_cb.none,
          if w.jr.holding = true then event.state_holding else event.state_idle] ∧
    (jog_exec E w).2.jr.holding = w.jr.holding ∧
    (jog_exec E w).2.jr.id
      = (if w.jr.writing = false ∧ w.jr.id ≠ w.jr.nextID then w.jr.nextID else w.jr.id) ∧
    (jog_exec E w).2.jr.lastID = (jog_exec E w).2.jr.id := by
  obtain ⟨f1, f2, f3, f4, f5, f6⟩ := jog_exec_loop_frame E w
  unfold jog_exec
  simp only []
  rw [if_pos hd]
  by_cases hh : w.jr.holding = true
  · simp [exec_set_cb, exec_set_velocity, command_reset_position, state_holding, hh, f1, f2,
      f4, f5]
  · simp [exec_set_cb, exec_set_velocity, command_reset_position, state_idle, hh, f1, f2,
      f4, f5]

/-- The tick of `jog_exec` that finds the session not done. -/
theorem jog_exec_eq_moving (E : env AXES SCurve) (w : world AXES SCurve)
    (hd : ¬(jog_exec_loop E w).done = true) :
    (jog_exec E w).1 = stat_t.STAT_OK ∧
    (jog_exec E w).2.position = w.position ∧
    (jog_exec E w).2.exec_position = (jog_exec_loop E w).target ∧
    (jog_exec E w).2.velocity = E.sqrt (jog_exec_loop E w).velocity_sqr ∧
    (jog_exec E w).2.cb = w.cb ∧
    (jog_exec E w).2.state = w.state ∧
    (jog_exec E w).2.trace
      = w.trace ++ [event.exec_set_velocity (E.sqrt (jog_exec_loop E w).velocity_sqr),
          event.exec_move_to_target (jog_exec_loop E w).target] ∧
    (jog_exec E w).2.jr.holding = w.jr.holding ∧
    (jog_exec E w).2.jr.id
      = (if w.jr.writing = false ∧ w.jr.id ≠ w.jr.nextID then w.jr.nextID else w.jr.id) ∧
    (jog_exec E w).2.jr.lastID
      = (if w.jr.writing = false ∧ w.jr.id ≠ w.jr.nextID then w.jr.id else w.jr.lastID) := by
  obtain ⟨f1, f2, f3, f4, f5, f6⟩ := jog_exec_loop_frame E w
  unfold jog_exec
  simp only []
  rw [if_neg hd]
  simp [exec_set_velocity, exec_move_to_target, f1, f2, f4, f5, f6]

/-! ## The jog command: the claims -/

/-- The world that the sample jog command without axes leaves from the sample
world. -/
theorem sample_jog_zero_eq :
    command_jog sample_env sample_jog_zero sample_world
      = (stat_t.STAT_OK,
          command_jog_next (fun _ => 0) 5 (command_jog_start sample_env sample_world)) := by
  rfl

/-- The world that the sample jog command along x leaves from the sample
world. -/
theorem sample_jog_x_eq :
    command_jog sample_env sample_jog_x sample_world
      = (stat_t.STAT_OK,
          command_jog_next (Function.update (fun _ => 0) 0 1) 5
            (command_jog_start sample_env sample_world)) := by
  rfl

/-- The first tick after the sample jog command along x does not find the
session done. -/
theorem sample_jog_x_moving :
    ¬(jog_exec_loop sample_env (command_jog sample_env sample_jog_x sample_world).2).done
      = true := by
  rw [jog_exec_loop_done, sample_jog_x_eq]
  intro h
  have h0 := (h 0 rfl).2
  revert h0
  simp only [jog_exec_axis_targetV, jog_exec_targetV, command_jog_next, command_jog_start,
    exec_set_cb, state_jogging, sample_env, exec_get_axis_position, Function.update_same]
  norm_num

/-- C11, the counterexample: the sample jog command names no axis, so all its
velocities are zero, and it is issued in the ready state with no callback;
`command_jog` accepts it, moves the machine to the jogging state and registers
`jog_exec`. -/
theorem command_jog_zero_starts_session :
    state_get sample_world = state_t.STATE_READY ∧
    sample_world.cb = exec_cb.none ∧
    (sample_env.decode_axes ((sample_jog_zero.drop 1).drop 1) (fun _ => 0)).2.1
      = (fun _ => 0) ∧
    (command_jog sample_env sample_jog_zero sample_world).1 = stat_t.STAT_OK ∧
    (command_jog sample_env sample_jog_zero sample_world).2.jr.next = (fun _ => 0) ∧
    (command_jog sample_env sample_jog_zero sample_world).2.state = state_t.STATE_JOGGING ∧
    (command_jog sample_env sample_jog_zero sample_world).2.cb = exec_cb.jog_exec := by
  refine ⟨rfl, rfl, rfl, ?_, ?_, ?_, ?_⟩ <;> rw [sample_jog_zero_eq] <;> rfl

/-- C11, as amended: a well-formed jog command whose velocities are all zero,
issued in the ready state, is accepted: `command_jog` returns `STAT_OK`, moves
the machine to the jogging state and registers `jog_exec`.  No axis moves:
when `MIN_VELOCITY` is not negative and a fresh profile asked for velocity zero
returns a velocity within `MIN_VELOCITY`, the first tick of `jog_exec` emits no
move, clears the callback and returns the machine to the ready state. -/
theorem command_jog_zero_session (E : env AXES SCurve) (cmd : List Char)
    (w : world AXES SCurve) (id n1 n2 : Nat)
    (hs : state_get w = state_t.STATE_READY)
    (h1 : E.decode_hex_u16 (cmd.drop 1) = (some id, n1))
    (h2 : E.decode_axes ((cmd.drop 1).drop n1) (fun _ => 0)
      = (stat_t.STAT_OK, fun _ => 0, n2))
    (h3 : ((cmd.drop 1).drop n1).drop n2 = [])
    (hmin : 0 ≤ E.MIN_VELOCITY)
    (hrest : ∀ axis, E.axis_is_enabled axis = true →
      |(E.next (E.SCurve_new (E.axis_get_velocity_max axis) (E.axis_get_accel_max axis)
          (E.axis_get_jerk_max axis)) E.SEGMENT_TIME 0).1| ≤ E.MIN_VELOCITY) :
    (command_jog E cmd w).1 = stat_t.STAT_OK ∧
    (command_jog E cmd w).2.state = state_t.STATE_JOGGING ∧
    (command_jog E cmd w).2.cb = exec_cb.jog_exec ∧
    (command_jog E cmd w).2.trace
      = w.trace ++ [event.state_jogging, event.exec_set_cb exec_cb.jog_exec] ∧
    (jog_exec E (command_jog E cmd w).2).1 = stat_t.STAT_NOP ∧
    (jog_exec E (command_jog E cmd w).2).2.exec_position = w.exec_position ∧
    (jog_exec E (command_jog E cmd w).2).2.cb = exec_cb.none ∧
    (jog_exec E (command_jog E cmd w).2).2.state = state_t.STATE_READY ∧
    (jog_exec E (command_jog E cmd w).2).2.trace
      = w.trace ++ [event.state_jogging, event.exec_set_cb exec_cb.jog_exec,
          event.command_reset_position, event.exec_set_velocity 0,
          event.exec_set_cb exec_cb.none, event.state_idle] := by
  have hne : state_get w ≠ state_t.STATE_JOGGING := by
    rw [hs]
    decide
  have hc := command_jog_eq E cmd w id n1 n2 (fun _ => 0) (Or.inl hs) h1 h2 h3
  rw [if_pos hne] at hc
  have hd : (jog_exec_loop E
      (command_jog_next (fun _ => 0) id (command_jog_start E w))).done = true := by
    rw [jog_exec_loop_done]
    intro axis hen
    have htv : jog_exec_axis_targetV E
        (command_jog_next (fun _ => 0) id (command_jog_start E w)) axis = 0 := by
      simp only [jog_exec_axis_targetV, jog_exec_targetV, command_jog_next, if_true, zero_mul,
        abs_zero, not_lt.mpr hmin, and_false, if_false]
    rw [jog_exec_axis_v, htv]
    refine ⟨?_, by rw [abs_zero]; exact hmin⟩
    have hsc : (command_jog_next (fun _ => 0) id (command_jog_start E w)).jr.scurves axis
        = E.SCurve_new (E.axis_get_velocity_max axis) (E.axis_get_accel_max axis)
          (E.axis_get_jerk_max axis) := by
      simp only [command_jog_next, command_jog_start, exec_set_cb, state_jogging, hen, if_true]
    rw [hsc]
    exact hrest axis hen
  obtain ⟨d1, -, d3, -, d5, d6, d7, -⟩ := jog_exec_eq_done E _ hd
  rw [hc]
  refine ⟨rfl, rfl, rfl, ?_, d1, ?_, d5, ?_, ?_⟩
  · simp only [command_jog_next, command_jog_start, exec_set_cb, state_jogging,
      List.append_assoc]
    rfl
  · rw [d3]
    rfl
  · rw [d6]
    simp only [command_jog_next, command_jog_start, exec_set_cb, state_jogging, hs]
    rfl
  · rw [d7]
    simp only [command_jog_next, command_jog_start, exec_set_cb, state_jogging, hs,
      List.append_assoc]
    rfl

/-- C11, as amended, on the sample jog command that names no axis: the
command starts a session and the first tick ends it without a move. -/
theorem command_jog_zero_session_witness :
    (command_jog sample_env sample_jog_zero sample_world).1 = stat_t.STAT_OK ∧
    (jog_exec sample_env (command_jog sample_env sample_jog_zero sample_world).2).1
      = stat_t.STAT_NOP ∧
    (jog_exec sample_env (command_jog sample_env sample_jog_zero sample_world).2).2.trace
      = [event.state_jogging, event.exec_set_cb exec_cb.jog_exec,
          event.command_reset_position, event.exec_set_velocity 0,
          event.exec_set_cb exec_cb.none, event.state_idle] := by
  have h := command_jog_zero_session sample_env sample_jog_zero sample_world 5 1 0
    rfl rfl rfl rfl
    (by
      show (0 : ℚ) ≤ 1 / 100
      norm_num)
    (by
      intro axis _
      show |(0 : ℚ)| ≤ 1 / 100
      norm_num)
  exact ⟨h.1, h.2.2.2.2.1, h.2.2.2.2.2.2.2.2⟩

/-- C12: in a state that is none of ready, holding and jogging, `command_jog`
returns `STAT_NOP` for every command text, well-formed or not, and leaves the
whole world, with the jog session, the machine state and the registered
callback, as it was. -/
theorem command_jog_ignored (E : env AXES SCurve) (cmd : List Char) (w : world AXES SCurve)
    (h1 : state_get w ≠ state_t.STATE_READY) (h2 : state_get w ≠ state_t.STATE_HOLDING)
    (h3 : state_get w ≠ state_t.STATE_JOGGING) :
    command_jog E cmd w = (stat_t.STAT_NOP, w) := by
  unfold command_jog
  rw [if_pos ⟨h1, h2, h3⟩]

/-- C12 on the sample world while a line is running, for a well-formed and
for a malformed jog command. -/
theorem command_jog_ignored_witness :
    command_jog sample_env sample_jog_x sample_world_running
      = (stat_t.STAT_NOP, sample_world_running) ∧
    command_jog sample_env sample_jog_malformed sample_world_running
      = (stat_t.STAT_NOP, sample_world_running) :=
  ⟨command_jog_ignored sample_env sample_jog_x sample_world_running
      (by decide) (by decide) (by decide),
    command_jog_ignored sample_env sample_jog_malformed sample_world_running
      (by decide) (by decide) (by decide)⟩

/-- C13: a well-formed jog command received in the jogging state returns
`STAT_OK` and changes only `jr.next`, which becomes the velocities decoded
over an array of zeros, and `jr.nextID`, which becomes the decoded
identifier; the flag `jr.writing` is false afterwards.  The profiles, the
applied target velocities, the holding flag, `jr.id`, `jr.lastID`, the machine
state and the callback are unchanged. -/
theorem command_jog_retarget (E : env AXES SCurve) (cmd : List Char) (w : world AXES SCurve)
    (id n1 n2 : Nat) (velocity : Fin AXES → ℚ)
    (hs : state_get w = state_t.STATE_JOGGING)
    (h1 : E.decode_hex_u16 (cmd.drop 1) = (some id, n1))
    (h2 : E.decode_axes ((cmd.drop 1).drop n1) (fun _ => 0) = (stat_t.STAT_OK, velocity, n2))
    (h3 : ((cmd.drop 1).drop n1).drop n2 = []) :
    command_jog E cmd w
      = (stat_t.STAT_OK,
          { w with jr := { w.jr with next := velocity, nextID := id, writing := false } }) ∧
    (command_jog E cmd w).2.jr.scurves = w.jr.scurves ∧
    (command_jog E cmd w).2.jr.targetV = w.jr.targetV ∧
    (command_jog E cmd w).2.jr.holding = w.jr.holding ∧
    (command_jog E cmd w).2.jr.id = w.jr.id ∧
    (command_jog E cmd w).2.jr.lastID = w.jr.lastID ∧
    (command_jog E cmd w).2.state = w.state ∧
    (command_jog E cmd w).2.cb = w.cb := by
  have hc := command_jog_eq E cmd w id n1 n2 velocity (Or.inr (Or.inr hs)) h1 h2 h3
  rw [if_neg (not_not.mpr hs)] at hc
  rw [hc]
  exact ⟨rfl, rfl, rfl, rfl, rfl, rfl, rfl, rfl⟩

/-- C13 on the sample world with a jog along x in progress: the sample jog
command along y replaces the requested velocities and the next identifier. -/
theorem command_jog_retarget_witness :
    (command_jog sample_env sample_jog_y sample_world_jog).1 = stat_t.STAT_OK ∧
    (command_jog sample_env sample_jog_y sample_world_jog).2.jr.next
      = Function.update (fun _ => 0) 1 1 ∧
    (command_jog sample_env sample_jog_y sample_world_jog).2.jr.nextID = 7 ∧
    (command_jog sample_env sample_jog_y sample_world_jog).2.jr.id = 0 := by
  obtain ⟨h, -, -, -, hid, -⟩ :=
    command_jog_retarget sample_env sample_jog_y sample_world_jog 7 1 2
      (Function.update (fun _ => 0) 1 1) rfl rfl rfl rfl
  refine ⟨?_, ?_, ?_, hid⟩ <;> rw [h]

/-- C14: in the jogging state `jog_stop` sets the requested velocity of every
axis to zero and leaves the flag `jr.writing` false; with no write in
progress it changes nothing else.  In any other state it changes nothing. -/
theorem jog_stop_effect (w : world AXES SCurve) :
    (state_get w = state_t.STATE_JOGGING →
      jog_stop w = { w with jr := { w.jr with next := fun _ => 0, writing := false } }) ∧
    (state_get w = state_t.STATE_JOGGING → w.jr.writing = false →
      jog_stop w = { w with jr := { w.jr with next := fun _ => 0 } }) ∧
    (state_get w ≠ state_t.STATE_JOGGING → jog_stop w = w) := by
  refine ⟨fun h => ?_, fun h hw => ?_, fun h => ?_⟩
  · unfold jog_stop
    rw [if_neg (not_not.mpr h)]
  · unfold jog_stop
    rw [if_neg (not_not.mpr h), ← hw]
  · unfold jog_stop
    rw [if_pos h]

/-- C14 on the sample worlds: a jog along x in progress is asked to stop,
and the sample world at rest is left as it is. -/
theorem jog_stop_effect_witness :
    jog_stop sample_world_jog
      = { sample_world_jog with jr := { sample_world_jog.jr with next := fun _ => 0 } } ∧
    jog_stop sample_world = sample_world :=
  ⟨(jog_stop_effect sample_world_jog).2.1 rfl rfl,
    (jog_stop_effect sample_world).2.2 (by decide)⟩

/-- C15: one tick of `jog_exec` from `w`.  When, for every enabled axis, both
the velocity returned by the profile and the target velocity used for this
tick are within `MIN_VELOCITY`, the tick ends the session: it resets the
commanded position to the executor position, sets the executor velocity to 0,
clears the callback, moves the machine to the holding state when `jr.holding`
is set and to the ready (idle) state otherwise, emits no move and returns
`STAT_NOP`.  Otherwise it sets the executor velocity, emits one move to the
target computed by the axis loop, keeps the callback and the machine state and
returns `STAT_OK`.  The flag `jr.holding` is set by the command that starts
the session exactly when the machine was holding, and later jog commands and
ticks keep it. -/
theorem jog_exec_completion (E : env AXES SCurve) (w : world AXES SCurve)
    (cmd : List Char) (w0 : world AXES SCurve) :
    ((∀ axis, E.axis_is_enabled axis = true →
        |jog_exec_axis_v E w axis| ≤ E.MIN_VELOCITY ∧
        |jog_exec_axis_targetV E w axis| ≤ E.MIN_VELOCITY) →
      (jog_exec E w).1 = stat_t.STAT_NOP ∧
      (jog_exec E w).2.position = w.exec_position ∧
      (jog_exec E w).2.velocity = 0 ∧
      (jog_exec E w).2.cb = exec_cb.none ∧
      (w.jr.holding = true → (jog_exec E w).2.state = state_t.STATE_HOLDING) ∧
      (w.jr.holding = false → (jog_exec E w).2.state = state_t.STATE_READY) ∧
      (jog_exec E w).2.trace
        = w.trace ++ [event.command_reset_position, event.exec_set_velocity 0,
            event.exec_set_cb exec_cb.none,
            if w.jr.holding = true then event.state_holding else event.state_idle]) ∧
    (¬(∀ axis, E.axis_is_enabled axis = true →
        |jog_exec_axis_v E w axis| ≤ E.MIN_VELOCITY ∧
        |jog_exec_axis_targetV E w axis| ≤ E.MIN_VELOCITY) →
      (jog_exec E w).1 = stat_t.STAT_OK ∧
      (jog_exec E w).2.exec_position = (jog_exec_loop E w).target ∧
      (jog_exec E w).2.cb = w.cb ∧
      (jog_exec E w).2.state = w.state ∧
      (jog_exec E w).2.trace
        = w.trace ++ [event.exec_set_velocity (E.sqrt (jog_exec_loop E w).velocity_sqr),
            event.exec_move_to_target (jog_exec_loop E w).target]) ∧
    ((command_jog E cmd w0).1 = stat_t.STAT_OK → state_get w0 ≠ state_t.STATE_JOGGING →
      ((command_jog E cmd w0).2.jr.holding = true ↔
        state_get w0 = state_t.STATE_HOLDING)) ∧
    (state_get w0 = state_t.STATE_JOGGING →
      (command_jog E cmd w0).2.jr.holding = w0.jr.holding) ∧
    (jog_exec E w).2.jr.holding = w.jr.holding := by
  refine ⟨fun h => ?_, fun h => ?_, fun hok hne => ?_, fun hj => ?_, ?_⟩
  · obtain ⟨d1, d2, -, d4, d5, d6, d7, -⟩ :=
      jog_exec_eq_done E w ((jog_exec_loop_done E w).mpr h)
    refine ⟨d1, d2, d4, d5, fun hh => ?_, fun hh => ?_, d7⟩
    · rw [d6, if_pos hh]
    · rw [d6, hh]
      rfl
  · obtain ⟨m1, -, m3, -, m5, m6, m7, -⟩ :=
      jog_exec_eq_moving E w (fun hd => h ((jog_exec_loop_done E w).mp hd))
    exact ⟨m1, m3, m5, m6, m7⟩
  · rcases command_jog_cases E cmd w0 with ⟨hno, -⟩ | ⟨velocity, id, hc⟩
    · exact absurd hok hno
    · rw [hc, if_pos hne]
      simp only [command_jog_next, command_jog_start, exec_set_cb, state_jogging,
        decide_eq_true_eq]
  · rcases command_jog_cases E cmd w0 with ⟨-, hsame⟩ | ⟨velocity, id, hc⟩
    · rw [hsame]
    · rw [hc, if_neg (not_not.mpr hj)]
      rfl
  · by_cases hd : (jog_exec_loop E w).done = true
    · exact (jog_exec_eq_done E w hd).2.2.2.2.2.2.2.1
    · exact (jog_exec_eq_moving E w hd).2.2.2.2.2.2.2.1

/-- C15 on the sample worlds: the tick after the sample jog command along x
moves, and the tick after the sample jog command that names no axis ends the
session in the ready state. -/
theorem jog_exec_completion_witness :
    (jog_exec sample_env (command_jog sample_env sample_jog_x sample_world).2).1
      = stat_t.STAT_OK ∧
    (jog_exec sample_env (command_jog sample_env sample_jog_zero sample_world).2).1
      = stat_t.STAT_NOP ∧
    (jog_exec sample_env (command_jog sample_env sample_jog_zero sample_world).2).2.state
      = state_t.STATE_READY ∧
    (command_jog sample_env sample_jog_zero sample_world).2.jr.holding = false := by
  have hx := (jog_exec_completion sample_env
    (command_jog sample_env sample_jog_x sample_world).2 sample_jog_zero sample_world).2.1
    (fun h => sample_jog_x_moving ((jog_exec_loop_done sample_env _).mpr h))
  have hhold : (command_jog sample_env sample_jog_zero sample_world).2.jr.holding = false := by
    rw [sample_jog_zero_eq]
    rfl
  have hz := (jog_exec_completion sample_env
    (command_jog sample_env sample_jog_zero sample_world).2 sample_jog_zero sample_world).1
    (by
      rw [sample_jog_zero_eq]
      intro axis _
      simp only [jog_exec_axis_v, jog_exec_axis_targetV, jog_exec_targetV, command_jog_next,
        sample_env]
      norm_num)
  exact ⟨hx.1, hz.1, hz.2.2.2.2.2.1 hhold, hhold⟩

/-- C16, the counterexample: the sample jog command along x, with identifier
5, starts a session from the sample world.  After the first tick, with no
write in progress, the tick has adopted request 5 (`jr.id = 5`), but
`get_jog_id` reports 0. -/
theorem get_jog_id_lags :
    (jog_exec sample_env (command_jog sample_env sample_jog_x sample_world).2).2.jr.writing
      = false ∧
    (jog_exec sample_env (command_jog sample_env sample_jog_x sample_world).2).2.jr.id = 5 ∧
    get_jog_id (jog_exec sample_env (command_jog sample_env sample_jog_x sample_world).2).2
      = 0 := by
  obtain ⟨-, -, -, -, -, -, -, -, hid, hlast⟩ := jog_exec_eq_moving sample_env _ sample_jog_x_moving
  have hw : (jog_exec sample_env
      (command_jog sample_env sample_jog_x sample_world).2).2.jr.writing = false := by
    have hf := (jog_exec_loop_frame sample_env
      (command_jog sample_env sample_jog_x sample_world).2).2.1
    unfold jog_exec
    simp only []
    rw [if_neg sample_jog_x_moving]
    simp only [exec_move_to_target, exec_set_velocity]
    rw [hf, sample_jog_x_eq]
    rfl
  refine ⟨hw, ?_, ?_⟩
  · rw [hid, sample_jog_x_eq]
    rfl
  · unfold get_jog_id
    rw [hlast, sample_jog_x_eq]
    rfl

/-- C16, as amended: after a tick of `jog_exec` with no write in progress,
`jr.id` is the identifier of the request adopted last, and `get_jog_id`
reports it only when the tick ended the session; after a tick that continues
the session `get_jog_id` reports the identifier that `jr.id` held before the
tick when the tick adopted a new request, and what it reported before when
the tick adopted none.  A request that `command_jog` has only received is not
reported: in the jogging state `command_jog` leaves the reported identifier
as it is, and when it starts a session it resets it to 0. -/
theorem get_jog_id_adopted (E : env AXES SCurve) (w : world AXES SCurve) (cmd : List Char)
    (hw : w.jr.writing = false) :
    (jog_exec E w).2.jr.id = w.jr.nextID ∧
    ((jog_exec E w).1 = stat_t.STAT_NOP →
      get_jog_id (jog_exec E w).2 = (jog_exec E w).2.jr.id) ∧
    ((jog_exec E w).1 = stat_t.STAT_OK → w.jr.id ≠ w.jr.nextID →
      get_jog_id (jog_exec E w).2 = w.jr.id) ∧
    ((jog_exec E w).1 = stat_t.STAT_OK → w.jr.id = w.jr.nextID →
      get_jog_id (jog_exec E w).2 = get_jog_id w) ∧
    (state_get w = state_t.STATE_JOGGING →
      get_jog_id (command_jog E cmd w).2 = get_jog_id w) ∧
    (state_get w ≠ state_t.STATE_JOGGING → (command_jog E cmd w).1 = stat_t.STAT_OK →
      get_jog_id (command_jog E cmd w).2 = 0) := by
  have hidv : (if w.jr.writing = false ∧ w.jr.id ≠ w.jr.nextID then w.jr.nextID else w.jr.id)
      = w.jr.nextID := by
    by_cases he : w.jr.id = w.jr.nextID
    · rw [if_neg (fun h => h.2 he), he]
    · rw [if_pos ⟨hw, he⟩]
  refine ⟨?_, fun hnop => ?_, fun hok hne => ?_, fun hok he => ?_, fun hj => ?_,
    fun hnj hok => ?_⟩
  · by_cases hd : (jog_exec_loop E w).done = true
    · rw [(jog_exec_eq_done E w hd).2.2.2.2.2.2.2.2.1, hidv]
    · rw [(jog_exec_eq_moving E w hd).2.2.2.2.2.2.2.2.1, hidv]
  · by_cases hd : (jog_exec_loop E w).done = true
    · exact (jog_exec_eq_done E w hd).2.2.2.2.2.2.2.2.2
    · rw [(jog_exec_eq_moving E w hd).1] at hnop
      exact absurd hnop (by decide)
  · by_cases hd : (jog_exec_loop E w).done = true
    · rw [(jog_exec_eq_done E w hd).1] at hok
      exact absurd hok (by decide)
    · unfold get_jog_id
      rw [(jog_exec_eq_moving E w hd).2.2.2.2.2.2.2.2.2, if_pos ⟨hw, hne⟩]
  · by_cases hd : (jog_exec_loop E w).done = true
    · rw [(jog_exec_eq_done E w hd).1] at hok
      exact absurd hok (by decide)
    · unfold get_jog_id
      rw [(jog_exec_eq_moving E w hd).2.2.2.2.2.2.2.2.2, if_neg (fun h => h.2 he)]
  · rcases command_jog_cases E cmd w with ⟨-, hsame⟩ | ⟨velocity, id, hc⟩
    · rw [hsame]
    · rw [hc, if_neg (not_not.mpr hj)]
      rfl
  · rcases command_jog_cases E cmd w with ⟨hno, -⟩ | ⟨velocity, id, hc⟩
    · exact absurd hok hno
    · rw [hc, if_pos hnj]
      rfl

/-- C16, as amended, on the sample session: the first tick after the sample
jog command along x, which continues the session, adopts request 5 and
reports the identifier 0 that `jr.id` held before. -/
theorem get_jog_id_adopted_witness :
    (jog_exec sample_env (command_jog sample_env sample_jog_x sample_world).2).2.jr.id = 5 ∧
    get_jog_id (jog_exec sample_env (command_jog sample_env sample_jog_x sample_world).2).2
      = 0 := by
  have hw : (command_jog sample_env sample_jog_x sample_world).2.jr.writing = false := by
    rw [sample_jog_x_eq]
    rfl
  obtain ⟨hid, -, hlast, -⟩ :=
    get_jog_id_adopted sample_env (command_jog sample_env sample_jog_x sample_world).2
      sample_jog_y hw
  have hok := (jog_exec_eq_moving sample_env _ sample_jog_x_moving).1
  refine ⟨?_, ?_⟩
  · rw [hid, sample_jog_x_eq]
    rfl
  · rw [hlast hok (by rw [sample_jog_x_eq]; decide), sample_jog_x_eq]
    rfl

/-! ## Clearing the emergency stop -/

/-- C17: `estop_clear` changes nothing when the emergency stop is not
triggered.  When it is triggered and the estop switch is active, the reason
becomes `STAT_ESTOP_SWITCH`, so the stop stays triggered, and nothing else
changes.  When it is triggered and the switch is not active, `estop_clear`
clears the fault output, sets the reason to `STAT_OK` and then requests a hard
reset.  No output is driven and no reset is requested in the first two
cases. -/
theorem estop_clear_cases (E : env AXES SCurve) (w : world AXES SCurve) :
    (estop_triggered w = false → estop_clear E w = w) ∧
    (estop_triggered w = true → E.switch_is_active switch_id_t.SW_ESTOP = true →
      estop_clear E w = { w with estop_reason := stat_t.STAT_ESTOP_SWITCH } ∧
      estop_triggered (estop_clear E w) = true ∧
      (estop_clear E w).trace = w.trace) ∧
    (estop_triggered w = true → E.switch_is_active switch_id_t.SW_ESTOP = false →
      estop_clear E w
        = { w with
            estop_reason := stat_t.STAT_OK
            trace := w.trace ++ [event.outputs_set_active pin_t.FAULT_PIN false,
              event.hw_request_hard_reset] } ∧
      estop_triggered (estop_clear E w) = false) := by
  refine ⟨fun h => ?_, fun h hsw => ?_, fun h hsw => ?_⟩
  · unfold estop_clear
    rw [if_pos h]
  · have he : estop_clear E w = { w with estop_reason := stat_t.STAT_ESTOP_SWITCH } := by
      unfold estop_clear
      rw [if_neg (by rw [h]; decide), if_pos hsw]
    rw [he]
    exact ⟨rfl, rfl, rfl⟩
  · have he : estop_clear E w
        = { w with
            estop_reason := stat_t.STAT_OK
            trace := w.trace ++ [event.outputs_set_active pin_t.FAULT_PIN false,
              event.hw_request_hard_reset] } := by
      unfold estop_clear
      rw [if_neg (by rw [h]; decide), if_neg (by rw [hsw]; decide)]
      simp [outputs_set_active, hw_request_hard_reset]
    rw [he]
    exact ⟨rfl, rfl⟩

/-- C17 on the sample worlds: clearing does nothing at rest, keeps the stop
while the switch is pressed, and clears it with a reset request once the
switch is released. -/
theorem estop_clear_cases_witness :
    estop_clear sample_env sample_world = sample_world ∧
    (estop_clear sample_env_switch sample_world_estopped).estop_reason
      = stat_t.STAT_ESTOP_SWITCH ∧
    (estop_clear sample_env_switch sample_world_estopped).trace = [] ∧
    (estop_clear sample_env sample_world_estopped).estop_reason = stat_t.STAT_OK ∧
    (estop_clear sample_env sample_world_estopped).trace
      = [event.outputs_set_active pin_t.FAULT_PIN false, event.hw_request_hard_reset] := by
  have h1 := (estop_clear_cases sample_env sample_world).1 rfl
  have h2 := (estop_clear_cases sample_env_switch sample_world_estopped).2.1 rfl rfl
  have h3 := (estop_clear_cases sample_env sample_world_estopped).2.2 rfl rfl
  refine ⟨h1, ?_, h2.2.2, ?_, ?_⟩
  · rw [h2.1]
  · rw [h3.1]
  · rw [h3.1]
    rfl

/-! ## Reading a variable -/

/-- C18: for every type, `_get` called with the index `-1` calls the getter
without an argument and then, unconditionally, the getter with the index
`-1`, and returns the value of the second call; called with any other index
it calls only the getter with that index and returns its value. -/
theorem _get_falls_through {type_t type_u : Type} (type : type_t) (index : Int)
    (cb : get_cb_u type_t type_u) (value : type_u) :
    (index = -1 →
      _get type index cb value
        = (cb.get_index type (-1), [get_call.get type, get_call.get_index type (-1)])) ∧
    (index ≠ -1 →
      _get type index cb value
        = (cb.get_index type index, [get_call.get_index type index])) := by
  refine ⟨fun h => ?_, fun h => ?_⟩
  · subst h
    rfl
  · unfold _get
    simp only [if_neg h, List.nil_append]

/-- C18 on the sample callback: with the index `-1` both calls are made and
the value 2 of the indexed call is returned, not the value 1 of the call
without an argument; with the index 0 only the indexed call is made. -/
theorem _get_falls_through_witness :
    _get () (-1) sample_get_cb 0 = (2, [get_call.get (), get_call.get_index () (-1)]) ∧
    _get () 0 sample_get_cb 0 = (3, [get_call.get_index () 0]) :=
  ⟨(_get_falls_through () (-1) sample_get_cb 0).1 rfl,
    (_get_falls_through () 0 sample_get_cb 0).2 (by decide)⟩

/-! ## Triggering the emergency stop -/

/-- C26: `estop_triggered` holds exactly when the stored reason is not
`STAT_OK`.  While the stop is triggered `estop_trigger` changes nothing, so the
first reason is kept and no shutdown action is repeated.  While it is not
triggered, `estop_trigger` with a reason other than `STAT_OK` stores the
reason, after which the stop is triggered, sets the fault output, shuts down
the steppers, the spindle and the outputs, and moves the machine to the estop
state; `jog_stop` runs on the state before that change, so the requested jog
velocities are zeroed when the machine was jogging, and the jog session is
left as it is otherwise. -/
theorem estop_trigger_first_reason (r r2 : stat_t) (w : world AXES SCurve) :
    (estop_triggered w = true ↔ w.estop_reason ≠ stat_t.STAT_OK) ∧
    (estop_triggered w = true → estop_trigger r w = w) ∧
    (estop_triggered w = false → r ≠ stat_t.STAT_OK →
      (estop_trigger r w).estop_reason = r ∧
      estop_triggered (estop_trigger r w) = true ∧
      (estop_trigger r w).state = state_t.STATE_ESTOPPED ∧
      (state_get w = state_t.STATE_JOGGING →
        (estop_trigger r w).jr = { w.jr with next := fun _ => 0, writing := false }) ∧
      (state_get w ≠ state_t.STATE_JOGGING → (estop_trigger r w).jr = w.jr) ∧
      (estop_trigger r w).trace
        = w.trace ++ [event.outputs_set_active pin_t.FAULT_PIN true, event.st_shutdown,
            event.spindle_estop, event.outputs_stop, event.state_estop] ∧
      estop_trigger r2 (estop_trigger r w) = estop_trigger r w) := by
  have htrig : ∀ w1 : world AXES SCurve,
      estop_triggered w1 = true ↔ w1.estop_reason ≠ stat_t.STAT_OK := by
    intro w1
    unfold estop_triggered
    exact decide_eq_true_iff
  have hkeep : ∀ (r1 : stat_t) (w1 : world AXES SCurve),
      estop_triggered w1 = true → estop_trigger r1 w1 = w1 := by
    intro r1 w1 h
    unfold estop_trigger
    rw [if_pos h]
  refine ⟨htrig w, hkeep r w, fun h hr => ?_⟩
  have hnot : ¬estop_triggered w = true := by
    rw [h]
    decide
  have hreason : (estop_trigger r w).estop_reason = r := by
    unfold estop_trigger
    rw [if_neg hnot]
    simp only [state_estop, outputs_stop, jog_stop, spindle_estop, st_shutdown,
      outputs_set_active, state_get]
    split <;> rfl
  have hafter : estop_triggered (estop_trigger r w) = true := by
    rw [htrig, hreason]
    exact hr
  refine ⟨hreason, hafter, ?_, fun hj => ?_, fun hj => ?_, ?_, hkeep r2 _ hafter⟩
  · unfold estop_trigger
    rw [if_neg hnot]
    rfl
  · unfold estop_trigger
    rw [if_neg hnot]
    simp only [state_estop, outputs_stop, jog_stop, spindle_estop, st_shutdown,
      outputs_set_active, state_get] at hj ⊢
    rw [if_neg (not_not.mpr hj)]
  · unfold estop_trigger
    rw [if_neg hnot]
    simp only [state_estop, outputs_stop, jog_stop, spindle_estop, st_shutdown,
      outputs_set_active, state_get] at hj ⊢
    rw [if_pos hj]
  · unfold estop_trigger
    rw [if_neg hnot]
    simp only [state_estop, outputs_stop, jog_stop, spindle_estop, st_shutdown,
      outputs_set_active, state_get]
    split <;> simp

/-- C26 on the sample world with a jog along x in progress: the user's stop
zeroes the requested velocity and moves the machine to the estop state, and a
later trigger by the switch keeps the user's reason and repeats nothing. -/
theorem estop_trigger_first_reason_witness :
    (estop_trigger stat_t.STAT_ESTOP_USER sample_world_jog).estop_reason
      = stat_t.STAT_ESTOP_USER ∧
    (estop_trigger stat_t.STAT_ESTOP_USER sample_world_jog).state
      = state_t.STATE_ESTOPPED ∧
    (estop_trigger stat_t.STAT_ESTOP_USER sample_world_jog).jr.next = (fun _ => 0) ∧
    estop_trigger stat_t.STAT_ESTOP_SWITCH
        (estop_trigger stat_t.STAT_ESTOP_USER sample_world_jog)
      = estop_trigger stat_t.STAT_ESTOP_USER sample_world_jog := by
  obtain ⟨h1, -, h3, h4, -, -, h7⟩ :=
    (estop_trigger_first_reason stat_t.STAT_ESTOP_USER stat_t.STAT_ESTOP_SWITCH
      sample_world_jog).2.2 rfl (by decide)
  refine ⟨h1, h3, ?_, h7⟩
  rw [h4 rfl]

/-! ## Executing a line: distance and entry velocity -/

theorem segment_times_append (a b : List (event AXES)) :
    segment_times (a ++ b) = segment_times a ++ segment_times b := by
  induction a with
  | nil => rfl
  | cons e a ih =>
    cases e <;> simp [segment_times, ih]

theorem segment_targets_append (a b : List (event AXES)) :
    segment_targets (a ++ b) = segment_targets a ++ segment_targets b := by
  induction a with
  | nil => rfl
  | cons e a ih =>
    cases e <;> simp [segment_targets, ih]

/-- The fields of `l` that `command_line_exec` sets before it looks for the
first section. -/
theorem command_line_exec_fields (data : line_t AXES) (w : world AXES SCurve) :
    (command_line_exec data w).l.line = data ∧
    (command_line_exec data w).l.seg = 0 ∧
    (command_line_exec data w).l.iD = 0 ∧
    (command_line_exec data w).l.iV = (if w.velocity ≠ 0 then w.l.lV else 0) ∧
    (command_line_exec data w).l.lV = data.target_vel ∧
    (command_line_exec data w).velocity = w.velocity := by
  obtain ⟨q, sp, tr, hs, -⟩ := _set_sync_speeds_frame 0
    ({ w with l := { ({ w with l := { w.l with line := data } } : world AXES SCurve).l with
        speed := { w.l.speed with offset := -1 } } } : world AXES SCurve)
  unfold command_line_exec
  simp only []
  rw [hs]
  rcases _section_next_cases
    ({ w with
       queue := q
       l := { line := data, section_ := -1, seg := 0, iD := 0,
              iV := if w.velocity ≠ 0 then w.l.lV else 0, iA := w.l.iA, jerk := w.l.jerk,
              lV := data.target_vel, speed := sp }
       trace := w.trace ++ tr } : world AXES SCurve) with ⟨-, hn⟩ | ⟨s, -, -, -, -, hn⟩
  · simp only [] at hn ⊢
    rw [hn]
    exact ⟨rfl, rfl, rfl, rfl, rfl, rfl⟩
  · simp only [] at hn ⊢
    rw [hn]
    exact ⟨rfl, rfl, rfl, rfl, rfl, rfl⟩

/-- A tick of `_line_exec` keeps the recorded exit velocity and the velocity
held by the executor. -/
theorem _line_exec_lV (E : env AXES SCurve) (w : world AXES SCurve) :
    (_line_exec E w).2.l.lV = w.l.lV ∧ (_line_exec E w).2.velocity = w.velocity := by
  obtain ⟨q, sp, tr, hs, -⟩ := _line_exec_synced_frame E w
  rw [_line_exec_eq]
  split
  · rcases _section_next_cases (_line_exec_synced E w) with ⟨-, hn⟩ | ⟨s, -, -, -, -, hn⟩
    · rw [hn, hs]
      exact ⟨rfl, rfl⟩
    · rw [hn, hs]
      exact ⟨rfl, rfl⟩
  · rw [hs]
    exact ⟨rfl, rfl⟩

theorem _line_exec_ticks_lV (E : env AXES SCurve) (n : Nat) (w : world AXES SCurve) :
    (_line_exec_ticks E n w).l.lV = w.l.lV ∧ (_line_exec_ticks E n w).velocity = w.velocity := by
  induction n generalizing w with
  | zero => exact ⟨rfl, rfl⟩
  | succ n ih =>
    obtain ⟨h1, h2⟩ := ih (_line_exec E w).2
    obtain ⟨k1, k2⟩ := _line_exec_lV E w
    exact ⟨h1.trans k1, h2.trans k2⟩

/-- C24: `command_line_exec` starts a line with initial distance 0 and with
the recorded exit velocity `l.lV` as initial velocity when the velocity held
by the executor is not zero, and with initial velocity 0 when it is zero; it
then records the target velocity of this line in `l.lV`.  The ticks of the
line keep that record, so the next line is started with the target velocity
of this one when the executor is still moving. -/
theorem command_line_exec_entry_velocity (E : env AXES SCurve) (data next : line_t AXES)
    (w : world AXES SCurve) (n : Nat) :
    (command_line_exec data w).l.iD = 0 ∧
    (w.velocity ≠ 0 → (command_line_exec data w).l.iV = w.l.lV) ∧
    (w.velocity = 0 → (command_line_exec data w).l.iV = 0) ∧
    (command_line_exec data w).l.lV = data.target_vel ∧
    (_line_exec_ticks E n (command_line_exec data w)).l.lV = data.target_vel ∧
    ((_line_exec_ticks E n (command_line_exec data w)).velocity ≠ 0 →
      (command_line_exec next (_line_exec_ticks E n (command_line_exec data w))).l.iV
        = data.target_vel) ∧
    ((_line_exec_ticks E n (command_line_exec data w)).velocity = 0 →
      (command_line_exec next (_line_exec_ticks E n (command_line_exec data w))).l.iV
        = 0) := by
  obtain ⟨-, -, hD, hV, hlV, -⟩ := command_line_exec_fields data w
  obtain ⟨-, -, -, hV2, -, -⟩ :=
    command_line_exec_fields next (_line_exec_ticks E n (command_line_exec data w))
  have hkeep := (_line_exec_ticks_lV E n (command_line_exec data w)).1.trans hlV
  refine ⟨hD, fun h => ?_, fun h => ?_, hlV, hkeep, fun h => ?_, fun h => ?_⟩
  · rw [hV, if_pos h]
  · rw [hV, if_neg (not_not.mpr h)]
  · rw [hV2, if_pos h, hkeep]
  · rw [hV2, if_neg (not_not.mpr h)]

/-- C22: the distance `d` of a tick is the sampled distance limited to the
length of the line, so it never exceeds the length.  The tick handles the
synchronized speeds at that `d`; on a tick that does not end the line the
emitted segment goes to `start + unit * d`, and a tick that enters the next
section stores that `d` as its initial distance.  A tick ends the line when it
completes its section and no later section has a non-zero duration. -/
theorem _line_exec_no_overshoot (E : env AXES SCurve) (w : world AXES SCurve) :
    _line_exec_d E w ≤ w.l.line.length ∧
    _line_exec_d E w ≤ _segment_distance w (_line_exec_t E w) ∧
    (_line_exec E w).2.queue
      = (_set_sync_speeds (_line_exec_d E w)
          { w with l := { w.l with seg := w.l.seg + 1 } }).queue ∧
    (_line_exec E w).2.l.speed
      = (_set_sync_speeds (_line_exec_d E w)
          { w with l := { w.l with seg := w.l.seg + 1 } }).l.speed ∧
    spindle_speeds (_line_exec E w).2.trace
      = spindle_speeds (_set_sync_speeds (_line_exec_d E w)
          { w with l := { w.l with seg := w.l.seg + 1 } }).trace ∧
    (_line_exec_t E w ≠ w.l.line.time w.l.section_ ∨
        (∃ s : Int, w.l.section_ < s ∧ s < 7 ∧ w.l.line.time s ≠ 0) →
      segment_targets (_line_exec E w).2.trace
        = segment_targets w.trace
          ++ [fun axis => w.l.line.start axis + w.l.line.unit axis * _line_exec_d E w]) ∧
    (_line_exec_t E w = w.l.line.time w.l.section_ →
      (∃ s : Int, w.l.section_ < s ∧ s < 7 ∧ w.l.line.time s ≠ 0) →
      (_line_exec E w).2.l.iD = _line_exec_d E w) := by
  obtain ⟨q, sp, tr, hs, htr⟩ := _line_exec_synced_frame E w
  have hsync : _set_sync_speeds (_line_exec_d E w)
      { w with l := { w.l with seg := w.l.seg + 1 } } = _line_exec_synced E w := rfl
  have hsegtr : segment_targets tr = [] := by
    rcases htr with h | ⟨speed, h⟩ <;> rw [h] <;> rfl
  refine ⟨?_, ?_, ?_, ?_, ?_, fun hnf => ?_, fun ht hnext => ?_⟩
  · unfold _line_exec_d
    split
    · exact le_refl _
    · rename_i h
      exact not_lt.mp h
  · unfold _line_exec_d
    split
    · rename_i h
      exact le_of_lt h
    · exact le_refl _
  · rw [hsync, _line_exec_eq]
    split
    · rcases _section_next_cases (_line_exec_synced E w) with ⟨-, hn⟩ | ⟨s, -, -, -, -, hn⟩ <;>
        rw [hn] <;> rfl
    · rfl
  · rw [hsync, _line_exec_eq]
    split
    · rcases _section_next_cases (_line_exec_synced E w) with ⟨-, hn⟩ | ⟨s, -, -, -, -, hn⟩ <;>
        rw [hn] <;> rfl
    · rfl
  · obtain ⟨tr2, rest, h1, h2, -, h4⟩ := _line_exec_trace E w
    rw [hsync, h1, h2, spindle_speeds_append, h4, List.append_nil]
  · rw [_line_exec_eq]
    by_cases ht : _line_exec_t E w = w.l.line.time w.l.section_
    · rw [if_pos ht]
      rcases hnf with hne | ⟨s0, h1, h2, h3⟩
      · exact absurd ht hne
      · rcases _section_next_cases (_line_exec_synced E w) with
          ⟨hz, -⟩ | ⟨s, -, -, -, -, hn⟩
        · rw [hs] at hz
          exact absurd (hz s0 h1 h2) h3
        · rw [hn, hs]
          simp only [exec_segment, segment_targets_append, hsegtr, List.append_assoc]
          rfl
    · rw [if_neg ht, hs]
      simp only [exec_segment, segment_targets_append, hsegtr, List.append_assoc]
      rfl
  · obtain ⟨s0, h1, h2, h3⟩ := hnext
    rw [_line_exec_eq, if_pos ht]
    rcases _section_next_cases (_line_exec_synced E w) with ⟨hz, -⟩ | ⟨s, -, -, -, -, hn⟩
    · rw [hs] at hz
      exact absurd (hz s0 h1 h2) h3
    · rw [hn]
      rfl

/-- C24 on the sample worlds: at rest the line starts with velocity 0; with
the executor moving after a line with target velocity 3 it starts with
velocity 3; and a line that follows two ticks of a line with target velocity 5
starts with velocity 5. -/
theorem command_line_exec_entry_velocity_witness :
    (command_line_exec sample_record sample_world).l.iV = 0 ∧
    (command_line_exec sample_record sample_world_moving).l.iV = 3 ∧
    (command_line_exec sample_record
      (_line_exec_ticks sample_env 2
        (command_line_exec sample_record_through sample_world_moving))).l.iV = 5 := by
  have hv : sample_world_moving.velocity ≠ 0 := by
    show (2 : ℚ) ≠ 0
    norm_num
  have hv2 : (_line_exec_ticks sample_env 2
      (command_line_exec sample_record_through sample_world_moving)).velocity ≠ 0 := by
    rw [(_line_exec_ticks_lV sample_env 2 _).2,
      (command_line_exec_fields sample_record_through sample_world_moving).2.2.2.2.2]
    exact hv
  exact ⟨(command_line_exec_entry_velocity sample_env sample_record sample_record
      sample_world 0).2.2.1 rfl,
    (command_line_exec_entry_velocity sample_env sample_record sample_record
      sample_world_moving 0).2.1 hv,
    (command_line_exec_entry_velocity sample_env sample_record_through sample_record
      sample_world_moving 2).2.2.2.2.2.1 hv2⟩

/-- C22 on the sample line cut to length `1/100`: the first tick samples
the distance `1/60`, works with `1/100`, and enters section 2 with initial
distance `1/100`. -/
theorem _line_exec_no_overshoot_witness :
    _segment_distance sample_world_short (_line_exec_t sample_env sample_world_short)
      = 1 / 60 ∧
    _line_exec_d sample_env sample_world_short = 1 / 100 ∧
    (_line_exec sample_env sample_world_short).2.l.iD = 1 / 100 := by
  have hT : sample_world_short.l.line.time sample_world_short.l.section_ = 1 / 10 := rfl
  have ht : _line_exec_t sample_env sample_world_short = 1 / 10 := by
    rw [_line_exec_t_eq sample_env sample_world_short
      (by
        rw [hT]
        show (1 / 10 : ℚ) ≤ ((0 + 1 : Int) : ℚ) * 1
        norm_num), hT]
  have hdist : _segment_distance sample_world_short (1 / 10) = 1 / 60 := by
    show (0 : ℚ) + SCurve_distance (1 / 10) 0 0 100 = 1 / 60
    unfold SCurve_distance
    norm_num
  have hd : _line_exec_d sample_env sample_world_short = 1 / 100 := by
    unfold _line_exec_d
    rw [ht, hdist]
    show (if (1 / 100 : ℚ) < 1 / 60 then (1 / 100 : ℚ) else 1 / 60) = 1 / 100
    norm_num
  obtain ⟨-, -, -, -, -, -, hiD⟩ := _line_exec_no_overshoot sample_env sample_world_short
  refine ⟨by rw [ht, hdist], hd, ?_⟩
  rw [hiD (by rw [ht, hT]) ⟨2, by decide, by decide, by
    show sample_record.time 2 ≠ 0
    rw [show sample_record.time 2 = 1 / 10 from rfl]
    norm_num⟩, hd]

/-! ## The jog executor: anticipating the soft limits -/

/-- The profile of an axis after one pass of the axis loop of `jog_exec` for
that axis, when the entries of `jr` that the pass reads are still those of
the start of the tick. -/
theorem jog_exec_axis_scurve (E : env AXES SCurve) (w : world AXES SCurve)
    (st : jog_loop_t AXES SCurve) (axis : Fin AXES)
    (hen : E.axis_is_enabled axis = true)
    (hw : st.jr.writing = w.jr.writing) (hn : st.jr.next = w.jr.next)
    (hsc : st.jr.scurves axis = w.jr.scurves axis)
    (htv : st.jr.targetV axis = w.jr.targetV axis) :
    (jog_exec_axis E w st axis).jr.scurves axis
      = (E.next (w.jr.scurves axis) E.SEGMENT_TIME (jog_exec_axis_targetV E w axis)).2 := by
  have htarget : (if st.jr.writing = false then
        Function.update st.jr.targetV axis (st.jr.next axis * E.axis_get_velocity_max axis)
      else st.jr.targetV) axis
      = if w.jr.writing = false then w.jr.next axis * E.axis_get_velocity_max axis
        else w.jr.targetV axis := by
    rw [hw, hn]
    split
    · simp only [Function.update_same]
    · exact htv
  unfold jog_exec_axis
  have hen2 : ¬E.axis_is_enabled axis = false := by
    rw [hen]
    decide
  rw [if_neg hen2]
  simp only [htarget, hsc, jog_exec_axis_targetV, Function.update_same]

theorem jog_exec_fold_scurve (E : env AXES SCurve) (w : world AXES SCurve)
    (axes : List (Fin AXES)) (st : jog_loop_t AXES SCurve) (axis : Fin AXES)
    (hen : E.axis_is_enabled axis = true) (hnd : axes.Nodup)
    (hw : st.jr.writing = w.jr.writing) (hn : st.jr.next = w.jr.next)
    (hag : ∀ a ∈ axes, st.jr.scurves a = w.jr.scurves a ∧ st.jr.targetV a = w.jr.targetV a) :
    (axis ∈ axes →
      (axes.foldl (jog_exec_axis E w) st).jr.scurves axis
        = (E.next (w.jr.scurves axis) E.SEGMENT_TIME (jog_exec_axis_targetV E w axis)).2) ∧
    (axis ∉ axes →
      (axes.foldl (jog_exec_axis E w) st).jr.scurves axis = st.jr.scurves axis) := by
  induction axes generalizing st with
  | nil => exact ⟨fun h => absurd h (List.not_mem_nil _), fun _ => rfl⟩
  | cons a as ih =>
    simp only [List.foldl_cons]
    obtain ⟨hnot, hnd2⟩ := List.nodup_cons.mp hnd
    obtain ⟨-, f2, f3, -, -, -, f7⟩ := jog_exec_axis_frame E w st a
    obtain ⟨ih1, ih2⟩ := ih (jog_exec_axis E w st a) hnd2 (f2.trans hw) (f3.trans hn)
      (fun b hb => by
        have hne : b ≠ a := fun h => hnot (h ▸ hb)
        obtain ⟨g1, g2⟩ := f7 b hne
        obtain ⟨g3, g4⟩ := hag b (List.mem_cons_of_mem a hb)
        exact ⟨g1.trans g3, g2.trans g4⟩)
    refine ⟨fun hmem => ?_, fun hnmem => ?_⟩
    · rcases List.mem_cons.mp hmem with h | h
      · subst h
        rw [ih2 hnot]
        exact jog_exec_axis_scurve E w st axis hen hw hn
          (hag axis (List.mem_cons_self axis as)).1 (hag axis (List.mem_cons_self axis as)).2
      · exact ih1 h
    · have hne : axis ≠ a := fun h => hnmem (h ▸ List.mem_cons_self a as)
      rw [ih2 (fun h => hnmem (List.mem_cons_of_mem a h))]
      exact (f7 axis hne).1

/-- The profile of an enabled axis after the axis loop of `jog_exec` is the
one that `next` leaves when called with the target velocity of the tick. -/
theorem jog_exec_loop_scurve (E : env AXES SCurve) (w : world AXES SCurve) (axis : Fin AXES)
    (hen : E.axis_is_enabled axis = true) :
    (jog_exec_loop E w).jr.scurves axis
      = (E.next (w.jr.scurves axis) E.SEGMENT_TIME (jog_exec_axis_targetV E w axis)).2 :=
  (jog_exec_fold_scurve E w (List.finRange AXES) _ axis hen (List.nodup_finRange AXES) rfl rfl
    (fun _ _ => ⟨rfl, rfl⟩)).1 (List.mem_finRange axis)

/-- C23: in a tick of `jog_exec` the profile of an enabled axis is advanced
with the target velocity `jog_exec_axis_targetV`.  For an axis that is homed
with `min ≠ max` and whose requested target velocity has a magnitude above
`MIN_VELOCITY`: when the current velocity is positive and `max ≤ p + dist`
that target is `MIN_VELOCITY`; when the current velocity is negative and
`p - dist ≤ min` it is `-MIN_VELOCITY`; in every other case it is the
requested target velocity.  It is also the requested target velocity when the
axis is not homed, when `min = max`, and when the requested magnitude is
within `MIN_VELOCITY`. -/
theorem jog_exec_soft_limit_anticipation (E : env AXES SCurve) (w : world AXES SCurve)
    (axis : Fin AXES) :
    (E.axis_is_enabled axis = true →
      (jog_exec_loop E w).jr.scurves axis
        = (E.next (w.jr.scurves axis) E.SEGMENT_TIME (jog_exec_axis_targetV E w axis)).2) ∧
    (E.axis_get_homed axis = true →
      E.axis_get_soft_limit axis true ≠ E.axis_get_soft_limit axis false →
      E.MIN_VELOCITY < |jog_exec_axis_request E w axis| →
      (0 < E.getVelocity (w.jr.scurves axis) →
        E.axis_get_soft_limit axis false
          ≤ exec_get_axis_position w axis + jog_exec_axis_dist E w axis →
        jog_exec_axis_targetV E w axis = E.MIN_VELOCITY) ∧
      (E.getVelocity (w.jr.scurves axis) < 0 →
        exec_get_axis_position w axis - jog_exec_axis_dist E w axis
          ≤ E.axis_get_soft_limit axis true →
        jog_exec_axis_targetV E w axis = -E.MIN_VELOCITY) ∧
      (¬(0 < E.getVelocity (w.jr.scurves axis) ∧
          E.axis_get_soft_limit axis false
            ≤ exec_get_axis_position w axis + jog_exec_axis_dist E w axis) →
        ¬(E.getVelocity (w.jr.scurves axis) < 0 ∧
          exec_get_axis_position w axis - jog_exec_axis_dist E w axis
            ≤ E.axis_get_soft_limit axis true) →
        jog_exec_axis_targetV E w axis = jog_exec_axis_request E w axis)) ∧
    (E.axis_get_homed axis = false ∨
        E.axis_get_soft_limit axis true = E.axis_get_soft_limit axis false ∨
        |jog_exec_axis_request E w axis| ≤ E.MIN_VELOCITY →
      jog_exec_axis_targetV E w axis = jog_exec_axis_request E w axis) := by
  refine ⟨jog_exec_loop_scurve E w axis, fun hh hne hreq => ⟨fun hv hd => ?_, fun hv hd => ?_,
    fun h1 h2 => ?_⟩, fun h => ?_⟩
  · have hsl : (decide (E.axis_get_soft_limit axis true ≠ E.axis_get_soft_limit axis false)
        && E.axis_get_homed axis) = true := by
      rw [hh, decide_eq_true hne]
      rfl
    unfold jog_exec_axis_targetV jog_exec_targetV
    unfold jog_exec_axis_request at hreq
    unfold jog_exec_axis_dist at hd
    simp only []
    rw [if_pos ⟨hsl, hreq⟩, if_pos ⟨hv, hd⟩]
  · have hsl : (decide (E.axis_get_soft_limit axis true ≠ E.axis_get_soft_limit axis false)
        && E.axis_get_homed axis) = true := by
      rw [hh, decide_eq_true hne]
      rfl
    unfold jog_exec_axis_targetV jog_exec_targetV
    unfold jog_exec_axis_request at hreq
    unfold jog_exec_axis_dist at hd
    simp only []
    rw [if_pos ⟨hsl, hreq⟩, if_neg (fun h => absurd h.1 (not_lt.mpr (le_of_lt hv))),
      if_pos ⟨hv, hd⟩]
  · have e : jog_exec_axis_targetV E w axis
        = jog_exec_targetV E
            (decide (E.axis_get_soft_limit axis true ≠ E.axis_get_soft_limit axis false)
              && E.axis_get_homed axis)
            (exec_get_axis_position w axis) (E.getVelocity (w.jr.scurves axis))
            (jog_exec_axis_request E w axis) (E.axis_get_soft_limit axis true)
            (E.axis_get_soft_limit axis false) (w.jr.scurves axis) := rfl
    rw [e]
    unfold jog_exec_targetV
    unfold jog_exec_axis_dist at h1 h2
    simp only []
    rw [if_neg h1, if_neg h2]
    exact ite_self _
  · unfold jog_exec_axis_targetV jog_exec_targetV
    unfold jog_exec_axis_request at *
    simp only []
    have hno : ¬((decide (E.axis_get_soft_limit axis true ≠ E.axis_get_soft_limit axis false)
        && E.axis_get_homed axis) = true ∧
        E.MIN_VELOCITY < |if w.jr.writing = false then
          w.jr.next axis * E.axis_get_velocity_max axis else w.jr.targetV axis|) := by
      rintro ⟨hsl, hreq⟩
      simp only [Bool.and_eq_true, decide_eq_true_eq] at hsl
      rcases h with h | h | h
      · rw [h] at hsl
        exact absurd hsl.2 Bool.false_ne_true
      · exact hsl.1 h
      · exact absurd hreq (not_lt.mpr h)
    rw [if_neg hno]

/-- C23 on the sample worlds: at the upper limit and moving towards it the
request of 10 is replaced by `MIN_VELOCITY = 1/100`; at 95 and at rest the
request of 10 is passed unchanged. -/
theorem jog_exec_soft_limit_anticipation_witness :
    jog_exec_axis_request sample_env sample_world_jog_limit 0 = 10 ∧
    jog_exec_axis_targetV sample_env sample_world_jog_limit 0 = 1 / 100 ∧
    jog_exec_axis_targetV sample_env sample_world_jog 0 = 10 := by
  have hr1 : jog_exec_axis_request sample_env sample_world_jog_limit 0 = 10 := by
    show (1 : ℚ) * 10 = 10
    norm_num
  have hr2 : jog_exec_axis_request sample_env sample_world_jog 0 = 10 := by
    show (1 : ℚ) * 10 = 10
    norm_num
  have hne : sample_env.axis_get_soft_limit 0 true ≠ sample_env.axis_get_soft_limit 0 false := by
    show (0 : ℚ) ≠ 100
    norm_num
  have h1 := ((jog_exec_soft_limit_anticipation sample_env sample_world_jog_limit 0).2.1 rfl hne
    (by
      rw [hr1]
      show (1 / 100 : ℚ) < |10|
      norm_num [abs_of_pos])).1
    (by
      show (0 : ℚ) < 10
      norm_num)
    (by
      show (100 : ℚ) ≤ 100 + 0 * (1 + 1 / 100)
      norm_num)
  have h2 := ((jog_exec_soft_limit_anticipation sample_env sample_world_jog 0).2.1 rfl hne
    (by
      rw [hr2]
      show (1 / 100 : ℚ) < |10|
      norm_num [abs_of_pos])).2.2
    (by
      intro h
      have h0 : (0 : ℚ) < 0 := h.1
      exact absurd h0 (lt_irrefl 0))
    (by
      intro h
      have h0 : (0 : ℚ) < 0 := h.1
      exact absurd h0 (lt_irrefl 0))
  exact ⟨hr1, h1, h2.trans hr2⟩

/-! ## The `float` format: lemmas -/

/-- A rational within half a unit of an integer rounds to that integer. -/
theorem round_half_even_eq (m : ℚ) (k : Int) (h1 : (k : ℚ) - 1 / 2 < m)
    (h2 : m < (k : ℚ) + 1 / 2) : round_half_even m = k := by
  unfold round_half_even
  by_cases hk : (k : ℚ) ≤ m
  · have hf : ⌊m⌋ = k := by
      rw [Int.floor_eq_iff]
      constructor
      · exact hk
      · linarith
    rw [hf, if_pos (by linarith)]
  · have hf : ⌊m⌋ = k - 1 := by
      rw [Int.floor_eq_iff]
      push_cast
      constructor
      · linarith
      · linarith
    have hk2 : m < (k : ℚ) := not_le.mp hk
    rw [hf]
    push_cast
    rw [if_neg (by linarith), if_pos (by linarith)]
    ring

/-- An integer rounds to itself. -/
theorem round_half_even_int (k : Int) : round_half_even (k : ℚ) = k :=
  round_half_even_eq _ k (by linarith) (by linarith)

/-- Rounding to the nearest integer is monotone. -/
theorem round_half_even_mono (a b : ℚ) (h : a ≤ b) :
    round_half_even a ≤ round_half_even b := by
  have hf : ⌊a⌋ ≤ ⌊b⌋ := Int.floor_le_floor h
  have ha : round_half_even a ≤ ⌊a⌋ + 1 := by
    unfold round_half_even
    split_ifs <;> omega
  have hb : ⌊b⌋ ≤ round_half_even b := by
    unfold round_half_even
    split_ifs <;> omega
  rcases lt_or_eq_of_le hf with hlt | heq
  · omega
  · unfold round_half_even
    rw [heq]
    split_ifs <;> first | omega | linarith

/-- Rounding to the nearest integer moves a rational by at most one half. -/
theorem round_half_even_near (m : ℚ) :
    (round_half_even m : ℚ) ≤ m + 1 / 2 ∧ m - 1 / 2 ≤ (round_half_even m : ℚ) := by
  have h1 := Int.floor_le m
  have h2 := Int.lt_floor_add_one m
  unfold round_half_even
  split_ifs <;> push_cast <;> constructor <;> linarith

/-- Rounding to a multiple of the step `2^s` does not cross the multiple `K`
of the step from below. -/
theorem round_half_even_step_le (s K : Int) (v : ℚ) (h : v ≤ (K : ℚ) * 2 ^ s) :
    (round_half_even (v / 2 ^ s) : ℚ) * 2 ^ s ≤ (K : ℚ) * 2 ^ s := by
  have hp : (0 : ℚ) < 2 ^ s := zpow_pos (by norm_num) s
  have h1 : v / 2 ^ s ≤ (K : ℚ) := by
    rw [div_le_iff₀ hp]
    exact h
  have h2 := round_half_even_mono _ _ h1
  rw [round_half_even_int] at h2
  have h3 : (round_half_even (v / 2 ^ s) : ℚ) ≤ (K : ℚ) := by
    exact_mod_cast h2
  exact mul_le_mul_of_nonneg_right h3 hp.le

/-- Rounding to a multiple of the step `2^s` does not cross the multiple `K`
of the step from above. -/
theorem round_half_even_step_ge (s K : Int) (v : ℚ) (h : (K : ℚ) * 2 ^ s ≤ v) :
    (K : ℚ) * 2 ^ s ≤ (round_half_even (v / 2 ^ s) : ℚ) * 2 ^ s := by
  have hp : (0 : ℚ) < 2 ^ s := zpow_pos (by norm_num) s
  have h1 : (K : ℚ) ≤ v / 2 ^ s := by
    rw [le_div_iff₀ hp]
    exact h
  have h2 := round_half_even_mono _ _ h1
  rw [round_half_even_int] at h2
  have h3 : (K : ℚ) ≤ (round_half_even (v / 2 ^ s) : ℚ) := by
    exact_mod_cast h2
  exact mul_le_mul_of_nonneg_right h3 hp.le

/-- The powers of two that bound the values of binary exponent `e`, as
multiples of the step `2^(e - 23)`. -/
theorem binary32_binade (e : Int) :
    ((8388608 : Int) : ℚ) * 2 ^ (e - 23) = 2 ^ e ∧
    ((16777216 : Int) : ℚ) * 2 ^ (e - 23) = 2 ^ (e + 1) := by
  have h23 : ((8388608 : Int) : ℚ) = 2 ^ (23 : Int) := by norm_num
  have h24 : ((16777216 : Int) : ℚ) = 2 ^ (24 : Int) := by norm_num
  constructor
  · rw [h23, ← zpow_add₀ (by norm_num : (2 : ℚ) ≠ 0)]
    congr 1
    ring
  · rw [h24, ← zpow_add₀ (by norm_num : (2 : ℚ) ≠ 0)]
    congr 1
    ring

/-- The binary exponent is at least that of the subnormal numbers. -/
theorem binary32_exponent_min (x : ℚ) : -126 ≤ binary32_exponent x :=
  le_max_right _ _

/-- A rational is below the power of two above its binary exponent. -/
theorem binary32_exponent_lt (x : ℚ) : |x| < (2 : ℚ) ^ (binary32_exponent x + 1) := by
  have h := Int.lt_zpow_succ_log_self (by norm_num : 1 < 2) |x|
  have h2 : ((2 : Nat) : ℚ) ^ (Int.log 2 |x| + 1)
      ≤ (2 : ℚ) ^ (binary32_exponent x + 1) := by
    rw [show ((2 : Nat) : ℚ) = 2 by norm_num]
    exact zpow_le_zpow_right₀ (by norm_num) (by
      have := le_max_left (Int.log 2 |x|) (-126)
      unfold binary32_exponent
      omega)
  exact lt_of_lt_of_le h h2

/-- A rational whose binary exponent is above that of the subnormal numbers
is not below the power of two of its exponent. -/
theorem binary32_exponent_le (x : ℚ) (hx : x ≠ 0) (h : -126 < binary32_exponent x) :
    (2 : ℚ) ^ binary32_exponent x ≤ |x| := by
  have hl : binary32_exponent x = Int.log 2 |x| := by
    unfold binary32_exponent at h ⊢
    rcases le_total (Int.log 2 |x|) (-126) with h1 | h1
    · rw [max_eq_right h1] at h
      omega
    · exact max_eq_left h1
  rw [hl]
  have h2 := Int.zpow_log_le_self (by norm_num : 1 < 2) (abs_pos.mpr hx)
  simpa using h2

/-- The binary exponent grows with the absolute value. -/
theorem binary32_exponent_mono (x y : ℚ) (hx : x ≠ 0) (h : |x| ≤ |y|) :
    binary32_exponent x ≤ binary32_exponent y :=
  max_le_max (Int.log_mono_right (abs_pos.mpr hx) h) (le_refl _)

/-- The value of `binary32` at a rational of binary exponent `e`, not below
the smallest normal exponent, that is within half a step of the multiple `k`
of the step `2^(e - 23)`. -/
theorem binary32_eq (x : ℚ) (e k : Int) (hlo : (2 : ℚ) ^ e ≤ |x|)
    (hhi : |x| < (2 : ℚ) ^ (e + 1)) (hmin : -126 ≤ e)
    (h1 : (k : ℚ) - 1 / 2 < x / 2 ^ (e - 23)) (h2 : x / 2 ^ (e - 23) < (k : ℚ) + 1 / 2) :
    binary32 x = (k : ℚ) * 2 ^ (e - 23) := by
  have hpos : (0 : ℚ) < |x| := lt_of_lt_of_le (zpow_pos (by norm_num) e) hlo
  have hlog : Int.log 2 |x| = e := by
    have ha : e ≤ Int.log 2 |x| := by
      rw [← Int.zpow_le_iff_le_log (by norm_num) hpos]
      simpa using hlo
    have hb : Int.log 2 |x| < e + 1 := by
      rw [← Int.lt_zpow_iff_log_lt (by norm_num) hpos]
      simpa using hhi
    omega
  unfold binary32 binary32_exponent
  rw [hlog, max_eq_left hmin, round_half_even_eq _ k h1 h2]

/-- The `float` values of one, two and three tick periods of `0.1f`: the
first two are exact, and the third is the `float` `0.3f`, which is above
three times `0.1f`. -/
theorem binary32_tenths :
    binary32 (13421773 / 134217728) = 13421773 / 134217728 ∧
    binary32 (2 * (13421773 / 134217728)) = 13421773 / 67108864 ∧
    binary32 (3 * (13421773 / 134217728)) = 5033165 / 16777216 ∧
    (3 : ℚ) * (13421773 / 134217728) < 5033165 / 16777216 := by
  refine ⟨?_, ?_, ?_, by norm_num⟩
  · rw [binary32_eq _ (-4) 13421773 (by norm_num [abs_of_pos]) (by norm_num [abs_of_pos])
      (by norm_num) (by norm_num) (by norm_num)]
    norm_num
  · rw [binary32_eq _ (-3) 13421773 (by norm_num [abs_of_pos]) (by norm_num [abs_of_pos])
      (by norm_num) (by norm_num) (by norm_num)]
    norm_num
  · rw [binary32_eq _ (-2) 10066330 (by norm_num [abs_of_pos]) (by norm_num [abs_of_pos])
      (by norm_num) (by norm_num) (by norm_num)]
    norm_num

/-- The number `0.3f` is a `float`. -/
theorem binary32_three_tenths : binary32 (5033165 / 16777216) = 5033165 / 16777216 := by
  rw [binary32_eq _ (-2) 10066330 (by norm_num [abs_of_pos]) (by norm_num [abs_of_pos])
    (by norm_num) (by norm_num) (by norm_num)]
  norm_num

/-- An integer below `2^24` in absolute value is a `float`. -/
theorem binary32_int (i : Int) (h : |i| < 2 ^ 24) : binary32 (i : ℚ) = (i : ℚ) := by
  by_cases h0 : i = 0
  · subst h0
    unfold binary32 round_half_even
    simp
  · have hne : (i : ℚ) ≠ 0 := by exact_mod_cast h0
    have hpos : (0 : ℚ) < |(i : ℚ)| := abs_pos.mpr hne
    have h1 : (1 : ℚ) ≤ |(i : ℚ)| := by
      have h := Int.one_le_abs h0
      exact_mod_cast h
    have hlt : |(i : ℚ)| < 2 ^ 24 := by
      exact_mod_cast h
    have he0 : 0 ≤ Int.log 2 |(i : ℚ)| := by
      rw [← Int.zpow_le_iff_le_log (by norm_num) hpos]
      simpa using h1
    have he24 : Int.log 2 |(i : ℚ)| < 24 := by
      rw [← Int.lt_zpow_iff_log_lt (by norm_num) hpos]
      have e : (((2 : Nat) : ℚ)) ^ (24 : Int) = 2 ^ 24 := by norm_num
      rw [e]
      exact hlt
    obtain ⟨n, hn⟩ : ∃ n : Nat, (n : Int) = 23 - Int.log 2 |(i : ℚ)| :=
      ⟨(23 - Int.log 2 |(i : ℚ)|).toNat, by omega⟩
    have hstep : (2 : ℚ) ^ (Int.log 2 |(i : ℚ)| - 23) = ((2 : ℚ) ^ n)⁻¹ := by
      rw [show Int.log 2 |(i : ℚ)| - 23 = -(n : Int) by omega, zpow_neg, zpow_natCast]
    have hq : (i : ℚ) / 2 ^ (Int.log 2 |(i : ℚ)| - 23) = ((i * 2 ^ n : Int) : ℚ) := by
      rw [hstep]
      push_cast
      field_simp
    have hlo : (2 : ℚ) ^ Int.log 2 |(i : ℚ)| ≤ |(i : ℚ)| := by
      have h := Int.zpow_log_le_self (by norm_num : 1 < 2) hpos
      simpa using h
    have hhi : |(i : ℚ)| < (2 : ℚ) ^ (Int.log 2 |(i : ℚ)| + 1) := by
      have h := Int.lt_zpow_succ_log_self (by norm_num : 1 < 2) |(i : ℚ)|
      simpa using h
    rw [binary32_eq (i : ℚ) (Int.log 2 |(i : ℚ)|) (i * 2 ^ n) hlo hhi (by omega)
      (by
        rw [hq]
        linarith)
      (by
        rw [hq]
        linarith), hstep]
    push_cast
    field_simp

/-- The `float` value of a rational that is not positive is not positive. -/
theorem binary32_nonpos (z : ℚ) (hz : z ≤ 0) : binary32 z ≤ 0 := by
  have h1 := round_half_even_step_le (binary32_exponent z - 23) 0 z (by simpa using hz)
  unfold binary32
  simpa using h1

/-- The `float` value of a rational that is not negative is not negative. -/
theorem binary32_nonneg (z : ℚ) (hz : 0 ≤ z) : 0 ≤ binary32 z := by
  have h1 := round_half_even_step_ge (binary32_exponent z - 23) 0 z (by simpa using hz)
  unfold binary32
  simpa using h1

/-- The `float` value of a positive rational is not below the power of two
of its binary exponent, when that is above the subnormal numbers. -/
theorem binary32_ge_exponent (x : ℚ) (hx : 0 < x) (h : -126 < binary32_exponent x) :
    (2 : ℚ) ^ binary32_exponent x ≤ binary32 x := by
  have h1 := le_of_le_of_eq (binary32_exponent_le x (ne_of_gt hx) h) (abs_of_pos hx)
  obtain ⟨b1, -⟩ := binary32_binade (binary32_exponent x)
  have h3 := round_half_even_step_ge (binary32_exponent x - 23) 8388608 x (by
    rw [b1]
    exact h1)
  rw [b1] at h3
  exact h3

/-- The `float` value of a positive rational is not above the power of two
above its binary exponent. -/
theorem binary32_le_exponent (x : ℚ) (hx : 0 < x) :
    binary32 x ≤ (2 : ℚ) ^ (binary32_exponent x + 1) := by
  have h2 := lt_of_eq_of_lt (abs_of_pos hx).symm (binary32_exponent_lt x)
  obtain ⟨-, b2⟩ := binary32_binade (binary32_exponent x)
  have h4 := round_half_even_step_le (binary32_exponent x - 23) 16777216 x (by
    rw [b2]
    exact h2.le)
  rw [b2] at h4
  exact h4

/-- Rounding to `float` is monotone. -/
theorem binary32_mono (x y : ℚ) (h : x ≤ y) : binary32 x ≤ binary32 y := by
  rcases le_or_lt x 0 with hx0 | hx0
  · rcases le_or_lt 0 y with hy0 | hy0
    · exact le_trans (binary32_nonpos x hx0) (binary32_nonneg y hy0)
    · have hxlt : x < 0 := lt_of_le_of_lt h hy0
      have habs : |y| ≤ |x| := by
        rw [abs_of_neg hy0, abs_of_neg hxlt]
        linarith
      have hle := binary32_exponent_mono y x (ne_of_lt hy0) habs
      rcases lt_or_eq_of_le hle with hlt | heq
      · have h1 := le_of_le_of_eq (binary32_exponent_le x (ne_of_lt hxlt) (by
          have := binary32_exponent_min y
          omega)) (abs_of_neg hxlt)
        have h2 := lt_of_eq_of_lt (abs_of_neg hy0).symm (binary32_exponent_lt y)
        obtain ⟨b1, -⟩ := binary32_binade (binary32_exponent x)
        obtain ⟨-, b2⟩ := binary32_binade (binary32_exponent y)
        have h3 := round_half_even_step_le (binary32_exponent x - 23) (-8388608) x (by
          push_cast at b1 ⊢
          rw [neg_mul, b1]
          linarith)
        have h4 := round_half_even_step_ge (binary32_exponent y - 23) (-16777216) y (by
          push_cast at b2 ⊢
          rw [neg_mul, b2]
          linarith)
        have h5 : (2 : ℚ) ^ (binary32_exponent y + 1) ≤ 2 ^ binary32_exponent x :=
          zpow_le_zpow_right₀ (by norm_num) (by omega)
        push_cast at b1 b2 h3 h4
        rw [neg_mul, b1] at h3
        rw [neg_mul, b2] at h4
        unfold binary32
        linarith
      · unfold binary32
        rw [heq]
        have hp : (0 : ℚ) < 2 ^ (binary32_exponent x - 23) := zpow_pos (by norm_num) _
        have h1 := round_half_even_mono _ _ (div_le_div_of_nonneg_right h hp.le)
        have h2 : (round_half_even (x / 2 ^ (binary32_exponent x - 23)) : ℚ)
            ≤ (round_half_even (y / 2 ^ (binary32_exponent x - 23)) : ℚ) := by
          exact_mod_cast h1
        exact mul_le_mul_of_nonneg_right h2 hp.le
  · have hy0 : 0 < y := lt_of_lt_of_le hx0 h
    have habs : |x| ≤ |y| := by
      rw [abs_of_pos hy0, abs_of_pos hx0]
      exact h
    have hle := binary32_exponent_mono x y (ne_of_gt hx0) habs
    rcases lt_or_eq_of_le hle with hlt | heq
    · have h3 := binary32_ge_exponent y hy0 (by
        have := binary32_exponent_min x
        omega)
      have h4 := binary32_le_exponent x hx0
      have h5 : (2 : ℚ) ^ (binary32_exponent x + 1) ≤ 2 ^ binary32_exponent y :=
        zpow_le_zpow_right₀ (by norm_num) (by omega)
      linarith
    · unfold binary32
      rw [heq]
      have hp : (0 : ℚ) < 2 ^ (binary32_exponent y - 23) := zpow_pos (by norm_num) _
      have h1 := round_half_even_mono _ _ (div_le_div_of_nonneg_right h hp.le)
      have h2 : (round_half_even (x / 2 ^ (binary32_exponent y - 23)) : ℚ)
          ≤ (round_half_even (y / 2 ^ (binary32_exponent y - 23)) : ℚ) := by
        exact_mod_cast h1
      exact mul_le_mul_of_nonneg_right h2 hp.le

/-- A `float` is a multiple of the step of every binary exponent that is not
above its own. -/
theorem binary32_multiple (e : Int) (T : ℚ) (hfT : binary32 T = T)
    (he : e ≤ binary32_exponent T) : ∃ k : Int, T = (k : ℚ) * 2 ^ (e - 23) := by
  obtain ⟨n, hn⟩ : ∃ n : Nat, (n : Int) = binary32_exponent T - e :=
    ⟨(binary32_exponent T - e).toNat, by omega⟩
  have h1 : (2 : ℚ) ^ (binary32_exponent T - 23) = (2 : ℚ) ^ n * 2 ^ (e - 23) := by
    rw [← zpow_natCast, ← zpow_add₀ (by norm_num : (2 : ℚ) ≠ 0)]
    congr 1
    omega
  refine ⟨round_half_even (T / 2 ^ (binary32_exponent T - 23)) * 2 ^ n, ?_⟩
  push_cast
  rw [mul_assoc, ← h1]
  exact hfT.symm

/-- The smallest positive `float`, `2^(-149)`, is a `float`. -/
theorem binary32_smallest : binary32 (2 ^ (-149 : Int)) = 2 ^ (-149 : Int) := by
  have he : binary32_exponent (2 ^ (-149 : Int)) = -126 := by
    unfold binary32_exponent
    rw [abs_of_pos (zpow_pos (by norm_num) _)]
    have h := Int.log_zpow (R := ℚ) (by norm_num : 1 < 2) (-149)
    rw [show ((2 : Nat) : ℚ) = 2 by norm_num] at h
    rw [h]
    decide
  unfold binary32
  rw [he, show (-126 - 23 : Int) = -149 by norm_num,
    div_self (ne_of_gt (zpow_pos (by norm_num) _))]
  have h1 := round_half_even_int 1
  rw [show ((1 : Int) : ℚ) = 1 by norm_num] at h1
  rw [h1]
  norm_num

/-- The last segment of a section in `float` arithmetic.  When the `float`
value of the elapsed time `a` of the tick before is below the `float` `T`,
and `T` is below the `float` value of the elapsed time `a + S` of this tick,
for a tick period `S` that is a `float`, the `float` value of the remainder
`T - fl(a)` is positive and at most `S`. -/
theorem binary32_remainder (a S T : ℚ) (ha : 0 < a) (hfS : binary32 S = S)
    (hfT : binary32 T = T) (h1 : binary32 a < T) (h2 : T < binary32 (a + S)) :
    0 < binary32 (T - binary32 a) ∧ binary32 (T - binary32 a) ≤ S := by
  have hF0 : 0 ≤ binary32 a := binary32_nonneg a ha.le
  have hT0 : 0 < T := lt_of_le_of_lt hF0 h1
  have hTb : T < a + S := by
    by_contra hn
    have h := binary32_mono _ _ (not_lt.mp hn)
    rw [hfT] at h
    exact absurd h2 (not_lt.mpr h)
  have hg : (0 : ℚ) < 2 ^ (binary32_exponent a - 23) := zpow_pos (by norm_num) _
  have hh : (0 : ℚ) < 2 ^ (binary32_exponent T - 23) := zpow_pos (by norm_num) _
  -- the exponent of `T` is not below that of `a`
  have hEaT : binary32_exponent a ≤ binary32_exponent T := by
    by_contra hn
    have hlt : binary32_exponent T < binary32_exponent a := not_le.mp hn
    have h3 := binary32_ge_exponent a ha (by
      have := binary32_exponent_min T
      omega)
    have h4 := lt_of_eq_of_lt (abs_of_pos hT0).symm (binary32_exponent_lt T)
    have h5 : (2 : ℚ) ^ (binary32_exponent T + 1) ≤ 2 ^ binary32_exponent a :=
      zpow_le_zpow_right₀ (by norm_num) (by omega)
    linarith
  have hgh : (2 : ℚ) ^ (binary32_exponent a - 23) ≤ 2 ^ (binary32_exponent T - 23) :=
    zpow_le_zpow_right₀ (by norm_num) (by omega)
  -- `T` is at least one step of `a` above the `float` value of `a`
  obtain ⟨kT, hkT⟩ := binary32_multiple (binary32_exponent a) T hfT hEaT
  have hF : binary32 a
      = (round_half_even (a / 2 ^ (binary32_exponent a - 23)) : ℚ)
        * 2 ^ (binary32_exponent a - 23) := rfl
  have hTF : binary32 a + 2 ^ (binary32_exponent a - 23) ≤ T := by
    have hk : round_half_even (a / 2 ^ (binary32_exponent a - 23)) < kT := by
      have h3 : (round_half_even (a / 2 ^ (binary32_exponent a - 23)) : ℚ)
          * 2 ^ (binary32_exponent a - 23) < (kT : ℚ) * 2 ^ (binary32_exponent a - 23) := by
        rw [← hF, ← hkT]
        exact h1
      have h4 := lt_of_mul_lt_mul_right h3 hg.le
      exact_mod_cast h4
    have hk2 : (round_half_even (a / 2 ^ (binary32_exponent a - 23)) : ℚ) + 1 ≤ (kT : ℚ) := by
      have h3 : round_half_even (a / 2 ^ (binary32_exponent a - 23)) + 1 ≤ kT := by omega
      exact_mod_cast h3
    have h5 := mul_le_mul_of_nonneg_right hk2 hg.le
    rw [hF, hkT]
    linarith
  constructor
  · -- the remainder is at least the smallest positive `float`
    have h3 : (2 : ℚ) ^ (-149 : Int) ≤ 2 ^ (binary32_exponent a - 23) :=
      zpow_le_zpow_right₀ (by norm_num) (by
        have := binary32_exponent_min a
        omega)
    have h4 := binary32_mono (2 ^ (-149 : Int)) (T - binary32 a) (by linarith)
    rw [binary32_smallest] at h4
    exact lt_of_lt_of_le (zpow_pos (by norm_num) _) h4
  · -- the remainder is at most one tick period
    have hrem : T - binary32 a ≤ S := by
      by_contra hn
      have hgt : S < T - binary32 a := not_le.mp hn
      -- rounding `a` moved it down, by at most half a step
      have hnear := (round_half_even_near (a / 2 ^ (binary32_exponent a - 23))).2
      have haF : a - 2 ^ (binary32_exponent a - 23) / 2 ≤ binary32 a := by
        have h3 := mul_le_mul_of_nonneg_right hnear hg.le
        rw [sub_mul, div_mul_cancel₀ _ (ne_of_gt hg)] at h3
        rw [hF]
        linarith
      -- so `a + S` is less than half a step of `T` above `T`
      have hb : a + S < T + 2 ^ (binary32_exponent T - 23) / 2 := by linarith
      have hTle : T ≤ a + S := hTb.le
      have hb0 : 0 < a + S := lt_of_lt_of_le hT0 hTle
      have hETb : binary32_exponent T ≤ binary32_exponent (a + S) :=
        binary32_exponent_mono T (a + S) (ne_of_gt hT0) (by
          rw [abs_of_pos hT0, abs_of_pos hb0]
          exact hTle)
      have hKT : T = (round_half_even (T / 2 ^ (binary32_exponent T - 23)) : ℚ)
          * 2 ^ (binary32_exponent T - 23) := hfT.symm
      have hflb : binary32 (a + S) ≤ T := by
        rcases lt_or_eq_of_le hETb with hlt | heq
        · exfalso
          have h3 := le_of_le_of_eq (binary32_exponent_le (a + S) (ne_of_gt hb0) (by
            have := binary32_exponent_min T
            omega)) (abs_of_pos hb0)
          have h4 : (2 : ℚ) ^ (binary32_exponent T + 1) ≤ 2 ^ binary32_exponent (a + S) :=
            zpow_le_zpow_right₀ (by norm_num) (by omega)
          obtain ⟨-, b2⟩ := binary32_binade (binary32_exponent T)
          have h5 := lt_of_eq_of_lt (abs_of_pos hT0).symm (binary32_exponent_lt T)
          have h6 : round_half_even (T / 2 ^ (binary32_exponent T - 23)) < 16777216 := by
            have h7 : (round_half_even (T / 2 ^ (binary32_exponent T - 23)) : ℚ)
                * 2 ^ (binary32_exponent T - 23)
                < ((16777216 : Int) : ℚ) * 2 ^ (binary32_exponent T - 23) := by
              rw [← hKT, b2]
              exact h5
            have h8 := lt_of_mul_lt_mul_right h7 hh.le
            exact_mod_cast h8
          have h9 : (round_half_even (T / 2 ^ (binary32_exponent T - 23)) : ℚ) + 1
              ≤ ((16777216 : Int) : ℚ) := by
            have h10 : round_half_even (T / 2 ^ (binary32_exponent T - 23)) + 1
                ≤ 16777216 := by omega
            exact_mod_cast h10
          have h11 := mul_le_mul_of_nonneg_right h9 hh.le
          rw [b2, add_mul, ← hKT] at h11
          linarith
        · have h3 : (a + S) / 2 ^ (binary32_exponent T - 23)
              < (round_half_even (T / 2 ^ (binary32_exponent T - 23)) : ℚ) + 1 / 2 := by
            rw [div_lt_iff₀ hh, add_mul, ← hKT]
            linarith
          have h4 := (round_half_even_near ((a + S) / 2 ^ (binary32_exponent T - 23))).1
          have h5 : round_half_even ((a + S) / 2 ^ (binary32_exponent T - 23))
              < round_half_even (T / 2 ^ (binary32_exponent T - 23)) + 1 := by
            have h6 : (round_half_even ((a + S) / 2 ^ (binary32_exponent T - 23)) : ℚ)
                < (round_half_even (T / 2 ^ (binary32_exponent T - 23)) : ℚ) + 1 := by
              linarith
            exact_mod_cast h6
          have h7 : (round_half_even ((a + S) / 2 ^ (binary32_exponent T - 23)) : ℚ)
              ≤ (round_half_even (T / 2 ^ (binary32_exponent T - 23)) : ℚ) := by
            have h8 : round_half_even ((a + S) / 2 ^ (binary32_exponent T - 23))
                ≤ round_half_even (T / 2 ^ (binary32_exponent T - 23)) := by omega
            exact_mod_cast h8
          have h9 := mul_le_mul_of_nonneg_right h7 hh.le
          rw [← hKT] at h9
          unfold binary32
          rw [← heq]
          exact h9
      exact absurd h2 (not_lt.mpr hflb)
    have h3 := binary32_mono _ _ hrem
    rw [hfS] at h3
    exact h3
/-! ## The tick time under machine arithmetic: lemmas -/

theorem _line_exec_arith_ticks_succ (E : env AXES SCurve) (A : arith_t) (n : Nat)
    (w : world AXES SCurve) :
    _line_exec_arith_ticks E A (n + 1) w
      = (_line_exec_arith E A (_line_exec_arith_ticks E A n w)).2 := by
  induction n generalizing w with
  | zero => rfl
  | succ n ih =>
    show _line_exec_arith_ticks E A (n + 1) (_line_exec_arith E A w).2 = _
    rw [ih]
    rfl

theorem _line_exec_arith_ticks_add (E : env AXES SCurve) (A : arith_t) (a b : Nat)
    (w : world AXES SCurve) :
    _line_exec_arith_ticks E A (a + b) w
      = _line_exec_arith_ticks E A b (_line_exec_arith_ticks E A a w) := by
  induction a generalizing w with
  | zero =>
    rw [Nat.zero_add]
    rfl
  | succ a ih =>
    rw [Nat.succ_add]
    show _line_exec_arith_ticks E A (a + b) (_line_exec_arith E A w).2 = _
    rw [ih]
    rfl

/-- Function `_line_exec_arith` in terms of the quantities of the tick. -/
theorem _line_exec_arith_eq (E : env AXES SCurve) (A : arith_t) (w : world AXES SCurve) :
    ∃ d v a : ℚ,
    _line_exec_arith E A w =
      if _line_exec_arith_t E A w = w.l.line.time w.l.section_ then
        match _section_next
          (_set_sync_speeds d { w with l := { w.l with seg := A.incr w.l.seg } }) with
        | (true, w1) =>
          exec_segment E
            ⟨_line_exec_arith_seg_time E A w, fun axis => w1.l.line.start axis
                + w1.l.line.unit axis * d, v, a,
              w1.l.line.max_vel, w1.l.line.max_accel, w1.l.line.max_jerk⟩
            { w1 with l := { w1.l with seg := 0, iD := d, iV := v } }
        | (false, w1) =>
          exec_segment E
            ⟨_line_exec_arith_seg_time E A w, w1.l.line.target, w1.l.line.target_vel,
              a, w1.l.line.max_vel, w1.l.line.max_accel, w1.l.line.max_jerk⟩
            (exec_set_cb exec_cb.none w1)
      else
        exec_segment E
          ⟨_line_exec_arith_seg_time E A w,
            fun axis =>
              (_set_sync_speeds d
                { w with l := { w.l with seg := A.incr w.l.seg } }).l.line.start axis
              + (_set_sync_speeds d
                  { w with l := { w.l with seg := A.incr w.l.seg } }).l.line.unit axis * d,
            v, a,
            (_set_sync_speeds d
              { w with l := { w.l with seg := A.incr w.l.seg } }).l.line.max_vel,
            (_set_sync_speeds d
              { w with l := { w.l with seg := A.incr w.l.seg } }).l.line.max_accel,
            (_set_sync_speeds d
              { w with l := { w.l with seg := A.incr w.l.seg } }).l.line.max_jerk⟩
          (_set_sync_speeds d { w with l := { w.l with seg := A.incr w.l.seg } }) :=
  ⟨_, _, _, rfl⟩

/-- The elapsed time of a tick never exceeds the duration of the section,
whatever the arithmetic. -/
theorem _line_exec_arith_t_le (E : env AXES SCurve) (A : arith_t) (w : world AXES SCurve) :
    _line_exec_arith_t E A w ≤ w.l.line.time w.l.section_ := by
  unfold _line_exec_arith_t
  split
  · exact le_refl _
  · rename_i h
    exact not_lt.mp h

/-- A tick whose elapsed time stays below the duration of the section counts
the tick, stays in the section and emits a segment of one tick period. -/
theorem _line_exec_arith_continue (E : env AXES SCurve) (A : arith_t) (w : world AXES SCurve)
    (h : _line_exec_arith_raw_t E A w < w.l.line.time w.l.section_) :
    (_line_exec_arith E A w).2.l.line = w.l.line ∧
    (_line_exec_arith E A w).2.l.section_ = w.l.section_ ∧
    (_line_exec_arith E A w).2.l.seg = A.incr w.l.seg ∧
    (_line_exec_arith E A w).2.cb = w.cb ∧
    segment_times (_line_exec_arith E A w).2.trace
      = segment_times w.trace ++ [A.fl E.SEGMENT_TIME] := by
  have ht : _line_exec_arith_t E A w ≠ w.l.line.time w.l.section_ := by
    unfold _line_exec_arith_t
    rw [if_neg (not_lt.mpr (le_of_lt h))]
    exact ne_of_lt h
  have hst : _line_exec_arith_seg_time E A w = A.fl E.SEGMENT_TIME := by
    unfold _line_exec_arith_seg_time
    rw [if_neg (not_lt.mpr (le_of_lt h))]
  obtain ⟨d, v, a, he⟩ := _line_exec_arith_eq E A w
  obtain ⟨q, sp, tr, hs, htr⟩ := _set_sync_speeds_frame d
    ({ w with l := { w.l with seg := A.incr w.l.seg } } : world AXES SCurve)
  have hsegtr : segment_times tr = [] := by
    rcases htr with h | ⟨speed, h⟩ <;> rw [h] <;> rfl
  rw [he, if_neg ht, hs, hst]
  refine ⟨rfl, rfl, rfl, rfl, ?_⟩
  simp only [exec_segment, segment_times_append, hsegtr, List.append_assoc]
  rfl

/-- A tick whose elapsed time reaches the duration of the section samples at
that duration, emits one segment, and either clears the callback or enters a
later section with the tick count at zero. -/
theorem _line_exec_arith_complete (E : env AXES SCurve) (A : arith_t) (w : world AXES SCurve)
    (h : w.l.line.time w.l.section_ ≤ _line_exec_arith_raw_t E A w) :
    _line_exec_arith_t E A w = w.l.line.time w.l.section_ ∧
    (_line_exec_arith E A w).2.l.line = w.l.line ∧
    segment_times (_line_exec_arith E A w).2.trace
      = segment_times w.trace ++ [_line_exec_arith_seg_time E A w] ∧
    (((_line_exec_arith E A w).2.cb = exec_cb.none ∧
        ∀ r : Int, w.l.section_ < r → r < 7 → w.l.line.time r = 0) ∨
      ((_line_exec_arith E A w).2.cb = w.cb ∧
        w.l.section_ < (_line_exec_arith E A w).2.l.section_ ∧
        (_line_exec_arith E A w).2.l.section_ < 7 ∧
        w.l.line.time (_line_exec_arith E A w).2.l.section_ ≠ 0 ∧
        (_line_exec_arith E A w).2.l.seg = 0)) := by
  have ht : _line_exec_arith_t E A w = w.l.line.time w.l.section_ := by
    unfold _line_exec_arith_t
    split
    · rfl
    · rename_i hn
      exact le_antisymm (not_lt.mp hn) h
  obtain ⟨d, v, a, he⟩ := _line_exec_arith_eq E A w
  obtain ⟨q, sp, tr, hs, htr⟩ := _set_sync_speeds_frame d
    ({ w with l := { w.l with seg := A.incr w.l.seg } } : world AXES SCurve)
  have hsegtr : segment_times tr = [] := by
    rcases htr with h | ⟨speed, h⟩ <;> rw [h] <;> rfl
  refine ⟨ht, ?_⟩
  rw [he, if_pos ht]
  rcases _section_next_cases
    (_set_sync_speeds d { w with l := { w.l with seg := A.incr w.l.seg } })
    with ⟨hz, hn⟩ | ⟨s, hlt, h7, -, hnz, hn⟩
  · rw [hn]
    rw [hs] at hz ⊢
    refine ⟨rfl, ?_, Or.inl ⟨rfl, hz⟩⟩
    simp only [exec_segment, exec_set_cb, segment_times_append, hsegtr, List.append_assoc]
    rfl
  · rw [hn]
    rw [hs] at hlt hnz ⊢
    refine ⟨rfl, ?_, Or.inr ⟨rfl, hlt, h7, hnz, rfl⟩⟩
    simp only [exec_segment, segment_times_append, hsegtr, List.append_assoc]
    rfl

/-- With exact arithmetic and the tick counter an `int` below `INT_MAX`, the
tick of `_line_exec_arith` is the tick of `_line_exec`. -/
theorem _line_exec_arith_exact (E : env AXES SCurve) (A : arith_t) (w : world AXES SCurve)
    (hfl : ∀ x, A.fl x = x) (hmin : -A.INT_MAX - 1 ≤ w.l.seg) (hseg : w.l.seg ≠ A.INT_MAX) :
    _line_exec_arith E A w = _line_exec E w := by
  have hincr : A.incr w.l.seg = w.l.seg + 1 := by
    unfold arith_t.incr
    rw [if_neg hseg]
  have hdecr : A.decr (w.l.seg + 1) = w.l.seg + 1 - 1 := by
    unfold arith_t.decr
    rw [if_neg (by omega)]
  unfold _line_exec_arith _line_exec
  simp only [hfl, hincr, hdecr]

/-- While the rounded elapsed time stays below the duration of the section
and the tick counter does not pass `INT_MAX`, the ticks stay in the section
and each emits a segment of one tick period. -/
theorem _line_exec_arith_prefix (E : env AXES SCurve) (A : arith_t) (w : world AXES SCurve)
    (k : Nat) (hseg : w.l.seg = 0) (hk : (k : Int) ≤ A.INT_MAX)
    (hlt : ∀ j : Nat, 0 < j → j ≤ k →
      A.fl ((j : ℚ) * E.SEGMENT_TIME) < w.l.line.time w.l.section_) :
    (_line_exec_arith_ticks E A k w).l.line = w.l.line ∧
    (_line_exec_arith_ticks E A k w).l.section_ = w.l.section_ ∧
    (_line_exec_arith_ticks E A k w).l.seg = (k : Int) ∧
    (_line_exec_arith_ticks E A k w).cb = w.cb ∧
    segment_times (_line_exec_arith_ticks E A k w).trace
      = segment_times w.trace ++ List.replicate k (A.fl E.SEGMENT_TIME) := by
  induction k with
  | zero =>
    refine ⟨rfl, rfl, ?_, rfl, ?_⟩
    · show w.l.seg = ((0 : Nat) : Int)
      rw [hseg]
      rfl
    · show segment_times w.trace = segment_times w.trace ++ List.replicate 0 _
      simp
  | succ k ih =>
    have hk2 : (k : Int) ≤ A.INT_MAX := by
      push_cast at hk
      omega
    obtain ⟨i1, i2, i3, i4, i5⟩ := ih hk2 (fun j h0 hj => hlt j h0 (Nat.le_succ_of_le hj))
    have hincr : A.incr (_line_exec_arith_ticks E A k w).l.seg = ((k + 1 : Nat) : Int) := by
      unfold arith_t.incr
      rw [i3, if_neg (by push_cast at hk; omega)]
      push_cast
      rfl
    have hraw : _line_exec_arith_raw_t E A (_line_exec_arith_ticks E A k w)
        < (_line_exec_arith_ticks E A k w).l.line.time
            (_line_exec_arith_ticks E A k w).l.section_ := by
      unfold _line_exec_arith_raw_t
      rw [hincr, i1, i2]
      have := hlt (k + 1) (Nat.succ_pos k) (le_refl _)
      exact_mod_cast this
    obtain ⟨c1, c2, c3, c4, c5⟩ :=
      _line_exec_arith_continue E A (_line_exec_arith_ticks E A k w) hraw
    rw [_line_exec_arith_ticks_succ]
    refine ⟨c1.trans i1, c2.trans i2, c3.trans hincr, c4.trans i4, ?_⟩
    rw [c5, i5, List.append_assoc, List.replicate_succ']

/-- A section of duration `T > 0`, entered with the tick count at zero, ends
on some tick `m` that is not later than the tick `n = ceil(T / SEGMENT_TIME)`,
when rounding is monotone, `T` is a `float` and `n` does not exceed
`INT_MAX`: `m` is the first tick whose rounded elapsed time reaches `T`. -/
theorem _line_exec_arith_phase (E : env AXES SCurve) (A : arith_t) (w : world AXES SCurve)
    (hST : 0 < E.SEGMENT_TIME) (hT : 0 < w.l.line.time w.l.section_) (hseg : w.l.seg = 0)
    (hmono : ∀ x y, x ≤ y → A.fl x ≤ A.fl y)
    (hfl : A.fl (w.l.line.time w.l.section_) = w.l.line.time w.l.section_)
    (hint : (_line_exec_tick_count E (w.l.line.time w.l.section_) : Int) ≤ A.INT_MAX) :
    ∃ m : Nat, 0 < m ∧ m ≤ _line_exec_tick_count E (w.l.line.time w.l.section_) ∧
      (∀ j : Nat, j < m →
        (_line_exec_arith_ticks E A j w).l.line = w.l.line ∧
        (_line_exec_arith_ticks E A j w).l.section_ = w.l.section_ ∧
        (_line_exec_arith_ticks E A j w).l.seg = (j : Int) ∧
        (_line_exec_arith_ticks E A j w).cb = w.cb ∧
        segment_times (_line_exec_arith_ticks E A j w).trace
          = segment_times w.trace ++ List.replicate j (A.fl E.SEGMENT_TIME)) ∧
      (∀ j : Nat, 0 < j → j < m →
        A.fl ((j : ℚ) * E.SEGMENT_TIME) < w.l.line.time w.l.section_) ∧
      w.l.line.time w.l.section_ ≤ A.fl ((m : ℚ) * E.SEGMENT_TIME) ∧
      (_line_exec_arith_ticks E A m w).l.line = w.l.line ∧
      segment_times (_line_exec_arith_ticks E A m w).trace
        = segment_times w.trace
          ++ (List.replicate (m - 1) (A.fl E.SEGMENT_TIME)
            ++ [if w.l.line.time w.l.section_ < A.fl ((m : ℚ) * E.SEGMENT_TIME) then
                  A.fl (w.l.line.time w.l.section_
                    - A.fl (((m - 1 : Nat) : ℚ) * E.SEGMENT_TIME))
                else A.fl E.SEGMENT_TIME]) ∧
      (((_line_exec_arith_ticks E A m w).cb = exec_cb.none ∧
          ∀ r : Int, w.l.section_ < r → r < 7 → w.l.line.time r = 0) ∨
        ((_line_exec_arith_ticks E A m w).cb = w.cb ∧
          w.l.section_ < (_line_exec_arith_ticks E A m w).l.section_ ∧
          (_line_exec_arith_ticks E A m w).l.section_ < 7 ∧
          w.l.line.time (_line_exec_arith_ticks E A m w).l.section_ ≠ 0 ∧
          (_line_exec_arith_ticks E A m w).l.seg = 0)) := by
  have hnpos : 0 < _line_exec_tick_count E (w.l.line.time w.l.section_) :=
    Nat.ceil_pos.mpr (div_pos hT hST)
  have hle : w.l.line.time w.l.section_
      ≤ (_line_exec_tick_count E (w.l.line.time w.l.section_) : ℚ) * E.SEGMENT_TIME := by
    unfold _line_exec_tick_count
    exact (div_le_iff₀ hST).mp (Nat.le_ceil _)
  have hex : ∃ j : Nat, 0 < j ∧
      w.l.line.time w.l.section_ ≤ A.fl ((j : ℚ) * E.SEGMENT_TIME) :=
    ⟨_, hnpos, by
      have := hmono _ _ hle
      rw [hfl] at this
      exact this⟩
  have hmpos := (Nat.find_spec hex).1
  have hreach := (Nat.find_spec hex).2
  have hmn : Nat.find hex ≤ _line_exec_tick_count E (w.l.line.time w.l.section_) :=
    Nat.find_min' hex ⟨hnpos, by
      have := hmono _ _ hle
      rw [hfl] at this
      exact this⟩
  have hbefore : ∀ j : Nat, 0 < j → j < Nat.find hex →
      A.fl ((j : ℚ) * E.SEGMENT_TIME) < w.l.line.time w.l.section_ := by
    intro j h0 hj
    have := Nat.find_min hex hj
    rw [not_and] at this
    exact not_le.mp (this h0)
  have hpre : ∀ j : Nat, j < Nat.find hex →
      (_line_exec_arith_ticks E A j w).l.line = w.l.line ∧
      (_line_exec_arith_ticks E A j w).l.section_ = w.l.section_ ∧
      (_line_exec_arith_ticks E A j w).l.seg = (j : Int) ∧
      (_line_exec_arith_ticks E A j w).cb = w.cb ∧
      segment_times (_line_exec_arith_ticks E A j w).trace
        = segment_times w.trace ++ List.replicate j (A.fl E.SEGMENT_TIME) := by
    intro j hj
    exact _line_exec_arith_prefix E A w j hseg (by omega)
      (fun i h0 hi => hbefore i h0 (by omega))
  obtain ⟨p1, p2, p3, p4, p5⟩ := hpre (Nat.find hex - 1) (by omega)
  have hm1 : Nat.find hex - 1 + 1 = Nat.find hex := by omega
  have hincr : A.incr (_line_exec_arith_ticks E A (Nat.find hex - 1) w).l.seg
      = ((Nat.find hex : Nat) : Int) := by
    unfold arith_t.incr
    rw [p3, if_neg (by omega)]
    omega
  have hraw : _line_exec_arith_raw_t E A (_line_exec_arith_ticks E A (Nat.find hex - 1) w)
      = A.fl ((Nat.find hex : ℚ) * E.SEGMENT_TIME) := by
    unfold _line_exec_arith_raw_t
    rw [hincr]
    push_cast
    rfl
  have hst : _line_exec_arith_seg_time E A (_line_exec_arith_ticks E A (Nat.find hex - 1) w)
      = if w.l.line.time w.l.section_ < A.fl ((Nat.find hex : ℚ) * E.SEGMENT_TIME) then
          A.fl (w.l.line.time w.l.section_
            - A.fl (((Nat.find hex - 1 : Nat) : ℚ) * E.SEGMENT_TIME))
        else A.fl E.SEGMENT_TIME := by
    unfold _line_exec_arith_seg_time
    rw [hraw, hincr, p1, p2]
    have e : A.decr ((Nat.find hex : Nat) : Int) = ((Nat.find hex - 1 : Nat) : Int) := by
      unfold arith_t.decr
      rw [if_neg (by omega)]
      omega
    rw [e]
    push_cast
    rfl
  obtain ⟨-, c2, c3, c4⟩ := _line_exec_arith_complete E A
    (_line_exec_arith_ticks E A (Nat.find hex - 1) w) (by rw [hraw, p1, p2]; exact hreach)
  rw [← _line_exec_arith_ticks_succ, hm1] at c2 c3 c4
  refine ⟨Nat.find hex, hmpos, hmn, hpre, hbefore, hreach, c2.trans p1, ?_, ?_⟩
  · rw [c3, p5, hst, List.append_assoc]
  · rw [p1, p2, p4] at c4
    exact c4

/-- A line whose durations are non-negative `float` values, each of which
takes a number of ticks that does not exceed `INT_MAX`, clears its callback
after finitely many ticks, when it is at the start of a section. -/
theorem _line_exec_arith_terminates (E : env AXES SCurve) (A : arith_t)
    (hST : 0 < E.SEGMENT_TIME) (hmono : ∀ x y, x ≤ y → A.fl x ≤ A.fl y) (N : Nat)
    (w : world AXES SCurve) (hcb : w.cb = exec_cb._line_exec) (hseg : w.l.seg = 0)
    (hnz : w.l.line.time w.l.section_ ≠ 0)
    (hnonneg : ∀ i, 0 ≤ w.l.line.times i)
    (hfloat : ∀ i, A.fl (w.l.line.times i) = w.l.line.times i)
    (hfit : ∀ i, (_line_exec_tick_count E (w.l.line.times i) : Int) ≤ A.INT_MAX)
    (hN : (7 - w.l.section_).toNat ≤ N) :
    ∃ m, (_line_exec_arith_ticks E A m w).cb = exec_cb.none ∧
      ∀ j, j < m → (_line_exec_arith_ticks E A j w).cb = exec_cb._line_exec := by
  induction N generalizing w with
  | zero =>
    obtain ⟨m, -, -, hpre, -, -, -, -, hend⟩ := _line_exec_arith_phase E A w hST
      (lt_of_le_of_ne (hnonneg _) (Ne.symm hnz)) hseg hmono (hfloat _) (hfit _)
    rcases hend with ⟨h, -⟩ | ⟨-, h2, h3, -⟩
    · exact ⟨m, h, fun j hj => (hpre j hj).2.2.2.1.trans hcb⟩
    · omega
  | succ N ih =>
    obtain ⟨m, -, -, hpre, -, -, hline, -, hend⟩ := _line_exec_arith_phase E A w hST
      (lt_of_le_of_ne (hnonneg _) (Ne.symm hnz)) hseg hmono (hfloat _) (hfit _)
    rcases hend with ⟨h, -⟩ | ⟨h1, h2, h3, h4, h5⟩
    · exact ⟨m, h, fun j hj => (hpre j hj).2.2.2.1.trans hcb⟩
    · obtain ⟨m2, hnone, hall2⟩ := ih (_line_exec_arith_ticks E A m w) (h1.trans hcb) h5
        (by rw [hline]; exact h4) (by rw [hline]; exact hnonneg)
        (by rw [hline]; exact hfloat) (by rw [hline]; exact hfit) (by omega)
      refine ⟨m + m2, ?_, ?_⟩
      · rw [_line_exec_arith_ticks_add]
        exact hnone
      · intro j hj
        by_cases hjm : j < m
        · exact (hpre j hjm).2.2.2.1.trans hcb
        · have e : j = m + (j - m) := by omega
          rw [e, _line_exec_arith_ticks_add]
          exact hall2 (j - m) (by omega)

/-! ## The tick time under machine arithmetic: the claim -/

/-- The last segment of a section that ends on the tick `m`, in the
arithmetic of the AVR: its duration is positive and at most one tick
period. -/
theorem _line_exec_arith_last (S T : ℚ) (m : Nat) (hS : 0 < S) (hT : 0 < T) (hm : 0 < m)
    (hfS : binary32 S = S) (hfT : binary32 T = T)
    (hbefore : ∀ j : Nat, 0 < j → j < m → binary32 ((j : ℚ) * S) < T) :
    0 < (if T < binary32 ((m : ℚ) * S) then
          binary32 (T - binary32 (((m - 1 : Nat) : ℚ) * S))
        else binary32 S) ∧
    (if T < binary32 ((m : ℚ) * S) then
          binary32 (T - binary32 (((m - 1 : Nat) : ℚ) * S))
        else binary32 S) ≤ S := by
  split
  · rename_i hlt
    rcases Nat.eq_or_lt_of_le (Nat.succ_le_of_lt hm) with h1 | h1
    · have hm1 : m = 1 := h1.symm
      subst hm1
      have h0 : binary32 (((1 - 1 : Nat) : ℚ) * S) = 0 := by
        rw [show (((1 - 1 : Nat) : ℚ) * S) = ((0 : Int) : ℚ) by simp]
        rw [binary32_int 0 (by decide)]
        simp
      rw [h0, sub_zero, hfT]
      rw [show (((1 : Nat) : ℚ) * S) = S by simp, hfS] at hlt
      exact ⟨hT, hlt.le⟩
    · have hcast : (m : ℚ) * S = ((m - 1 : Nat) : ℚ) * S + S := by
        rw [Nat.cast_sub hm]
        simp only [Nat.cast_one]
        ring
      have ha : 0 < ((m - 1 : Nat) : ℚ) * S := by
        have h2 : (0 : ℚ) < ((m - 1 : Nat) : ℚ) := by
          exact_mod_cast (by omega : 0 < m - 1)
        exact mul_pos h2 hS
      rw [hcast] at hlt
      exact binary32_remainder _ S T ha hfS hfT (hbefore (m - 1) (by omega) (by omega)) hlt
  · rw [hfS]
    exact ⟨hS, le_refl _⟩

/-- C21, as amended: in the arithmetic of the AVR (binary32 `float`, 16-bit
`int`), the elapsed time used for sampling never exceeds the duration `T` of
the section.  A section with `T > 0` that is entered with the tick count at
zero, with a tick period `SEGMENT_TIME > 0` and `n = ceil(T / SEGMENT_TIME)`
not above 32767, ends on a tick `m` with `0 < m ≤ n`, the first one whose
`float` elapsed time `m * SEGMENT_TIME` reaches `T`: before it the ticks stay
in the section and count up from zero, the segments emitted are `m - 1` of
one tick period and a last one of a duration `d` in `(0, SEGMENT_TIME]`, and
the tick `m` clears the callback or enters a later section.  When the
products `j * SEGMENT_TIME` up to `j = n` and the remainder
`T - (n - 1) * SEGMENT_TIME` are `float` values, so that no result is
rounded, `m = n` and the durations sum to `T`.  A line that
`command_line_exec` starts, none of whose durations takes more than 32767
ticks, clears its callback after finitely many ticks.  With exact results
and the tick count an `int` below `INT_MAX`, the tick is that of
`_line_exec`. -/
theorem _line_exec_arith_tick_timing (E : env AXES SCurve) (w : world AXES SCurve)
    (data : line_t AXES) (w1 : world AXES SCurve)
    (hST : 0 < E.SEGMENT_TIME) (hT : 0 < w.l.line.time w.l.section_) (hseg : w.l.seg = 0)
    (hfST : binary32 E.SEGMENT_TIME = E.SEGMENT_TIME)
    (hfT : binary32 (w.l.line.time w.l.section_) = w.l.line.time w.l.section_)
    (hint : _line_exec_tick_count E (w.l.line.time w.l.section_) ≤ 32767) :
    (∀ w2 : world AXES SCurve,
      _line_exec_arith_t E arith_avr w2 ≤ w2.l.line.time w2.l.section_) ∧
    (∃ (m : Nat) (d : ℚ),
      0 < m ∧ m ≤ _line_exec_tick_count E (w.l.line.time w.l.section_) ∧
      (∀ j : Nat, j < m →
        (_line_exec_arith_ticks E arith_avr j w).l.line = w.l.line ∧
        (_line_exec_arith_ticks E arith_avr j w).l.section_ = w.l.section_ ∧
        (_line_exec_arith_ticks E arith_avr j w).l.seg = (j : Int) ∧
        (_line_exec_arith_ticks E arith_avr j w).cb = w.cb) ∧
      (∀ j : Nat, 0 < j → j < m →
        binary32 ((j : ℚ) * E.SEGMENT_TIME) < w.l.line.time w.l.section_) ∧
      w.l.line.time w.l.section_ ≤ binary32 ((m : ℚ) * E.SEGMENT_TIME) ∧
      segment_times (_line_exec_arith_ticks E arith_avr m w).trace
        = segment_times w.trace ++ (List.replicate (m - 1) E.SEGMENT_TIME ++ [d]) ∧
      0 < d ∧ d ≤ E.SEGMENT_TIME ∧
      ((_line_exec_arith_ticks E arith_avr m w).cb = exec_cb.none ∨
        w.l.section_ < (_line_exec_arith_ticks E arith_avr m w).l.section_) ∧
      ((∀ j : Nat, j ≤ _line_exec_tick_count E (w.l.line.time w.l.section_) →
          binary32 ((j : ℚ) * E.SEGMENT_TIME) = (j : ℚ) * E.SEGMENT_TIME) →
        binary32 (w.l.line.time w.l.section_
            - ((_line_exec_tick_count E (w.l.line.time w.l.section_) - 1 : Nat) : ℚ)
              * E.SEGMENT_TIME)
          = w.l.line.time w.l.section_
            - ((_line_exec_tick_count E (w.l.line.time w.l.section_) - 1 : Nat) : ℚ)
              * E.SEGMENT_TIME →
        m = _line_exec_tick_count E (w.l.line.time w.l.section_) ∧
        (List.replicate (m - 1) E.SEGMENT_TIME ++ [d]).sum = w.l.line.time w.l.section_)) ∧
    (w1.cb = exec_cb.none → (∀ i, 0 ≤ data.times i) →
      (∀ i, binary32 (data.times i) = data.times i) →
      (∀ i, _line_exec_tick_count E (data.times i) ≤ 32767) →
      ∃ m, (_line_exec_arith_ticks E arith_avr m (command_line_exec data w1)).cb
          = exec_cb.none ∧
        ∀ j, j < m →
          (_line_exec_arith_ticks E arith_avr j (command_line_exec data w1)).cb
            = exec_cb._line_exec) ∧
    (∀ (A : arith_t) (w2 : world AXES SCurve), (∀ x, A.fl x = x) →
      -A.INT_MAX - 1 ≤ w2.l.seg → w2.l.seg ≠ A.INT_MAX →
      _line_exec_arith E A w2 = _line_exec E w2) := by
  have hmono : ∀ x y, x ≤ y → arith_avr.fl x ≤ arith_avr.fl y := binary32_mono
  refine ⟨_line_exec_arith_t_le E arith_avr, ?_, fun h1 hnonneg hfloat hfit => ?_,
    fun A w2 hx hmin hs => _line_exec_arith_exact E A w2 hx hmin hs⟩
  · obtain ⟨m, hm0, hmn, hpre, hbefore, hreach, -, hseg2, hend⟩ :=
      _line_exec_arith_phase E arith_avr w hST hT hseg hmono hfT (by
        show (_line_exec_tick_count E (w.l.line.time w.l.section_) : Int) ≤ 32767
        exact_mod_cast hint)
    have hbefore2 : ∀ j : Nat, 0 < j → j < m →
        binary32 ((j : ℚ) * E.SEGMENT_TIME) < w.l.line.time w.l.section_ := hbefore
    have hreach2 : w.l.line.time w.l.section_ ≤ binary32 ((m : ℚ) * E.SEGMENT_TIME) := hreach
    have hseg3 : segment_times (_line_exec_arith_ticks E arith_avr m w).trace
        = segment_times w.trace
          ++ (List.replicate (m - 1) (binary32 E.SEGMENT_TIME)
            ++ [if w.l.line.time w.l.section_ < binary32 ((m : ℚ) * E.SEGMENT_TIME) then
                  binary32 (w.l.line.time w.l.section_
                    - binary32 (((m - 1 : Nat) : ℚ) * E.SEGMENT_TIME))
                else binary32 E.SEGMENT_TIME]) := hseg2
    obtain ⟨hd0, hd1⟩ := _line_exec_arith_last E.SEGMENT_TIME (w.l.line.time w.l.section_) m
      hST hT hm0 hfST hfT hbefore2
    rw [hfST] at hseg3 hd0 hd1
    refine ⟨m, _, hm0, hmn, fun j hj => ?_, hbefore2, hreach2, hseg3, hd0, hd1, ?_,
      fun hprod hrem => ?_⟩
    · obtain ⟨p1, p2, p3, p4, -⟩ := hpre j hj
      exact ⟨p1, p2, p3, p4⟩
    · rcases hend with ⟨h, -⟩ | ⟨-, h, -⟩
      · exact Or.inl h
      · exact Or.inr h
    · have hlt : ∀ j : Nat, j < _line_exec_tick_count E (w.l.line.time w.l.section_) →
          (j : ℚ) * E.SEGMENT_TIME < w.l.line.time w.l.section_ := by
        intro j hj
        unfold _line_exec_tick_count at hj
        rw [Nat.lt_ceil] at hj
        exact (lt_div_iff₀ hST).mp hj
      have hmeq : m = _line_exec_tick_count E (w.l.line.time w.l.section_) := by
        by_contra hne
        have h := hlt m (by omega)
        rw [hprod m hmn] at hreach2
        exact absurd h (not_lt.mpr hreach2)
      refine ⟨hmeq, ?_⟩
      rw [← hmeq] at hrem
      have hcast : ((m - 1 : Nat) : ℚ) = (m : ℚ) - 1 := by
        rw [Nat.cast_sub hm0]
        simp
      have hlast : (if w.l.line.time w.l.section_ < binary32 ((m : ℚ) * E.SEGMENT_TIME) then
            binary32 (w.l.line.time w.l.section_
              - binary32 (((m - 1 : Nat) : ℚ) * E.SEGMENT_TIME))
          else E.SEGMENT_TIME)
          = w.l.line.time w.l.section_ - ((m - 1 : Nat) : ℚ) * E.SEGMENT_TIME := by
        rw [hprod (m - 1) (by omega), hrem]
        split
        · rfl
        · rename_i hn
          have he : w.l.line.time w.l.section_ = binary32 ((m : ℚ) * E.SEGMENT_TIME) :=
            le_antisymm hreach2 (not_lt.mp hn)
          rw [hprod m hmn] at he
          rw [he, hcast]
          ring
      rw [hlast, List.sum_append, List.sum_replicate, nsmul_eq_mul]
      simp
  · by_cases hcb : (command_line_exec data w1).cb = exec_cb._line_exec
    · obtain ⟨f1, f2, -⟩ := command_line_exec_fields data w1
      have hent := command_line_exec_ready data w1 (by rw [h1]; decide) hcb
      exact _line_exec_arith_terminates E arith_avr hST hmono _ _ hcb f2 hent.2.2.1
        (by rw [f1]; exact hnonneg) (by rw [f1]; exact hfloat)
        (by
          rw [f1]
          intro i
          show (_line_exec_tick_count E (data.times i) : Int) ≤ 32767
          exact_mod_cast hfit i)
        (le_refl _)
    · refine ⟨0, ?_, fun j hj => absurd hj (Nat.not_lt_zero j)⟩
      show (command_line_exec data w1).cb = exec_cb.none
      rcases line_t.first_nonzero data (-1) with hz | ⟨s, hs, h7, hz, hnz⟩
      · have hall : ∀ i, data.times i = 0 := by
          intro i
          rw [← line_t.time_ofNat]
          exact hz _ (by omega) (by omega)
        rw [command_line_exec_all_zero data w1 hall]
        exact h1
      · exact absurd (command_line_exec_entered data w1 s hs h7 hz hnz).1 hcb

/-- C21, as amended, on two sample runs in the arithmetic of the AVR.  With a
tick period of `0.1f` and a section of duration `0.3f`, for which
`ceil(T / SEGMENT_TIME)` is 4, the section ends on a tick that is not later
than the fourth, with a last segment of a duration in `(0, 0.1f]`, and the
line of that single section clears its callback.  With a tick period of 1
and a section of duration 3, where no result is rounded, the section ends on
the third tick and the durations sum to 3. -/
theorem _line_exec_arith_tick_timing_witness :
    (∃ (m : Nat) (d : ℚ), 0 < m ∧ m ≤ 4 ∧ 0 < d ∧ d ≤ 13421773 / 134217728 ∧
      segment_times (_line_exec_arith_ticks sample_env_float arith_avr m
          sample_world_float).trace
        = List.replicate (m - 1) (13421773 / 134217728) ++ [d] ∧
      ((_line_exec_arith_ticks sample_env_float arith_avr m sample_world_float).cb
          = exec_cb.none ∨
        0 < (_line_exec_arith_ticks sample_env_float arith_avr m
          sample_world_float).l.section_)) ∧
    (∃ m : Nat, (_line_exec_arith_ticks sample_env_float arith_avr m
        (command_line_exec sample_record_float sample_world)).cb = exec_cb.none) ∧
    (∃ d : ℚ,
      segment_times (_line_exec_arith_ticks sample_env arith_avr 3
          (sample_world_long 2)).trace = [1, 1, d] ∧
      ([1, 1, d] : List ℚ).sum = 3) := by
  have hTf : sample_world_float.l.line.time sample_world_float.l.section_
      = 5033165 / 16777216 := rfl
  have hnf : _line_exec_tick_count sample_env_float (5033165 / 16777216) = 4 := by
    unfold _line_exec_tick_count
    rw [Nat.ceil_eq_iff (by decide)]
    show ((4 - 1 : Nat) : ℚ) < 5033165 / 16777216 / (13421773 / 134217728) ∧
      (5033165 / 16777216 / (13421773 / 134217728) : ℚ) ≤ ((4 : Nat) : ℚ)
    norm_num
  have hn0 : _line_exec_tick_count sample_env_float 0 = 0 := by
    unfold _line_exec_tick_count
    simp
  have hz : binary32 0 = 0 := by
    have h := binary32_int 0 (by decide)
    simpa using h
  have htimes : ∀ i, sample_record_float.times i = 5033165 / 16777216 ∨
      sample_record_float.times i = 0 := by
    intro i
    fin_cases i <;> first | exact Or.inl rfl | exact Or.inr rfl
  have hTl : (sample_world_long 2).l.line.time (sample_world_long 2).l.section_ = 3 := by
    show ((2 : Nat) : ℚ) + 1 = 3
    norm_num
  have hnl : _line_exec_tick_count sample_env 3 = 3 := by
    unfold _line_exec_tick_count
    rw [Nat.ceil_eq_iff (by decide)]
    show ((3 - 1 : Nat) : ℚ) < 3 / 1 ∧ (3 / 1 : ℚ) ≤ ((3 : Nat) : ℚ)
    norm_num
  have hnat : ∀ j : Nat, j ≤ 3 → binary32 ((j : ℚ) * 1) = (j : ℚ) * 1 := by
    intro j hj
    have h := binary32_int (j : Int) (by
      rw [abs_lt]
      constructor <;> omega)
    rw [mul_one]
    exact_mod_cast h
  obtain ⟨-, ⟨m, d, hm0, hmn, -, -, -, htr, hd0, hd1, hend, -⟩, hterm, -⟩ :=
    _line_exec_arith_tick_timing sample_env_float sample_world_float sample_record_float
      sample_world
      (by
        show (0 : ℚ) < 13421773 / 134217728
        norm_num)
      (by
        rw [hTf]
        norm_num)
      rfl binary32_tenths.1
      (by
        rw [hTf]
        exact binary32_three_tenths)
      (by
        rw [hTf, hnf]
        decide)
  obtain ⟨-, ⟨k, e, -, -, -, -, -, htr2, -, -, -, hexact⟩, -, -⟩ :=
    _line_exec_arith_tick_timing sample_env (sample_world_long 2) sample_record_float
      sample_world
      (by
        show (0 : ℚ) < 1
        norm_num)
      (by
        rw [hTl]
        norm_num)
      rfl
      (by
        have h := hnat 1 (by decide)
        simpa using h)
      (by
        rw [hTl]
        have h := hnat 3 (by decide)
        simpa using h)
      (by
        rw [hTl, hnl]
        decide)
  rw [hTf, hnf] at hmn
  rw [hTl, hnl] at hexact
  obtain ⟨hk, hsum⟩ := hexact hnat (by
    have h := hnat 1 (by decide)
    show binary32 (3 - ((3 - 1 : Nat) : ℚ) * 1) = 3 - ((3 - 1 : Nat) : ℚ) * 1
    rw [show (3 - ((3 - 1 : Nat) : ℚ) * 1) = ((1 : Nat) : ℚ) * 1 by norm_num]
    exact h)
  subst hk
  refine ⟨⟨m, d, hm0, hmn, hd0, hd1, htr, hend⟩, ?_, ⟨e, htr2, hsum⟩⟩
  obtain ⟨mt, hmt, -⟩ := hterm rfl
    (by
      intro i
      rcases htimes i with h | h
      · rw [h]
        norm_num
      · rw [h])
    (by
      intro i
      rcases htimes i with h | h <;> rw [h]
      · exact binary32_three_tenths
      · exact hz)
    (by
      intro i
      rcases htimes i with h | h <;> rw [h]
      · rw [hnf]
        decide
      · rw [hn0]
        decide)
  exact ⟨mt, hmt⟩

/-- With a wrapping tick counter that reaches up to `M`, and an arithmetic
under which the `float` value of an `int` stays at most `M`, a section of
`M + 1` tick periods of 1 never ends: the counter stays within
`-M - 1 .. M`. -/
theorem sample_world_long_ticks (A : arith_t) (M m : Nat) (hM : A.INT_MAX = (M : Int))
    (hfl : ∀ i : Int, -(M : Int) - 1 ≤ i → i ≤ (M : Int) →
      A.fl ((i : ℚ) * 1) < (M : ℚ) + 1) :
    (_line_exec_arith_ticks sample_env A m (sample_world_long M)).cb
      = exec_cb._line_exec ∧
    (_line_exec_arith_ticks sample_env A m (sample_world_long M)).l.line
      = (sample_world_long M).l.line ∧
    (_line_exec_arith_ticks sample_env A m (sample_world_long M)).l.section_
      = 0 ∧
    -(M : Int) - 1
      ≤ (_line_exec_arith_ticks sample_env A m (sample_world_long M)).l.seg ∧
    (_line_exec_arith_ticks sample_env A m (sample_world_long M)).l.seg
      ≤ (M : Int) := by
  induction m with
  | zero =>
    refine ⟨rfl, rfl, rfl, ?_, ?_⟩
    · show -(M : Int) - 1 ≤ 0
      omega
    · show (0 : Int) ≤ (M : Int)
      omega
  | succ m ih =>
    obtain ⟨i1, i2, i3, i4, i5⟩ := ih
    have hT : (sample_world_long M).l.line.time 0 = (M : ℚ) + 1 := rfl
    have hincr : -(M : Int) - 1
        ≤ A.incr (_line_exec_arith_ticks sample_env A m (sample_world_long M)).l.seg ∧
        A.incr (_line_exec_arith_ticks sample_env A m (sample_world_long M)).l.seg
          ≤ (M : Int) := by
      unfold arith_t.incr
      rw [hM]
      split
      · constructor <;> omega
      · constructor <;> omega
    have hraw : _line_exec_arith_raw_t sample_env A
          (_line_exec_arith_ticks sample_env A m (sample_world_long M))
        < (_line_exec_arith_ticks sample_env A m (sample_world_long M)).l.line.time
            (_line_exec_arith_ticks sample_env A m (sample_world_long M)).l.section_ := by
      rw [i2, i3, hT]
      exact hfl _ hincr.1 hincr.2
    obtain ⟨c1, c2, c3, c4, -⟩ := _line_exec_arith_continue sample_env A _ hraw
    rw [_line_exec_arith_ticks_succ]
    refine ⟨c4.trans i1, c1.trans i2, c2.trans i3, ?_, ?_⟩
    · rw [c3]
      exact hincr.1
    · rw [c3]
      exact hincr.2

/-- C21, the counterexample.  With binary32 arithmetic, a tick period of
`0.1f` and a section of duration `T = 0.3f`, the exact quotient
`T / SEGMENT_TIME` is above 3, so that `ceil(T / SEGMENT_TIME)` is 4; but the
`float` value of `3 * SEGMENT_TIME` is `T`, so the section ends on the third
tick, after three segments of `0.1f`, whose sum is not `T`.  And with a
wrapping tick counter that reaches up to `M`, a section of `M + 1` tick
periods never ends, even in exact arithmetic: the callback is still
registered after any number of ticks.  So it is with the 16-bit `int` and the
binary32 arithmetic of the AVR for a section of 32768 tick periods. -/
theorem _line_exec_arith_early_or_never :
    sample_env_float.SEGMENT_TIME = 13421773 / 134217728 ∧
    sample_world_float.l.line.time sample_world_float.l.section_ = 5033165 / 16777216 ∧
    _line_exec_tick_count sample_env_float (5033165 / 16777216) = 4 ∧
    (_line_exec_arith_ticks sample_env_float arith_avr 2 sample_world_float).cb
      = exec_cb._line_exec ∧
    (_line_exec_arith_ticks sample_env_float arith_avr 3 sample_world_float).cb
      = exec_cb.none ∧
    segment_times (_line_exec_arith_ticks sample_env_float arith_avr 3 sample_world_float).trace
      = [13421773 / 134217728, 13421773 / 134217728, 13421773 / 134217728] ∧
    ([13421773 / 134217728, 13421773 / 134217728, 13421773 / 134217728] : List ℚ).sum
      ≠ 5033165 / 16777216 ∧
    (∀ M m : Nat,
      (_line_exec_arith_ticks sample_env (arith_exact M) m (sample_world_long M)).cb
        = exec_cb._line_exec) ∧
    (∀ m : Nat,
      (_line_exec_arith_ticks sample_env arith_avr m (sample_world_long 32767)).cb
        = exec_cb._line_exec) := by
  obtain ⟨b1, b2, b3, b4⟩ := binary32_tenths
  have hT : sample_world_float.l.line.time sample_world_float.l.section_
      = 5033165 / 16777216 := rfl
  have hn : _line_exec_tick_count sample_env_float (5033165 / 16777216) = 4 := by
    unfold _line_exec_tick_count
    rw [Nat.ceil_eq_iff (by decide)]
    show ((4 - 1 : Nat) : ℚ) < 5033165 / 16777216 / (13421773 / 134217728) ∧
      (5033165 / 16777216 / (13421773 / 134217728) : ℚ) ≤ ((4 : Nat) : ℚ)
    norm_num
  obtain ⟨p1, p2, p3, p4, p5⟩ := _line_exec_arith_prefix sample_env_float arith_avr
    sample_world_float 2 rfl (by decide)
    (by
      intro j h0 hj
      rw [hT]
      have hj2 : j = 1 ∨ j = 2 := by omega
      rcases hj2 with h | h
      · subst h
        show binary32 (((1 : Nat) : ℚ) * (13421773 / 134217728)) < 5033165 / 16777216
        rw [show (((1 : Nat) : ℚ) * (13421773 / 134217728)) = 13421773 / 134217728 by
          norm_num, b1]
        norm_num
      · subst h
        show binary32 (((2 : Nat) : ℚ) * (13421773 / 134217728)) < 5033165 / 16777216
        rw [show (((2 : Nat) : ℚ) * (13421773 / 134217728))
          = 2 * (13421773 / 134217728) by norm_num, b2]
        norm_num)
  have hincr : arith_avr.incr
      (_line_exec_arith_ticks sample_env_float arith_avr 2 sample_world_float).l.seg = 3 := by
    rw [p3]
    decide
  have hraw : _line_exec_arith_raw_t sample_env_float arith_avr
      (_line_exec_arith_ticks sample_env_float arith_avr 2 sample_world_float)
      = 5033165 / 16777216 := by
    unfold _line_exec_arith_raw_t
    rw [hincr]
    show binary32 (((3 : Int) : ℚ) * (13421773 / 134217728)) = 5033165 / 16777216
    rw [show (((3 : Int) : ℚ) * (13421773 / 134217728))
      = 3 * (13421773 / 134217728) by norm_num, b3]
  have hTk : (_line_exec_arith_ticks sample_env_float arith_avr 2 sample_world_float).l.line.time
      (_line_exec_arith_ticks sample_env_float arith_avr 2 sample_world_float).l.section_
      = 5033165 / 16777216 := by
    rw [p1, p2, hT]
  have hst : _line_exec_arith_seg_time sample_env_float arith_avr
      (_line_exec_arith_ticks sample_env_float arith_avr 2 sample_world_float)
      = 13421773 / 134217728 := by
    unfold _line_exec_arith_seg_time
    rw [hraw, hTk, if_neg (lt_irrefl _)]
    exact b1
  obtain ⟨-, -, c3, c4⟩ := _line_exec_arith_complete sample_env_float arith_avr
    (_line_exec_arith_ticks sample_env_float arith_avr 2 sample_world_float)
    (by rw [hraw, hTk])
  rw [← _line_exec_arith_ticks_succ, show (2 + 1 : Nat) = 3 from rfl] at c3 c4
  have hexact : ∀ M m : Nat,
      (_line_exec_arith_ticks sample_env (arith_exact M) m (sample_world_long M)).cb
        = exec_cb._line_exec := by
    intro M m
    refine (sample_world_long_ticks (arith_exact M) M m rfl ?_).1
    intro i _ h2
    show (i : ℚ) * 1 < (M : ℚ) + 1
    have h3 : (i : ℚ) ≤ (M : ℚ) := by
      exact_mod_cast h2
    linarith
  have havr : ∀ m : Nat,
      (_line_exec_arith_ticks sample_env arith_avr m (sample_world_long 32767)).cb
        = exec_cb._line_exec := by
    intro m
    refine (sample_world_long_ticks arith_avr 32767 m rfl ?_).1
    intro i h1 h2
    show binary32 ((i : ℚ) * 1) < ((32767 : Nat) : ℚ) + 1
    rw [mul_one, binary32_int i (by
      rw [abs_lt]
      constructor <;> omega)]
    have h3 : (i : ℚ) ≤ ((32767 : Nat) : ℚ) := by
      exact_mod_cast h2
    linarith
  refine ⟨rfl, hT, hn, p4, ?_, ?_, by norm_num, hexact, havr⟩
  · rcases c4 with ⟨h, -⟩ | ⟨-, hlt, h7, hnz, -⟩
    · exact h
    · exfalso
      rw [p1] at hnz
      rw [p2] at hlt
      have hs : (_line_exec_arith_ticks sample_env_float arith_avr 3
          sample_world_float).l.section_ = 1 ∨
          (_line_exec_arith_ticks sample_env_float arith_avr 3
            sample_world_float).l.section_ = 2 ∨
          (_line_exec_arith_ticks sample_env_float arith_avr 3
            sample_world_float).l.section_ = 3 ∨
          (_line_exec_arith_ticks sample_env_float arith_avr 3
            sample_world_float).l.section_ = 4 ∨
          (_line_exec_arith_ticks sample_env_float arith_avr 3
            sample_world_float).l.section_ = 5 ∨
          (_line_exec_arith_ticks sample_env_float arith_avr 3
            sample_world_float).l.section_ = 6 := by
        have h0 : (0 : Int) < (_line_exec_arith_ticks sample_env_float arith_avr 3
            sample_world_float).l.section_ := hlt
        omega
      rcases hs with h | h | h | h | h | h <;> rw [h] at hnz <;> exact hnz rfl
  · rw [c3, p5, hst]
    show ([] : List ℚ) ++ List.replicate 2 (binary32 (13421773 / 134217728))
      ++ [13421773 / 134217728] = _
    rw [b1]
    rfl

/-! ## Synchronized speeds: coalescing -/

/-- With nothing pending and a synchronized speed at the head of the queue,
the load step takes it from the queue. -/
theorem _set_sync_speeds_load_sync (w : world AXES SCurve) (s : speed_t)
    (tl : List (command_t AXES)) (hoff : w.l.speed.offset < 0)
    (hq : w.queue = command_t.COMMAND_sync_speed s :: tl) :
    _set_sync_speeds_load w = { w with queue := tl, l := { w.l with speed := s } } := by
  unfold _set_sync_speeds_load
  rw [if_pos hoff]
  simp only [hq, command_next, List.tail_cons]

/-- The load step leaves the world as it is, or takes the synchronized
speed at the head of the queue when nothing is pending. -/
theorem _set_sync_speeds_load_cases (w : world AXES SCurve) :
    _set_sync_speeds_load w = w ∨
    (w.l.speed.offset < 0 ∧ ∃ s tl, w.queue = command_t.COMMAND_sync_speed s :: tl ∧
      _set_sync_speeds_load w = { w with queue := tl, l := { w.l with speed := s } }) := by
  by_cases hoff : w.l.speed.offset < 0
  · rcases hq : w.queue with _ | ⟨c, tl⟩
    · left
      unfold _set_sync_speeds_load
      rw [if_pos hoff]
      simp only [hq]
    · cases c with
      | COMMAND_sync_speed s =>
        exact Or.inr ⟨hoff, s, tl, rfl, _set_sync_speeds_load_sync w s tl hoff hq⟩
      | COMMAND_line line =>
        left
        unfold _set_sync_speeds_load
        rw [if_pos hoff]
        simp only [hq]
      | COMMAND_other code =>
        left
        unfold _set_sync_speeds_load
        rw [if_pos hoff]
        simp only [hq]
  · left
    unfold _set_sync_speeds_load
    rw [if_neg hoff]

/-- With nothing pending, the loop takes a run of ready synchronized speeds
from the head of the queue and keeps the speed of the last one. -/
theorem _set_sync_speeds_loop_consume (d : ℚ) (ss : List speed_t) (last : speed_t)
    (rest : List (command_t AXES)) (w : world AXES SCurve) (speed : ℚ)
    (hoff : w.l.speed.offset < 0)
    (hq : w.queue = (ss ++ [last]).map command_t.COMMAND_sync_speed ++ rest)
    (hready : ∀ s ∈ ss ++ [last], 0 ≤ s.offset ∧ s.offset ≤ d) :
    _set_sync_speeds_loop d w speed
      = _set_sync_speeds_loop d
          { w with queue := rest, l := { w.l with speed := { last with offset := -1 } } }
          last.speed := by
  induction ss generalizing w speed with
  | nil =>
    have hl := _set_sync_speeds_load_sync w last rest hoff (by simpa using hq)
    have hr := hready last (by simp)
    rw [_set_sync_speeds_loop_step d w speed (by rw [hl]; exact hr.1) (by rw [hl]; exact hr.2),
      hl]
    rfl
  | cons s ss ih =>
    have hl := _set_sync_speeds_load_sync w s
      ((ss ++ [last]).map command_t.COMMAND_sync_speed ++ rest) hoff (by simpa using hq)
    have hr := hready s (by simp)
    rw [_set_sync_speeds_loop_step d w speed (by rw [hl]; exact hr.1) (by rw [hl]; exact hr.2),
      hl]
    have hneg : (-1 : ℚ) < 0 := by norm_num
    rw [ih (_set_sync_speeds_done
        { w with queue := (ss ++ [last]).map command_t.COMMAND_sync_speed ++ rest,
                 l := { w.l with speed := s } }) s.speed hneg rfl
      (fun x hx => hready x (List.mem_cons_of_mem s hx))]
    rfl

/-- The speed that the loop returns is the one it was given or the speed of a
ready event: the pending one or one in the queue. -/
theorem _set_sync_speeds_loop_ready (d : ℚ) (w : world AXES SCurve) (speed : ℚ) :
    (_set_sync_speeds_loop d w speed).1 = speed ∨
    (0 ≤ w.l.speed.offset ∧ w.l.speed.offset ≤ d ∧
      (_set_sync_speeds_loop d w speed).1 = w.l.speed.speed) ∨
    ∃ s, command_t.COMMAND_sync_speed s ∈ w.queue ∧ 0 ≤ s.offset ∧ s.offset ≤ d ∧
      (_set_sync_speeds_loop d w speed).1 = s.speed := by
  induction w, speed using _set_sync_speeds_loop.induct d with
  | case1 w speed w1 hbrk =>
    rw [_set_sync_speeds_loop]
    simp only [w1] at hbrk
    simp only [hbrk, if_true]
    exact Or.inl trivial
  | case2 w speed w1 hbrk ih =>
    rw [_set_sync_speeds_loop]
    simp only [w1] at hbrk ih
    simp only [hbrk, if_false]
    rw [not_or, not_lt, not_lt] at hbrk
    rcases _set_sync_speeds_load_cases w with hl | ⟨hoff, s, tl, hq, hl⟩
    · rw [hl] at hbrk ih ⊢
      rcases ih with h | ⟨h0, -⟩ | ⟨s, hs, h0, hd, h⟩
      · exact Or.inr (Or.inl ⟨hbrk.1, hbrk.2, h⟩)
      · exact absurd h0 (by norm_num)
      · exact Or.inr (Or.inr ⟨s, hs, h0, hd, h⟩)
    · rw [hl] at hbrk ih ⊢
      rcases ih with h | ⟨h0, -⟩ | ⟨s2, hs, h0, hd, h⟩
      · refine Or.inr (Or.inr ⟨s, ?_, hbrk.1, hbrk.2, h⟩)
        rw [hq]
        exact List.mem_cons_self _ _
      · exact absurd h0 (by norm_num)
      · refine Or.inr (Or.inr ⟨s2, ?_, h0, hd, h⟩)
        rw [hq]
        exact List.mem_cons_of_mem _ hs

/-- The loop of `_set_sync_speeds` on a run of ready synchronized speeds at
the head of the queue, with no event pending that is not ready: it returns the
speed of the last one and leaves none of them in the queue. -/
theorem _set_sync_speeds_loop_run (d : ℚ) (ss : List speed_t) (last : speed_t)
    (rest : List (command_t AXES)) (w : world AXES SCurve)
    (hq : w.queue = (ss ++ [last]).map command_t.COMMAND_sync_speed ++ rest)
    (hready : ∀ s ∈ ss ++ [last], 0 ≤ s.offset ∧ s.offset ≤ d)
    (hpend : w.l.speed.offset ≤ d)
    (hstop : ∀ s tl, rest = command_t.COMMAND_sync_speed s :: tl → s.offset < 0 ∨ d < s.offset) :
    ∃ wf : world AXES SCurve,
      _set_sync_speeds_loop d w FLT_MAX = (last.speed, wf) ∧ wf.trace = w.trace ∧
      (wf.queue = rest ∨ wf.queue = rest.tail) := by
  have hneg : (-1 : ℚ) < 0 := by norm_num
  have hrun : _set_sync_speeds_loop d w FLT_MAX
      = _set_sync_speeds_loop d
          { w with queue := rest, l := { w.l with speed := { last with offset := -1 } } }
          last.speed := by
    by_cases hoff : w.l.speed.offset < 0
    · exact _set_sync_speeds_loop_consume d ss last rest w FLT_MAX hoff hq hready
    · have hl := _set_sync_speeds_load_idem w (not_lt.mp hoff)
      rw [_set_sync_speeds_loop_step d w FLT_MAX (by rw [hl]; exact not_lt.mp hoff)
        (by rw [hl]; exact hpend), hl]
      rw [_set_sync_speeds_loop_consume d ss last rest (_set_sync_speeds_done w)
        w.l.speed.speed hneg hq hready]
      rfl
  rw [hrun]
  rcases _set_sync_speeds_load_cases
    ({ w with queue := rest, l := { w.l with speed := { last with offset := -1 } } } :
      world AXES SCurve) with hl | ⟨-, s, tl, hr, hl⟩
  · rw [_set_sync_speeds_loop_break d _ _ (by rw [hl]; exact Or.inl hneg), hl]
    exact ⟨_, rfl, rfl, Or.inl rfl⟩
  · have hr2 : rest = command_t.COMMAND_sync_speed s :: tl := hr
    rw [_set_sync_speeds_loop_break d _ _ (by rw [hl]; exact hstop s tl hr2), hl]
    refine ⟨_, rfl, rfl, Or.inr ?_⟩
    rw [hr2]
    rfl

/-- C25, the counterexample: with the speeds 100 (offset `1/2`) and `FLT_MAX`
(offset 1) at the head of the queue and nothing pending, the call at
`d = 11/10` takes both from the queue and applies no speed; with the speeds
100 (offset `1/2`) and 200 (offset 1) at the head of the queue and the speed
50 at offset 5 pending, the call at `d = 11/10` takes neither from the queue
and applies no speed. -/
theorem _set_sync_speeds_none_applied :
    sample_world_sync_max.queue
      = [command_t.COMMAND_sync_speed { offset := 1 / 2, speed := 100 },
         command_t.COMMAND_sync_speed { offset := 1, speed := FLT_MAX }] ∧
    (_set_sync_speeds (11 / 10) sample_world_sync_max).queue = [] ∧
    (_set_sync_speeds (11 / 10) sample_world_sync_max).trace = [] ∧
    sample_world_sync_blocked.queue
      = [command_t.COMMAND_sync_speed { offset := 1 / 2, speed := 100 },
         command_t.COMMAND_sync_speed { offset := 1, speed := 200 }] ∧
    _set_sync_speeds (11 / 10) sample_world_sync_blocked = sample_world_sync_blocked := by
  have hmax : _set_sync_speeds_loop (11 / 10) sample_world_sync_max FLT_MAX
      = (FLT_MAX,
          { sample_world_sync_max with
            queue := []
            l := { sample_world_sync_max.l with speed := { offset := -1, speed := FLT_MAX } } }) := by
    rw [_set_sync_speeds_loop_consume (11 / 10) [{ offset := 1 / 2, speed := 100 }]
      { offset := 1, speed := FLT_MAX } [] sample_world_sync_max FLT_MAX
      (by
        show (-1 : ℚ) < 0
        norm_num)
      rfl
      (by
        intro s hs
        simp only [List.cons_append, List.nil_append, List.mem_cons, List.mem_singleton,
          List.not_mem_nil, or_false] at hs
        rcases hs with h | h <;> rw [h] <;> norm_num)]
    rw [_set_sync_speeds_loop_break _ _ _
      (by
        left
        show (-1 : ℚ) < 0
        norm_num)]
    rfl
  have hblocked : _set_sync_speeds_loop (11 / 10) sample_world_sync_blocked FLT_MAX
      = (FLT_MAX, sample_world_sync_blocked) := by
    rw [_set_sync_speeds_loop_break _ _ _
      (by
        right
        rw [_set_sync_speeds_load_idem _ (by
          show (0 : ℚ) ≤ 5
          norm_num)]
        show (11 / 10 : ℚ) < 5
        norm_num)]
    rw [_set_sync_speeds_load_idem _ (by
      show (0 : ℚ) ≤ 5
      norm_num)]
  refine ⟨rfl, ?_, ?_, rfl, ?_⟩
  · unfold _set_sync_speeds
    rw [hmax]
    simp
  · unfold _set_sync_speeds
    rw [hmax]
    simp only [ne_eq, not_true_eq_false, if_false]
    rfl
  · unfold _set_sync_speeds
    rw [hblocked]
    simp

/-- C25, as amended: a call of `_set_sync_speeds(d)` calls
`spindle_set_speed` at most once, and only with the speed of an event that is
ready, that is, whose offset is in `[0, d]`: the pending one or one in the
queue.  When no event with an offset above `d` is pending and the queue starts
with a run of synchronized speeds whose offsets are in `[0, d]`, followed by
no further one that is ready, the call takes all of them from the queue and
applies the speed of the last one; when that speed is `FLT_MAX` it applies
none.  A synchronized speed with a negative offset that is loaded from the
head of the queue is taken from the queue without a call and leaves no event
pending.  `command_sync_speed` queues the offset and the speed that it
decodes without checking them. -/
theorem _set_sync_speeds_coalesces (E : env AXES SCurve) (cmd : List Char) (d : ℚ)
    (w : world AXES SCurve) (ss : List speed_t) (last : speed_t)
    (rest : List (command_t AXES))
    (hq : w.queue = (ss ++ [last]).map command_t.COMMAND_sync_speed ++ rest)
    (hready : ∀ s ∈ ss ++ [last], 0 ≤ s.offset ∧ s.offset ≤ d)
    (hpend : w.l.speed.offset ≤ d)
    (hstop : ∀ s tl, rest = command_t.COMMAND_sync_speed s :: tl → s.offset < 0 ∨ d < s.offset) :
    (∀ w2 : world AXES SCurve, ∃ tr,
      (_set_sync_speeds d w2).trace = w2.trace ++ tr ∧
      (tr = [] ∨ ∃ x, tr = [event.spindle_set_speed x] ∧
        ((0 ≤ w2.l.speed.offset ∧ w2.l.speed.offset ≤ d ∧ x = w2.l.speed.speed) ∨
          ∃ s, command_t.COMMAND_sync_speed s ∈ w2.queue ∧ 0 ≤ s.offset ∧ s.offset ≤ d ∧
            x = s.speed))) ∧
    ((_set_sync_speeds d w).queue = rest ∨ (_set_sync_speeds d w).queue = rest.tail) ∧
    (last.speed ≠ FLT_MAX →
      (_set_sync_speeds d w).trace = w.trace ++ [event.spindle_set_speed last.speed]) ∧
    (last.speed = FLT_MAX → (_set_sync_speeds d w).trace = w.trace) ∧
    (∀ (w2 : world AXES SCurve) (s : speed_t) (tl : List (command_t AXES)),
      w2.l.speed.offset < 0 → w2.queue = command_t.COMMAND_sync_speed s :: tl →
      s.offset < 0 →
      _set_sync_speeds d w2 = { w2 with queue := tl, l := { w2.l with speed := s } }) ∧
    (∀ (offset speed : ℚ) (n1 n2 : Nat),
      E.decode_float (cmd.drop 1) = (some offset, n1) →
      E.decode_float ((cmd.drop 1).drop n1) = (some speed, n2) →
      command_sync_speed E cmd w
        = (stat_t.STAT_OK,
            command_push (command_t.COMMAND_sync_speed { offset := offset, speed := speed })
              w)) := by
  obtain ⟨wf, hloop, htrace, hqueue⟩ := _set_sync_speeds_loop_run d ss last rest w hq hready
    hpend hstop
  refine ⟨fun w2 => ?_, ?_, fun hne => ?_, fun he => ?_, fun w2 s tl hoff hq2 hs => ?_,
    fun offset speed n1 n2 h1 h2 => ?_⟩
  · obtain ⟨q, sp, hframe⟩ := _set_sync_speeds_loop_frame d w2 FLT_MAX
    have hr := _set_sync_speeds_loop_ready d w2 FLT_MAX
    unfold _set_sync_speeds
    rcases hl : _set_sync_speeds_loop d w2 FLT_MAX with ⟨r, w3⟩
    rw [hl] at hframe hr
    simp only [] at hframe hr ⊢
    by_cases hne : r ≠ FLT_MAX
    · rw [if_pos hne]
      refine ⟨[event.spindle_set_speed r], by rw [hframe]; rfl, Or.inr ⟨r, rfl, ?_⟩⟩
      rcases hr with h | h | h
      · exact absurd h hne
      · exact Or.inl h
      · exact Or.inr h
    · rw [if_neg hne]
      exact ⟨[], by rw [hframe]; simp, Or.inl rfl⟩
  · unfold _set_sync_speeds
    rw [hloop]
    simp only []
    split
    · exact hqueue
    · exact hqueue
  · unfold _set_sync_speeds
    rw [hloop]
    simp only [hne, ne_eq, not_false_eq_true, if_true, spindle_set_speed, htrace]
  · unfold _set_sync_speeds
    rw [hloop]
    simp only [he, ne_eq, not_true_eq_false, if_false, htrace]
  · have hl := _set_sync_speeds_load_sync w2 s tl hoff hq2
    unfold _set_sync_speeds
    rw [_set_sync_speeds_loop_break d w2 FLT_MAX (by rw [hl]; exact Or.inl hs), hl]
    simp
  · unfold command_sync_speed
    simp only [h1, h2]

/-- C25, as amended, on the sample worlds: with the speeds 100 (offset `1/2`)
and 200 (offset 1) queued and nothing pending, the call at `d = 11/10` empties
the queue and applies 200 only; the speed 300 queued at offset `-1` is taken
from the queue and not applied. -/
theorem _set_sync_speeds_coalesces_witness :
    (_set_sync_speeds (11 / 10) sample_world_sync).queue = [] ∧
    (_set_sync_speeds (11 / 10) sample_world_sync).trace = [event.spindle_set_speed 200] ∧
    (_set_sync_speeds (11 / 10) sample_world_sync_negative).queue = [] ∧
    (_set_sync_speeds (11 / 10) sample_world_sync_negative).trace = [] := by
  obtain ⟨-, hqueue, happly, -, hnegative, -⟩ :=
    _set_sync_speeds_coalesces sample_env sample_sync_speed_negative (11 / 10)
      sample_world_sync [{ offset := 1 / 2, speed := 100 }] { offset := 1, speed := 200 } []
      rfl
      (by
        intro s hs
        simp only [List.cons_append, List.nil_append, List.mem_cons, List.mem_singleton,
          List.not_mem_nil, or_false] at hs
        rcases hs with h | h <;> rw [h] <;> norm_num)
      (by
        show (-1 : ℚ) ≤ 11 / 10
        norm_num)
      (by
        intro s tl h
        exact absurd h (List.noConfusion))
  have hneg := hnegative sample_world_sync_negative { offset := -1, speed := 300 } []
    (by
      show (-1 : ℚ) < 0
      norm_num)
    rfl
    (by
      show (-1 : ℚ) < 0
      norm_num)
  refine ⟨?_, ?_, ?_, ?_⟩
  · rcases hqueue with h | h <;> rw [h]
    rfl
  · rw [happly (by
      show (200 : ℚ) ≠ FLT_MAX
      norm_num [FLT_MAX])]
    rfl
  · rw [hneg]
  · rw [hneg]
    rfl

end Bbctrl
